import Mathlib

/-!
# Verification of the Cesium 3D-tileset traversal engine

A shallow embedding of `Source/Scene/Cesium3DTilesetTraversal.js`.

The tile tree is an arena: tile ids are natural numbers and the tileset
holds a total function from ids to tile records.  JS numbers are modelled
by rationals.  The external tile methods that the traversal consumes
(`tile.updateVisibility`, `tile.getScreenSpaceError`, `tile.contentVisibility`,
`tile.updateExpiration`, the content availability getters) are not part of
the repository source; following the spec's external-interface section they
are deterministic within one frame, so they are modelled by per-frame
constant oracle fields stored on each tile.  Every invocation of the
tile-level visibility recomputation is appended to a log so that
"computed at most once" properties can be stated.

All loops are written with an explicit fuel parameter; the statements below
either hold for every fuel or supply enough fuel for the tree at hand.
-/

namespace Cesium

/-- `Cesium3DTileRefine`: ADD or REPLACE refinement. -/
inductive Refine where
  | add : Refine
  | replace : Refine
deriving Repr, DecidableEq

/-- One tile of the bounded-volume hierarchy.

Fields without an underscore prefix are structural data or per-frame
constant oracles for the external tile methods; fields with an underscore
prefix mirror the per-frame mutable scratch fields of `Cesium3DTile`. -/
structure Tile where
  parent : Option Nat
  /-- `tile.children`, as a list of arena ids.  Mutable: the traversal
  sorts it in place. -/
  children : List Nat
  depth : Nat
  refine : Refine
  hasEmptyContent : Bool
  hasTilesetContent : Bool
  /-- `tile._boundingVolume.boundingSphere.radius`. -/
  boundingSphereRadius : ℚ
  /-- Modelled from the spec: `distanceToTile(frameState)`, precomputed into
  `tile._distanceToCamera` by the external visibility update; per-frame constant. -/
  distanceToCamera : ℚ
  /-- Modelled from the spec: `distanceToTileCenter(frameState)`, the signed
  camera-space depth of the volume center (`tile._centerZDepth`). -/
  centerZDepth : ℚ
  /-- Modelled from the spec: `tile._screenSpaceError` as recomputed by the
  external visibility update; per-frame constant. -/
  screenSpaceError : ℚ
  /-- Modelled from the spec: `tile.getScreenSpaceError(frameState, true)`,
  the screen-space error computed with the parent's geometric error. -/
  screenSpaceErrorParentGE : ℚ
  /-- Modelled from the spec: what the external `tile.updateVisibility`
  writes into `tile._visible` this frame. -/
  visibleOracle : Bool
  /-- Modelled from the spec: what the external `tile.updateVisibility`
  writes into `tile._inRequestVolume` this frame. -/
  inRequestVolumeOracle : Bool
  /-- Modelled from the spec: whether `tile.contentVisibility(frameState)`
  returns `Intersect.OUTSIDE` this frame. -/
  contentVisibilityOutside : Bool
  contentUnloaded : Bool
  contentAvailable : Bool
  contentExpired : Bool
  optimChildrenWithinParent : Bool
  featurePropertiesDirty : Bool
  _visible : Bool
  _inRequestVolume : Bool
  _updatedVisibilityFrame : Int
  _priorityDistance : ℚ
  _priorityDistanceHolder : Nat
  _wasMinChild : Bool
  _shouldSelect : Bool
  _finalResolution : Bool
  _refines : Bool
  _selectionDepth : Nat
  _stackLength : Nat
  _ancestorWithContent : Option Nat
  _ancestorWithContentAvailable : Option Nat
  _visitedFrame : Int
  _touchedFrame : Int
  _selectedFrame : Int
  _requestedFrame : Int
  _decendantsThatHaveFadedIn : Nat
  _decendantsThatHaveFadedInLastFrame : Nat
  _decendantsCount : Nat
  lastStyleTime : ℚ
deriving Repr, DecidableEq

/-- The tileset together with every piece of engine state `selectTiles`
reads or writes: configuration, output lists, statistics, the min/max
priority bookkeeping, the LRU-touch log and the visibility-computation log. -/
structure Tileset where
  tiles : Nat → Tile
  root : Nat
  maximumScreenSpaceError : ℚ
  baseScreenSpaceError : ℚ
  skipScreenSpaceErrorFactor : ℚ
  skipLevels : Nat
  _skipLevelOfDetail : Bool
  immediatelyLoadDesiredLevelOfDetail : Bool
  loadSiblings : Bool
  debugFreezeFrame : Bool
  _updatedVisibilityFrame : Int
  _selectedTiles : List Nat
  _selectedTilesToStyle : List Nat
  _requestedTiles : List Nat
  _emptyTiles : List Nat
  _hasMixedContent : Bool
  statisticsVisited : Nat
  statisticsCulledWithChildrenUnion : Nat
  maxPriorityDistance : ℚ
  maxPriorityLevel : Nat
  minPriorityDistance : ℚ
  minPriorityLevel : Nat
  minDistanceTile : Option Nat
  minPriorityHolder : Option Nat
  /-- Log of `tileset._cache.touch(tile)` calls. -/
  cacheTouches : List Nat
  /-- Log of invocations of the tile-level visibility recomputation
  (`tile.updateVisibility(frameState)`), one entry per invocation. -/
  visibilityComputations : List Nat
  /-- Whether `tileset._heatmap.resetMinMax()` was invoked this frame. -/
  heatmapWasReset : Bool

/-- Replace the tile stored at `id` by `g` applied to it. -/
def modifyTile (ts : Tileset) (id : Nat) (g : Tile → Tile) : Tileset :=
  { ts with tiles := fun j => if j = id then g (ts.tiles j) else ts.tiles j }

@[simp] theorem modifyTile_tiles (ts : Tileset) (id : Nat) (g : Tile → Tile) (j : Nat) :
    (modifyTile ts id g).tiles j = if j = id then g (ts.tiles j) else ts.tiles j := rfl

/-- `Number.MAX_VALUE`, the largest finite double: 2 ^ 1024 - 2 ^ 971,
written out in digits so that it evaluates by kernel reduction
(see `numberMaxValue_eq`). -/
def numberMaxValue : ℚ := (179769313486231570814527423731704356798070567525844996598917476803157260780028538760589558632766878171540458953514382464234321326889464182768467546703537516986049910576551282076245490090389328944075868508455133942304583236903222948165808559332123348274797826204144723168738177180919299881250404026184124858368 : ℕ)

/-- `var descendantSelectionDepth = 2;` -/
def descendantSelectionDepth : Int := 2

/-- `isVisible(tile)`. -/
def isVisible (ts : Tileset) (id : Nat) : Bool :=
  (ts.tiles id)._visible && (ts.tiles id)._inRequestVolume

/-- `skipLevelOfDetail(tileset)`. -/
def skipLevelOfDetail (ts : Tileset) : Bool := ts._skipLevelOfDetail

/-- `hasEmptyContent(tile)` (the module-level helper, not the tile getter). -/
def hasEmptyContent (t : Tile) : Bool := t.hasEmptyContent || t.hasTilesetContent

/-- `hasUnloadedContent(tile)`. -/
def hasUnloadedContent (t : Tile) : Bool := !hasEmptyContent t && t.contentUnloaded

/-- Modelled from the spec: `CesiumMath.clamp(value, min, max)` from the
external `Core/Math` module: `value < min ? min : value > max ? max : value`. -/
def clamp (value lo hi : ℚ) : ℚ := if value < lo then lo else if value > hi then hi else value

/-- `getPriority(tileset, tile)`: the live code path of the function. -/
def getPriority (ts : Tileset) (id : Nat) : ℚ :=
  let t := ts.tiles id
  clamp (t.centerZDepth - t.boundingSphereRadius) 0 t.centerZDepth

/-- The external `tile.updateVisibility(frameState)`: writes the per-frame
visibility results into the scratch fields and is logged. -/
def tileUpdateVisibility (ts : Tileset) (id : Nat) : Tileset :=
  let ts := modifyTile ts id fun t =>
    { t with _visible := t.visibleOracle, _inRequestVolume := t.inRequestVolumeOracle }
  { ts with visibilityComputations := ts.visibilityComputations ++ [id] }

/-- `updateVisibility(tileset, tile, frameState)`: the module-level wrapper
that memoizes on the `_updatedVisibilityFrame` epoch. -/
def updateVisibility (ts : Tileset) (id : Nat) : Tileset :=
  if (ts.tiles id)._updatedVisibilityFrame = ts._updatedVisibilityFrame then ts
  else
    let ts' := tileUpdateVisibility ts id
    modifyTile ts' id fun t => { t with _updatedVisibilityFrame := ts._updatedVisibilityFrame }

/-- `anyChildrenVisible(tileset, tile, frameState)`. -/
def anyChildrenVisible (ts : Tileset) (id : Nat) : Tileset × Bool :=
  (ts.tiles id).children.foldl
    (fun (p : Tileset × Bool) c =>
      let ts := updateVisibility p.1 c
      (ts, p.2 || isVisible ts c))
    (ts, false)

/-- `meetsScreenSpaceErrorEarly(tileset, tile, frameState)`. -/
def meetsScreenSpaceErrorEarly (ts : Tileset) (id : Nat) : Bool :=
  match (ts.tiles id).parent with
  | none => false
  | some p =>
      if (ts.tiles p).hasTilesetContent || (ts.tiles p).refine ≠ Refine.add then false
      else decide ((ts.tiles id).screenSpaceErrorParentGE ≤ ts.maximumScreenSpaceError)

/-- `updateTileVisibility(tileset, tile, frameState)` (unreferenced in this
snapshot's live call graph, modelled for completeness; the recursion through
external-tileset roots is bounded by `fuel`). -/
def updateTileVisibility (ts : Tileset) (id : Nat) : Nat → Tileset
  | 0 => ts
  | fuel + 1 =>
    let ts := updateVisibility ts id
    if !isVisible ts id then ts
    else
      let hasChildren := (ts.tiles id).children.length > 0
      if (ts.tiles id).hasTilesetContent && hasChildren then
        match (ts.tiles id).children with
        | [] => ts
        | c :: _ =>
            let ts := updateTileVisibility ts c fuel
            modifyTile ts id fun t => { t with _visible := (ts.tiles c)._visible }
      else if meetsScreenSpaceErrorEarly ts id then
        modifyTile ts id fun t => { t with _visible := false }
      else
        let replace := (ts.tiles id).refine = Refine.replace
        let useOptimization := (ts.tiles id).optimChildrenWithinParent
        if replace && useOptimization && hasChildren then
          let (ts, anyVis) := anyChildrenVisible ts id
          if !anyVis then
            let ts := { ts with statisticsCulledWithChildrenUnion := ts.statisticsCulledWithChildrenUnion + 1 }
            modifyTile ts id fun t => { t with _visible := false }
          else ts
        else ts

/-- `updateTile(tileset, tile, frameState)`: reset the per-frame scratch
block; calls the external `tile.updateVisibility` directly (no memoization)
and the external `tile.updateExpiration` (no modelled effect). -/
def updateTile (ts : Tileset) (id : Nat) : Tileset :=
  let ts := tileUpdateVisibility ts id
  let pr := getPriority ts id
  modifyTile ts id fun t =>
    { t with
      _priorityDistance := pr
      _priorityDistanceHolder := id
      _decendantsThatHaveFadedIn := 0
      _decendantsThatHaveFadedInLastFrame := 0
      _decendantsCount := 0
      _wasMinChild := false
      _shouldSelect := false
      _finalResolution := true }

/-- `updateTileAncestorContentLinks(tile, frameState)`. -/
def updateTileAncestorContentLinks (ts : Tileset) (id : Nat) (frame : Int) : Tileset :=
  let ts := modifyTile ts id fun t =>
    { t with _ancestorWithContent := none, _ancestorWithContentAvailable := none }
  match (ts.tiles id).parent with
  | none => ts
  | some p =>
      let pt := ts.tiles p
      let hasContent := !hasUnloadedContent pt || pt._requestedFrame = frame
      modifyTile ts id fun t =>
        { t with
          _ancestorWithContent := if hasContent then some p else pt._ancestorWithContent
          _ancestorWithContentAvailable :=
            if pt.contentAvailable then some p else pt._ancestorWithContentAvailable }

/-- `visitTile(tileset, tile, frameState)`. -/
def visitTile (ts : Tileset) (id : Nat) (frame : Int) : Tileset :=
  let ts := { ts with statisticsVisited := ts.statisticsVisited + 1 }
  modifyTile ts id fun t => { t with _visitedFrame := frame }

/-- `touchTile(tileset, tile, frameState)`: idempotent per frame through the
`_touchedFrame` stamp. -/
def touchTile (ts : Tileset) (id : Nat) (frame : Int) : Tileset :=
  if (ts.tiles id)._touchedFrame = frame then ts
  else
    let ts := { ts with cacheTouches := ts.cacheTouches ++ [id] }
    modifyTile ts id fun t => { t with _touchedFrame := frame }

/-- `updateMinMaxPriority(tileset, tile)`. -/
def updateMinMaxPriority (ts : Tileset) (id : Nat) : Tileset :=
  let t := ts.tiles id
  let holderPriority := (ts.tiles t._priorityDistanceHolder)._priorityDistance
  let ts := { ts with maxPriorityDistance := max holderPriority ts.maxPriorityDistance }
  let ts :=
    if t._priorityDistance < ts.minPriorityDistance then
      { ts with minPriorityDistance := t._priorityDistance, minDistanceTile := some id }
    else ts
  let ts :=
    if holderPriority ≤ ts.minPriorityDistance then { ts with minPriorityHolder := some id }
    else ts
  { ts with
    maxPriorityLevel := max t.depth ts.maxPriorityLevel
    minPriorityLevel := min t.depth ts.minPriorityLevel }

/-- `loadTile(tileset, tile, frameState)`: append to `_requestedTiles` when
content is unloaded or expired.  No per-frame idempotence guard. -/
def loadTile (ts : Tileset) (id : Nat) (frame : Int) : Tileset :=
  if hasUnloadedContent (ts.tiles id) || (ts.tiles id).contentExpired then
    let ts := modifyTile ts id fun t => { t with _requestedFrame := frame }
    let ts := updateMinMaxPriority ts id
    { ts with _requestedTiles := ts._requestedTiles ++ [id] }
  else ts

/-- `addEmptyTile(tileset, tile)`. -/
def addEmptyTile (ts : Tileset) (id : Nat) : Tileset :=
  { ts with _emptyTiles := ts._emptyTiles ++ [id] }

/-- `selectTile(tileset, tile, frameState)`. -/
def selectTile (ts : Tileset) (id : Nat) (frame : Int) : Tileset :=
  if (ts.tiles id).contentVisibilityOutside then ts
  else
    let ts :=
      if (ts.tiles id).featurePropertiesDirty then
        let ts := modifyTile ts id fun t =>
          { t with featurePropertiesDirty := false, lastStyleTime := 0 }
        { ts with _selectedTilesToStyle := ts._selectedTilesToStyle ++ [id] }
      else if (ts.tiles id)._selectedFrame < frame - 1 then
        { ts with _selectedTilesToStyle := ts._selectedTilesToStyle ++ [id] }
      else ts
    let ts := modifyTile ts id fun t => { t with _selectedFrame := frame }
    { ts with _selectedTiles := ts._selectedTiles ++ [id] }

/-- `canTraverse(tileset, tile)`. -/
def canTraverse (ts : Tileset) (id : Nat) : Bool :=
  if (ts.tiles id).children.length = 0 then false
  else if (ts.tiles id).hasTilesetContent then !(ts.tiles id).contentExpired
  else decide ((ts.tiles id).screenSpaceError > ts.maximumScreenSpaceError)

/-- `inBaseTraversal(tileset, tile, baseScreenSpaceError)`.  The
`tile.parent` read on the leaf branch is only reachable when
`_ancestorWithContent` is set, which implies a parent exists; a missing
parent is mapped to screen-space error zero. -/
def inBaseTraversal (ts : Tileset) (id : Nat) (baseScreenSpaceError : ℚ) : Bool :=
  if !skipLevelOfDetail ts then true
  else if ts.immediatelyLoadDesiredLevelOfDetail then false
  else if (ts.tiles id)._ancestorWithContent.isNone then true
  else if (ts.tiles id).screenSpaceError = 0 then
    match (ts.tiles id).parent with
    | some p => decide ((ts.tiles p).screenSpaceError > baseScreenSpaceError)
    | none => decide ((0 : ℚ) > baseScreenSpaceError)
  else decide ((ts.tiles id).screenSpaceError > baseScreenSpaceError)

/-- `reachedSkippingThreshold(tileset, tile)`. -/
def reachedSkippingThreshold (ts : Tileset) (id : Nat) : Bool :=
  match (ts.tiles id)._ancestorWithContent with
  | none => false
  | some a =>
      !ts.immediatelyLoadDesiredLevelOfDetail &&
      decide ((ts.tiles id).screenSpaceError <
        (ts.tiles a).screenSpaceError / ts.skipScreenSpaceErrorFactor) &&
      decide ((ts.tiles id).depth > (ts.tiles a).depth + ts.skipLevels)

/-- `sortChildrenByDistanceToCamera(a, b)`: the JS comparator.  Sorts by
farthest first; when both distances are exactly zero, by descending
`_centerZDepth`. -/
def sortChildrenByDistanceToCamera (ts : Tileset) (a b : Nat) : ℚ :=
  if (ts.tiles b).distanceToCamera = 0 && (ts.tiles a).distanceToCamera = 0 then
    (ts.tiles b).centerZDepth - (ts.tiles a).centerZDepth
  else (ts.tiles b).distanceToCamera - (ts.tiles a).distanceToCamera

/-- Stable insertion used to model `Array.prototype.sort` with a comparator:
`x` goes in front of the first element `y` with `cmp x y ≤ 0`, so elements
comparing equal keep their relative order (ES2019 sort is stable). -/
def insertByCmp (le : Nat → Nat → Bool) (x : Nat) : List Nat → List Nat
  | [] => [x]
  | y :: ys => if le x y then x :: y :: ys else y :: insertByCmp le x ys

/-- Stable sort by a JS comparator (insertion sort). -/
def sortByCmp (le : Nat → Nat → Bool) : List Nat → List Nat
  | [] => []
  | x :: xs => insertByCmp le x (sortByCmp le xs)

/-- The boolean ordering test derived from the JS comparator. -/
def childSortLE (ts : Tileset) (a b : Nat) : Bool :=
  decide (sortChildrenByDistanceToCamera ts a b ≤ 0)

/-- `executeEmptyTraversal`: the body of the while loop, recursing on fuel.
The stack holds arena ids with the top at the head. -/
def executeEmptyTraversalLoop (frame : Int) : Nat → Tileset → List Nat → Bool → Tileset × Bool
  | 0, ts, _, acc => (ts, acc)
  | _ + 1, ts, [], acc => (ts, acc)
  | fuel + 1, ts, id :: stack, acc =>
      let t := ts.tiles id
      let traverse := hasEmptyContent t && canTraverse ts id
      let acc := if !traverse && !t.contentAvailable then false else acc
      let ts := updateTile ts id
      let ts :=
        if !isVisible ts id then touchTile (loadTile ts id frame) id frame
        else ts
      let stack := if traverse then (ts.tiles id).children.reverse ++ stack else stack
      executeEmptyTraversalLoop frame fuel ts stack acc

/-- `executeEmptyTraversal(tileset, root, frameState) → allDescendantsLoaded`. -/
def executeEmptyTraversal (ts : Tileset) (rootId : Nat) (frame : Int) (fuel : Nat) :
    Tileset × Bool :=
  executeEmptyTraversalLoop frame fuel ts [rootId] true

/-- State threaded through the child loop of `updateAndPushChildren`. -/
structure PushChildrenState where
  ts : Tileset
  stack : List Nat
  refines : Bool
  anyChildrenVisible : Bool
  minIndex : Option Nat
  minDistancePriority : ℚ

/-- The visibility part of one iteration of the child loop of
`updateAndPushChildren` for child `c` at index `i`: push a visible child or
load a refine-blocking or sibling tile, tracking the minimum priority. -/
def pushChildrenVisit (frame : Int) (checkRefines loadSibs : Bool)
    (st : PushChildrenState) (i : Nat) (c : Nat) : PushChildrenState :=
  if isVisible st.ts c then
    let st := { st with stack := c :: st.stack, anyChildrenVisible := true }
    if (st.ts.tiles c)._priorityDistance < st.minDistancePriority then
      { st with minIndex := some i, minDistancePriority := (st.ts.tiles c)._priorityDistance }
    else st
  else if checkRefines || loadSibs then
    let st :=
      if (st.ts.tiles c)._priorityDistance < st.minDistancePriority then
        { st with minIndex := some i, minDistancePriority := (st.ts.tiles c)._priorityDistance }
      else st
    let ts := loadTile st.ts c frame
    let ts := touchTile ts c frame
    { st with ts := ts }
  else st

/-- The replacement-refinement part of one iteration of the child loop of
`updateAndPushChildren` for child `c`. -/
def pushChildrenRefines (frame : Int) (fuel : Nat) (checkRefines : Bool)
    (st : PushChildrenState) (c : Nat) : PushChildrenState :=
  if checkRefines then
    let p :=
      if !(st.ts.tiles c)._inRequestVolume then (st.ts, false)
      else if hasEmptyContent (st.ts.tiles c) then executeEmptyTraversal st.ts c frame fuel
      else (st.ts, (st.ts.tiles c).contentAvailable)
    { st with ts := p.1, refines := st.refines && p.2 }
  else st

/-- One iteration of the child loop of `updateAndPushChildren` for child `c`
at index `i`. -/
def pushChildrenStep (frame : Int) (fuel : Nat) (checkRefines loadSibs : Bool)
    (st : PushChildrenState) (i : Nat) (c : Nat) : PushChildrenState :=
  pushChildrenRefines frame fuel checkRefines
    (pushChildrenVisit frame checkRefines loadSibs st i c) c

/-- The child loop of `updateAndPushChildren`, indexed from `i`. -/
def pushChildrenLoop (frame : Int) (fuel : Nat) (checkRefines loadSibs : Bool) :
    List Nat → Nat → PushChildrenState → PushChildrenState
  | [], _, st => st
  | c :: rest, i, st =>
      pushChildrenLoop frame fuel checkRefines loadSibs rest (i + 1)
        (pushChildrenStep frame fuel checkRefines loadSibs st i c)

/-- `updateAndPushChildren(tileset, tile, stack, frameState) → refines`:
updates every child, sorts the children array in place, pushes visible
children, loads refine-blocking or sibling tiles, accumulates the
replacement-refinement conjunction, and wires up the priority chain. -/
def updateAndPushChildren (ts : Tileset) (id : Nat) (stack : List Nat) (frame : Int)
    (fuel : Nat) : Tileset × List Nat × Bool :=
  let replace := (ts.tiles id).refine = Refine.replace
  let ts := (ts.tiles id).children.foldl (fun ts c => updateTile ts c) ts
  let sorted := sortByCmp (childSortLE ts) (ts.tiles id).children
  let ts := modifyTile ts id fun t => { t with children := sorted }
  let checkRefines := !skipLevelOfDetail ts && replace && !hasEmptyContent (ts.tiles id)
  let st0 : PushChildrenState :=
    { ts := ts, stack := stack, refines := true, anyChildrenVisible := false
      minIndex := none, minDistancePriority := numberMaxValue }
  let st := pushChildrenLoop frame fuel checkRefines ts.loadSiblings sorted 0 st0
  let refines := if !st.anyChildrenVisible then false else st.refines
  match st.minIndex with
  | none => (st.ts, st.stack, refines)
  | some minIndex =>
      let ts := st.ts
      match sorted.get? minIndex with
      | none => (ts, st.stack, refines)
      | some minPriorityChild =>
          let ts := modifyTile ts minPriorityChild fun t => { t with _wasMinChild := true }
          let priorityHolder :=
            if (ts.tiles id)._wasMinChild || id = ts.root then
              (ts.tiles id)._priorityDistanceHolder
            else id
          let ts := modifyTile ts priorityHolder fun t =>
            { t with _priorityDistance := (ts.tiles minPriorityChild)._priorityDistance }
          let ts := sorted.foldl
            (fun ts c => modifyTile ts c fun t => { t with _priorityDistanceHolder := priorityHolder })
            ts
          (ts, st.stack, refines)

/-- `selectDescendants`: the body of the bounded descent loop. -/
def selectDescendantsLoop (frame : Int) (rootDepth : Nat) :
    Nat → Tileset → List Nat → Tileset
  | 0, ts, _ => ts
  | _ + 1, ts, [] => ts
  | fuel + 1, ts, id :: stack =>
      let (ts, stack) := (ts.tiles id).children.foldl
        (fun (p : Tileset × List Nat) c =>
          let (ts, stack) := p
          if isVisible ts c then
            if (ts.tiles c).contentAvailable then
              let ts := updateTile ts c
              let ts := touchTile ts c frame
              (selectTile ts c frame, stack)
            else if ((ts.tiles c).depth : Int) - (rootDepth : Int) < descendantSelectionDepth then
              (ts, c :: stack)
            else (ts, stack)
          else (ts, stack))
        (ts, stack)
      selectDescendantsLoop frame rootDepth fuel ts stack

/-- `selectDescendants(tileset, root, frameState)`. -/
def selectDescendants (ts : Tileset) (rootId : Nat) (frame : Int) (fuel : Nat) : Tileset :=
  selectDescendantsLoop frame (ts.tiles rootId).depth fuel ts [rootId]

/-- `selectDesiredTile(tileset, tile, frameState)`. -/
def selectDesiredTile (ts : Tileset) (id : Nat) (frame : Int) (fuel : Nat) : Tileset :=
  if !skipLevelOfDetail ts then
    if (ts.tiles id).contentAvailable then selectTile ts id frame else ts
  else
    let loadedTile :=
      if (ts.tiles id).contentAvailable then some id
      else (ts.tiles id)._ancestorWithContentAvailable
    match loadedTile with
    | some lt => modifyTile ts lt fun t => { t with _shouldSelect := true }
    | none => selectDescendants ts id frame fuel

/-- The body of one iteration of `executeTraversal` for the popped tile. -/
def executeTraversalStep (ts : Tileset) (id : Nat) (stack : List Nat)
    (baseScreenSpaceError : ℚ) (frame : Int) (fuel : Nat) : Tileset × List Nat :=
  let ts := updateTileAncestorContentLinks ts id frame
  let baseTraversal := inBaseTraversal ts id baseScreenSpaceError
  let add := (ts.tiles id).refine = Refine.add
  let replace := (ts.tiles id).refine = Refine.replace
  let parentRefines :=
    match (ts.tiles id).parent with
    | none => true
    | some p => (ts.tiles p)._refines
  let (ts, stack, refines) :=
    if canTraverse ts id then
      let (ts, stack, childrenRefine) := updateAndPushChildren ts id stack frame fuel
      (ts, stack, childrenRefine && parentRefines)
    else (ts, stack, false)
  let stoppedRefining := !refines && parentRefines
  let ts :=
    if hasEmptyContent (ts.tiles id) then
      let ts := addEmptyTile ts id
      let ts := loadTile ts id frame
      if stoppedRefining then selectDesiredTile ts id frame fuel else ts
    else if add then
      let ts := selectDesiredTile ts id frame fuel
      loadTile ts id frame
    else if replace then
      if baseTraversal then
        let ts := loadTile ts id frame
        if stoppedRefining then selectDesiredTile ts id frame fuel else ts
      else if stoppedRefining then
        let ts := selectDesiredTile ts id frame fuel
        loadTile ts id frame
      else if reachedSkippingThreshold ts id then loadTile ts id frame
      else ts
    else ts
  let ts := visitTile ts id frame
  let ts := touchTile ts id frame
  let ts := modifyTile ts id fun t => { t with _refines := refines }
  (ts, stack)

/-- `executeTraversal`: the depth-first while loop, recursing on fuel. -/
def executeTraversalLoop (baseScreenSpaceError : ℚ) (frame : Int) (fuel : Nat) :
    Nat → Tileset → List Nat → Tileset
  | 0, ts, _ => ts
  | _ + 1, ts, [] => ts
  | n + 1, ts, id :: stack =>
      let (ts, stack) := executeTraversalStep ts id stack baseScreenSpaceError frame fuel
      executeTraversalLoop baseScreenSpaceError frame fuel n ts stack

/-- `executeTraversal(tileset, root, baseScreenSpaceError, maximumScreenSpaceError, frameState)`. -/
def executeTraversal (ts : Tileset) (baseScreenSpaceError : ℚ) (frame : Int) (fuel : Nat) :
    Tileset :=
  executeTraversalLoop baseScreenSpaceError frame fuel fuel ts [ts.root]

/-- One iteration of `traverseAndSelect`.  Returns the new loop state. -/
def traverseAndSelectStep (ts : Tileset) (stack ancestorStack : List Nat)
    (lastAncestor : Option Nat) (frame : Int) :
    Tileset × List Nat × List Nat × Option Nat :=
  match ancestorStack with
  | w :: restAnc =>
      if (ts.tiles w)._stackLength = stack.length then
        let ts :=
          if some w ≠ lastAncestor then
            modifyTile ts w fun t => { t with _finalResolution := false }
          else ts
        (selectTile ts w frame, stack, restAnc, lastAncestor)
      else traverseAndSelectStepPop ts stack ancestorStack lastAncestor frame
  | [] => traverseAndSelectStepPop ts stack ancestorStack lastAncestor frame
where
  /-- The part of the loop body after the waiting-ancestor check: pop the
  main stack and process the tile. -/
  traverseAndSelectStepPop (ts : Tileset) (stack ancestorStack : List Nat)
      (lastAncestor : Option Nat) (frame : Int) :
      Tileset × List Nat × List Nat × Option Nat :=
    match stack with
    | [] => (ts, [], ancestorStack, lastAncestor)
    | id :: stack =>
        let add := (ts.tiles id).refine = Refine.add
        let shouldSelect := (ts.tiles id)._shouldSelect
        let traverse := canTraverse ts id
        let (ts, ancestorStack, lastAncestor, skipChildren) :=
          if shouldSelect then
            if add then (selectTile ts id frame, ancestorStack, lastAncestor, false)
            else
              let ts := modifyTile ts id fun t => { t with _selectionDepth := ancestorStack.length }
              let ts :=
                if ancestorStack.length > 0 then { ts with _hasMixedContent := true } else ts
              let lastAncestor := some id
              if !traverse then (selectTile ts id frame, ancestorStack, lastAncestor, true)
              else
                let ts := modifyTile ts id fun t => { t with _stackLength := stack.length }
                (ts, id :: ancestorStack, lastAncestor, false)
          else (ts, ancestorStack, lastAncestor, false)
        let stack :=
          if traverse && !skipChildren then
            (ts.tiles id).children.foldl
              (fun stack c => if isVisible ts c then c :: stack else stack) stack
          else stack
        (ts, stack, ancestorStack, lastAncestor)

/-- `traverseAndSelect`: the while loop, recursing on fuel. -/
def traverseAndSelectLoop (frame : Int) :
    Nat → Tileset → List Nat → List Nat → Option Nat → Tileset
  | 0, ts, _, _, _ => ts
  | fuel + 1, ts, stack, ancestorStack, lastAncestor =>
      if stack.length = 0 && ancestorStack.length = 0 then ts
      else
        let (ts, stack, ancestorStack, lastAncestor) :=
          traverseAndSelectStep ts stack ancestorStack lastAncestor frame
        traverseAndSelectLoop frame fuel ts stack ancestorStack lastAncestor

/-- `traverseAndSelect(tileset, root, frameState)`. -/
def traverseAndSelect (ts : Tileset) (frame : Int) (fuel : Nat) : Tileset :=
  traverseAndSelectLoop frame fuel ts [ts.root] [] none

/-- `executeBaseTraversal(tileset, root, frameState)`. -/
def executeBaseTraversal (ts : Tileset) (frame : Int) (fuel : Nat) : Tileset :=
  executeTraversal ts ts.maximumScreenSpaceError frame fuel

/-- `executeSkipTraversal(tileset, root, frameState)`. -/
def executeSkipTraversal (ts : Tileset) (frame : Int) (fuel : Nat) : Tileset :=
  let ts := executeTraversal ts numberMaxValue frame fuel
  traverseAndSelect ts frame fuel

/-- `executeBaseAndSkipTraversal(tileset, root, frameState)`. -/
def executeBaseAndSkipTraversal (ts : Tileset) (frame : Int) (fuel : Nat) : Tileset :=
  let ts := executeTraversal ts (max ts.baseScreenSpaceError ts.maximumScreenSpaceError) frame fuel
  traverseAndSelect ts frame fuel

/-- `Cesium3DTilesetTraversal.selectTiles(tileset, frameState)`.  The second
component models the JS return value: `none` for the early `return;`
statements (JS `undefined`) and `some true` for the final `return true;`. -/
def selectTiles (ts : Tileset) (frame : Int) (fuel : Nat) : Tileset × Option Bool :=
  let ts := { ts with _requestedTiles := [] }
  if ts.debugFreezeFrame then (ts, none)
  else
    let ts :=
      { ts with
        _selectedTiles := [], _selectedTilesToStyle := [], _emptyTiles := []
        _hasMixedContent := false }
    let ts := updateTile ts ts.root
    if !isVisible ts ts.root then (ts, none)
    else if (ts.tiles ts.root).screenSpaceErrorParentGE ≤ ts.maximumScreenSpaceError then
      (ts, none)
    else
      let ts := { ts with heatmapWasReset := true }
      let ts :=
        if !skipLevelOfDetail ts then executeBaseTraversal ts frame fuel
        else if ts.immediatelyLoadDesiredLevelOfDetail then executeSkipTraversal ts frame fuel
        else executeBaseAndSkipTraversal ts frame fuel
      (ts, some true)

/-! ## Specification-side pure definitions -/

/-- The proper-ancestor chain of a tile obtained by following `parent`
links, nearest first, cut off by fuel. -/
def ancestorChain (ts : Tileset) : Nat → Nat → List Nat
  | 0, _ => []
  | fuel + 1, id =>
      match (ts.tiles id).parent with
      | none => []
      | some p => p :: ancestorChain ts fuel p

/-- The projection of a tile to the fields that stay constant during one
`selectTiles` frame (structure, availability and the per-frame oracles).
`children` is included: it is only rewritten by the in-place sort, which
`executeEmptyTraversal` never performs. -/
structure TileStatic where
  parent : Option Nat
  children : List Nat
  depth : Nat
  refine : Refine
  hasEmptyContent : Bool
  hasTilesetContent : Bool
  boundingSphereRadius : ℚ
  distanceToCamera : ℚ
  centerZDepth : ℚ
  screenSpaceError : ℚ
  screenSpaceErrorParentGE : ℚ
  visibleOracle : Bool
  inRequestVolumeOracle : Bool
  contentVisibilityOutside : Bool
  contentUnloaded : Bool
  contentAvailable : Bool
  contentExpired : Bool
  optimChildrenWithinParent : Bool
deriving Repr, DecidableEq

/-- Project a tile to its per-frame constant part. -/
def staticOf (t : Tile) : TileStatic :=
  { parent := t.parent
    children := t.children
    depth := t.depth
    refine := t.refine
    hasEmptyContent := t.hasEmptyContent
    hasTilesetContent := t.hasTilesetContent
    boundingSphereRadius := t.boundingSphereRadius
    distanceToCamera := t.distanceToCamera
    centerZDepth := t.centerZDepth
    screenSpaceError := t.screenSpaceError
    screenSpaceErrorParentGE := t.screenSpaceErrorParentGE
    visibleOracle := t.visibleOracle
    inRequestVolumeOracle := t.inRequestVolumeOracle
    contentVisibilityOutside := t.contentVisibilityOutside
    contentUnloaded := t.contentUnloaded
    contentAvailable := t.contentAvailable
    contentExpired := t.contentExpired
    optimChildrenWithinParent := t.optimChildrenWithinParent }

/-- Two tilesets agree on every tile's per-frame constant part and on the
refinement budget. -/
def StaticEq (ts ts' : Tileset) : Prop :=
  (∀ j, staticOf (ts'.tiles j) = staticOf (ts.tiles j)) ∧
  ts'.maximumScreenSpaceError = ts.maximumScreenSpaceError

/-- The tiles at which the visibility-ignoring descent of
`executeEmptyTraversal` stops: every tile it visits for which
`hasEmptyContent ∧ canTraverse` does not hold, in visit order. -/
def emptyTraversalStops (ts : Tileset) : Nat → List Nat → List Nat
  | 0, _ => []
  | _ + 1, [] => []
  | fuel + 1, id :: stack =>
      let traverse := hasEmptyContent (ts.tiles id) && canTraverse ts id
      let rest := emptyTraversalStops ts fuel
        ((if traverse then (ts.tiles id).children.reverse else []) ++ stack)
      if traverse then rest else id :: rest

/-- The projection of a tile to the fields the priority chaining of
`updateAndPushChildren` reads: priority, holder and the visibility pair. -/
structure PriorityView where
  priorityDistance : ℚ
  priorityDistanceHolder : Nat
  visible : Bool
  inRequestVolume : Bool
deriving Repr, DecidableEq

/-- Project a tile to its priority-chaining view. -/
def priOf (t : Tile) : PriorityView :=
  { priorityDistance := t._priorityDistance
    priorityDistanceHolder := t._priorityDistanceHolder
    visible := t._visible
    inRequestVolume := t._inRequestVolume }

/-- Whether a child takes part in the minimum-priority tracking of
`updateAndPushChildren` when the refinement check is off: it is visible or
`loadSiblings` is set. -/
def trackedB (ts : Tileset) (loadSibs : Bool) (c : Nat) : Bool :=
  isVisible ts c || loadSibs

/-- Every tile whose `_shouldSelect` flag is raised has loaded content. -/
def ShouldSelectSound (ts : Tileset) : Prop :=
  ∀ id, (ts.tiles id)._shouldSelect = true → (ts.tiles id).contentAvailable = true

/-- Every `_ancestorWithContentAvailable` link points at a tile with loaded
content. -/
def AncestorLinkSound (ts : Tileset) : Prop :=
  ∀ id a, (ts.tiles id)._ancestorWithContentAvailable = some a →
    (ts.tiles a).contentAvailable = true

/-- Every REPLACE tile in `_selectedTiles` has loaded content. -/
def SelectedSound (ts : Tileset) : Prop :=
  ∀ id ∈ ts._selectedTiles,
    (ts.tiles id).refine = Refine.replace → (ts.tiles id).contentAvailable = true

/-- The combined selection invariant. -/
def Inv (ts : Tileset) : Prop :=
  ShouldSelectSound ts ∧ AncestorLinkSound ts ∧ SelectedSound ts

/-- Every tile waiting on the ancestor stack of `traverseAndSelect` has its
`_shouldSelect` flag raised. -/
def AncestorStackOK (ts : Tileset) (ancestorStack : List Nat) : Prop :=
  ∀ w ∈ ancestorStack, (ts.tiles w)._shouldSelect = true

/-! ## Concrete scenario inputs -/

/-- A neutral tile from which the concrete scenarios below are built by
record update: a loaded, visible, in-request-volume REPLACE leaf. -/
def tile0 : Tile :=
  { parent := none
    children := []
    depth := 0
    refine := Refine.replace
    hasEmptyContent := false
    hasTilesetContent := false
    boundingSphereRadius := 1
    distanceToCamera := 10
    centerZDepth := 10
    screenSpaceError := 0
    screenSpaceErrorParentGE := 0
    visibleOracle := true
    inRequestVolumeOracle := true
    contentVisibilityOutside := false
    contentUnloaded := false
    contentAvailable := true
    contentExpired := false
    optimChildrenWithinParent := false
    featurePropertiesDirty := false
    _visible := false
    _inRequestVolume := false
    _updatedVisibilityFrame := -1
    _priorityDistance := 0
    _priorityDistanceHolder := 0
    _wasMinChild := false
    _shouldSelect := false
    _finalResolution := true
    _refines := false
    _selectionDepth := 0
    _stackLength := 0
    _ancestorWithContent := none
    _ancestorWithContentAvailable := none
    _visitedFrame := -10
    _touchedFrame := -10
    _selectedFrame := -10
    _requestedFrame := -10
    _decendantsThatHaveFadedIn := 0
    _decendantsThatHaveFadedInLastFrame := 0
    _decendantsCount := 0
    lastStyleTime := 0 }

/-- A neutral tileset over a given arena: base mode, maximum screen-space
error 16, root at id 0, all output lists and logs empty. -/
def tileset0 (tiles : Nat → Tile) : Tileset :=
  { tiles := tiles
    root := 0
    maximumScreenSpaceError := 16
    baseScreenSpaceError := 1024
    skipScreenSpaceErrorFactor := 16
    skipLevels := 1
    _skipLevelOfDetail := false
    immediatelyLoadDesiredLevelOfDetail := false
    loadSiblings := false
    debugFreezeFrame := false
    _updatedVisibilityFrame := 1
    _selectedTiles := []
    _selectedTilesToStyle := []
    _requestedTiles := []
    _emptyTiles := []
    _hasMixedContent := false
    statisticsVisited := 0
    statisticsCulledWithChildrenUnion := 0
    maxPriorityDistance := 0
    maxPriorityLevel := 0
    minPriorityDistance := numberMaxValue
    minPriorityLevel := 0
    minDistanceTile := none
    minPriorityHolder := none
    cacheTouches := []
    visibilityComputations := []
    heatmapWasReset := false }

/-- Scenario S1 root: REPLACE, loaded, over budget, three children. -/
def s1t0 : Tile :=
  { tile0 with children := [1, 2, 3], screenSpaceError := 32, screenSpaceErrorParentGE := 32 }

/-- Scenario S1 child A: loaded leaf, farthest. -/
def s1t1 : Tile :=
  { tile0 with parent := some 0, depth := 1, distanceToCamera := 30, centerZDepth := 30 }

/-- Scenario S1 child B: unloaded leaf. -/
def s1t2 : Tile :=
  { tile0 with parent := some 0, depth := 1, distanceToCamera := 20, centerZDepth := 20,
               contentAvailable := false, contentUnloaded := true }

/-- Scenario S1 child C: loaded leaf, nearest. -/
def s1t3 : Tile :=
  { tile0 with parent := some 0, depth := 1, distanceToCamera := 10, centerZDepth := 10 }

/-- Scenario S1: base mode, one child unloaded (spec scenario 3). -/
def s1 : Tileset :=
  tileset0 fun n =>
    if n = 0 then s1t0 else if n = 1 then s1t1 else if n = 2 then s1t2
    else if n = 3 then s1t3 else tile0

/-- Scenario S3 root: REPLACE, loaded, over budget, one child. -/
def s3t0 : Tile :=
  { tile0 with children := [1], screenSpaceError := 32, screenSpaceErrorParentGE := 32 }

/-- Scenario S3 child: an empty-content leaf without loaded content. -/
def s3t1 : Tile :=
  { tile0 with parent := some 0, depth := 1, hasEmptyContent := true, contentAvailable := false }

/-- Scenario S3: the empty child is reached both by `updateAndPushChildren`
and by `executeEmptyTraversal` in the same frame. -/
def s3 : Tileset := tileset0 fun n => if n = 0 then s3t0 else if n = 1 then s3t1 else tile0

/-- Scenario S4: a single visible root that already meets the screen-space
error budget. -/
def s4 : Tileset :=
  tileset0 fun n =>
    if n = 0 then { tile0 with screenSpaceError := 10, screenSpaceErrorParentGE := 10 } else tile0

/-- Scenario S6 root: an ADD tile, loaded and over budget. -/
def s6t0 : Tile :=
  { tile0 with children := [1], refine := Refine.add, screenSpaceError := 32,
               screenSpaceErrorParentGE := 32 }

/-- Scenario S6 child: a loaded REPLACE leaf. -/
def s6t1 : Tile := { tile0 with parent := some 0, depth := 1 }

/-- Scenario S6: skip-only mode with a selected ADD ancestor above a
selected REPLACE leaf. -/
def s6 : Tileset :=
  { tileset0 (fun n => if n = 0 then s6t0 else if n = 1 then s6t1 else tile0) with
    _skipLevelOfDetail := true, immediatelyLoadDesiredLevelOfDetail := true }

/-- Scenario S8 root: REPLACE, loaded, over budget, two children. -/
def s8t0 : Tile :=
  { tile0 with children := [1, 2], screenSpaceError := 32, screenSpaceErrorParentGE := 32,
               centerZDepth := 8, distanceToCamera := 7 }

/-- Scenario S8 child 1: over budget, priority 3, one grandchild. -/
def s8t1 : Tile :=
  { tile0 with parent := some 0, depth := 1, children := [3], screenSpaceError := 32,
               centerZDepth := 4, distanceToCamera := 20 }

/-- Scenario S8 child 2: a loaded leaf with priority 5. -/
def s8t2 : Tile :=
  { tile0 with parent := some 0, depth := 1, centerZDepth := 6, distanceToCamera := 10 }

/-- Scenario S8 grandchild: a loaded leaf with priority 9. -/
def s8t3 : Tile :=
  { tile0 with parent := some 1, depth := 2, centerZDepth := 10, distanceToCamera := 9 }

/-- Scenario S8: the deeper family rewrites the shared priority holder
upwards, past a sibling's own priority. -/
def s8 : Tileset :=
  tileset0 fun n =>
    if n = 0 then s8t0 else if n = 1 then s8t1 else if n = 2 then s8t2
    else if n = 3 then s8t3 else tile0

/-- Scenario S9 root: REPLACE, loaded, over budget, three children given in
the order 1, 2, 3. -/
def s9t0 : Tile :=
  { tile0 with children := [1, 2, 3], screenSpaceError := 32, screenSpaceErrorParentGE := 32 }

/-- Scenario S9 child 1: distance 0, center depth 2. -/
def s9t1 : Tile :=
  { tile0 with parent := some 0, depth := 1, distanceToCamera := 0, centerZDepth := 2 }

/-- Scenario S9 child 2: distance 0, center depth 8. -/
def s9t2 : Tile :=
  { tile0 with parent := some 0, depth := 1, distanceToCamera := 0, centerZDepth := 8 }

/-- Scenario S9 child 3: distance 5. -/
def s9t3 : Tile :=
  { tile0 with parent := some 0, depth := 1, distanceToCamera := 5, centerZDepth := 5 }

/-- Scenario S9: the in-place child sort is observable after `selectTiles`:
child 3 is farthest, and the tie at distance zero is broken by descending
center depth. -/
def s9 : Tileset :=
  tileset0 fun n =>
    if n = 0 then s9t0 else if n = 1 then s9t1 else if n = 2 then s9t2
    else if n = 3 then s9t3 else tile0

/-- Scenario S10 root: REPLACE, loaded, over budget, one empty child. -/
def s10t0 : Tile :=
  { tile0 with children := [1], screenSpaceError := 32, screenSpaceErrorParentGE := 32 }

/-- Scenario S10 middle tile: empty content, over budget, one child. -/
def s10t1 : Tile :=
  { tile0 with parent := some 0, depth := 1, children := [2], screenSpaceError := 32,
               hasEmptyContent := true, contentAvailable := false }

/-- Scenario S10 leaf: unloaded and not visible. -/
def s10t2 : Tile :=
  { tile0 with parent := some 1, depth := 2, visibleOracle := false,
               contentAvailable := false, contentUnloaded := true }

/-- Scenario S10: with `loadSiblings`, the invisible unloaded leaf is
requested once by `executeEmptyTraversal` and once more by
`updateAndPushChildren`. -/
def s10 : Tileset :=
  { tileset0 (fun n => if n = 0 then s10t0 else if n = 1 then s10t1
                       else if n = 2 then s10t2 else tile0) with
    loadSiblings := true }

/-- A tileset whose visibility epoch already matches its root tile's. -/
def sMemo : Tileset := { tileset0 (fun _ => tile0) with _updatedVisibilityFrame := -1 }

/-- A tileset whose single tile has `_shouldSelect` raised, used to witness
the `traverseAndSelect` selection-depth assignment. -/
def sStep : Tileset := tileset0 fun _ => { tile0 with _shouldSelect := true }

/-- Scenario S8 in skip mode: the refinement check is off, so the local
priority-chain inequality holds for tracked children. -/
def s8skip : Tileset := { s8 with _skipLevelOfDetail := true }

/-! ## Helper lemmas -/

theorem staticOf_modifyTile (ts : Tileset) (id : Nat) (g : Tile → Tile)
    (hg : ∀ t, staticOf (g t) = staticOf t) (j : Nat) :
    staticOf ((modifyTile ts id g).tiles j) = staticOf (ts.tiles j) := by
  by_cases hj : j = id <;> simp [modifyTile, hj, hg]

theorem staticOf_tileUpdateVisibility (ts : Tileset) (id j : Nat) :
    staticOf ((tileUpdateVisibility ts id).tiles j) = staticOf (ts.tiles j) := by
  by_cases hj : j = id <;> simp [tileUpdateVisibility, modifyTile, hj, staticOf]

theorem staticOf_updateTile (ts : Tileset) (id j : Nat) :
    staticOf ((updateTile ts id).tiles j) = staticOf (ts.tiles j) := by
  by_cases hj : j = id <;>
    simp [updateTile, tileUpdateVisibility, modifyTile, hj, staticOf]

theorem staticOf_foldl_updateTile (l : List Nat) (ts : Tileset) (j : Nat) :
    staticOf ((l.foldl (fun ts c => updateTile ts c) ts).tiles j) = staticOf (ts.tiles j) := by
  induction l generalizing ts with
  | nil => rfl
  | cons c rest ih => exact (ih (updateTile ts c)).trans (staticOf_updateTile ts c j)

theorem updateMinMaxPriority_tiles (ts : Tileset) (id : Nat) :
    (updateMinMaxPriority ts id).tiles = ts.tiles := by
  unfold updateMinMaxPriority
  dsimp only
  split_ifs <;> rfl

theorem staticOf_loadTile (ts : Tileset) (id : Nat) (frame : Int) (j : Nat) :
    staticOf ((loadTile ts id frame).tiles j) = staticOf (ts.tiles j) := by
  unfold loadTile
  split_ifs with h
  · show staticOf ((updateMinMaxPriority _ id).tiles j) = _
    rw [updateMinMaxPriority_tiles]
    by_cases hj : j = id <;> simp [modifyTile, hj, staticOf]
  · rfl

theorem staticOf_touchTile (ts : Tileset) (id : Nat) (frame : Int) (j : Nat) :
    staticOf ((touchTile ts id frame).tiles j) = staticOf (ts.tiles j) := by
  unfold touchTile
  split_ifs with h
  · rfl
  · by_cases hj : j = id <;> simp [modifyTile, hj, staticOf]

theorem staticOf_selectTile (ts : Tileset) (id : Nat) (frame : Int) (j : Nat) :
    staticOf ((selectTile ts id frame).tiles j) = staticOf (ts.tiles j) := by
  unfold selectTile
  split_ifs <;>
    simp only [modifyTile] <;> by_cases hj : j = id <;> simp [hj, staticOf]

theorem childSortLE_congr (ts ts' : Tileset)
    (h : ∀ j, staticOf (ts'.tiles j) = staticOf (ts.tiles j)) (a b : Nat) :
    childSortLE ts' a b = childSortLE ts a b := by
  have hd : ∀ j, (ts'.tiles j).distanceToCamera = (ts.tiles j).distanceToCamera :=
    fun j => congrArg TileStatic.distanceToCamera (h j)
  have hz : ∀ j, (ts'.tiles j).centerZDepth = (ts.tiles j).centerZDepth :=
    fun j => congrArg TileStatic.centerZDepth (h j)
  simp [childSortLE, sortChildrenByDistanceToCamera, hd, hz]

theorem insertByCmp_congr (le le' : Nat → Nat → Bool) (h : ∀ a b, le a b = le' a b)
    (x : Nat) (l : List Nat) : insertByCmp le x l = insertByCmp le' x l := by
  induction l with
  | nil => rfl
  | cons y ys ih => simp only [insertByCmp, h, ih]

theorem sortByCmp_congr (le le' : Nat → Nat → Bool) (h : ∀ a b, le a b = le' a b)
    (l : List Nat) : sortByCmp le l = sortByCmp le' l := by
  induction l with
  | nil => rfl
  | cons x xs ih => simp only [sortByCmp, ih, insertByCmp_congr le le' h]

theorem insertByCmp_perm (le : Nat → Nat → Bool) (x : Nat) (l : List Nat) :
    (insertByCmp le x l).Perm (x :: l) := by
  induction l with
  | nil => exact List.Perm.refl _
  | cons y ys ih =>
      unfold insertByCmp
      split_ifs
      · exact List.Perm.refl _
      · exact (List.Perm.cons y ih).trans (List.Perm.swap x y ys)

theorem sortByCmp_perm (le : Nat → Nat → Bool) (l : List Nat) :
    (sortByCmp le l).Perm l := by
  induction l with
  | nil => exact List.Perm.refl _
  | cons x xs ih =>
      exact (insertByCmp_perm le x (sortByCmp le xs)).trans (List.Perm.cons x ih)

theorem selectTile_tiles_selectionDepth (ts : Tileset) (id : Nat) (frame : Int) (j : Nat) :
    ((selectTile ts id frame).tiles j)._selectionDepth = (ts.tiles j)._selectionDepth := by
  unfold selectTile
  split_ifs <;> by_cases hj : j = id <;> simp [modifyTile, hj]

theorem staticOf_executeEmptyTraversalLoop (frame : Int) (fuel : Nat) :
    ∀ (ts : Tileset) (stack : List Nat) (acc : Bool) (j : Nat),
      staticOf (((executeEmptyTraversalLoop frame fuel ts stack acc).1).tiles j) =
        staticOf (ts.tiles j) := by
  induction fuel with
  | zero => intro ts stack acc j; rfl
  | succ n ih =>
      intro ts stack acc j
      cases stack with
      | nil => rfl
      | cons id rest =>
          unfold executeEmptyTraversalLoop
          dsimp only
          refine (ih _ _ _ j).trans ?_
          split_ifs with h
          · exact ((staticOf_touchTile _ id frame j).trans
              (staticOf_loadTile _ id frame j)).trans (staticOf_updateTile ts id j)
          · exact staticOf_updateTile ts id j

theorem staticOf_pushChildrenVisit (frame : Int) (checkRefines loadSibs : Bool)
    (st : PushChildrenState) (i c j : Nat) :
    staticOf (((pushChildrenVisit frame checkRefines loadSibs st i c).ts).tiles j) =
      staticOf ((st.ts).tiles j) := by
  unfold pushChildrenVisit
  dsimp only
  split_ifs <;>
    first
      | rfl
      | exact (staticOf_touchTile _ c frame j).trans (staticOf_loadTile _ c frame j)

theorem staticOf_pushChildrenRefines (frame : Int) (fuel : Nat) (checkRefines : Bool)
    (st : PushChildrenState) (c j : Nat) :
    staticOf (((pushChildrenRefines frame fuel checkRefines st c).ts).tiles j) =
      staticOf ((st.ts).tiles j) := by
  unfold pushChildrenRefines executeEmptyTraversal
  split_ifs <;>
    first
      | rfl
      | exact staticOf_executeEmptyTraversalLoop frame fuel _ _ _ j

theorem staticOf_pushChildrenStep (frame : Int) (fuel : Nat) (checkRefines loadSibs : Bool)
    (st : PushChildrenState) (i c j : Nat) :
    staticOf (((pushChildrenStep frame fuel checkRefines loadSibs st i c).ts).tiles j) =
      staticOf ((st.ts).tiles j) :=
  (staticOf_pushChildrenRefines frame fuel checkRefines _ c j).trans
    (staticOf_pushChildrenVisit frame checkRefines loadSibs st i c j)

theorem staticOf_pushChildrenLoop (frame : Int) (fuel : Nat) (checkRefines loadSibs : Bool) :
    ∀ (l : List Nat) (i : Nat) (st : PushChildrenState) (j : Nat),
      staticOf (((pushChildrenLoop frame fuel checkRefines loadSibs l i st).ts).tiles j) =
        staticOf ((st.ts).tiles j) := by
  intro l
  induction l with
  | nil => intro i st j; rfl
  | cons c rest ih =>
      intro i st j
      exact (ih (i + 1) _ j).trans
        (staticOf_pushChildrenStep frame fuel checkRefines loadSibs st i c j)

theorem staticOf_foldl_holder (l : List Nat) (h : Nat) (ts : Tileset) (j : Nat) :
    staticOf ((l.foldl
        (fun ts c => modifyTile ts c fun t => { t with _priorityDistanceHolder := h }) ts).tiles
      j) = staticOf (ts.tiles j) := by
  induction l generalizing ts with
  | nil => rfl
  | cons c rest ih =>
      refine (ih _).trans ?_
      by_cases hj : j = c <;> simp [modifyTile, hj, staticOf]

theorem pushChildrenLoop_ts_children (frame : Int) (fuel : Nat) (cr ls : Bool)
    (l : List Nat) (i : Nat) (st : PushChildrenState) (j : Nat) :
    (((pushChildrenLoop frame fuel cr ls l i st).ts).tiles j).children =
      ((st.ts).tiles j).children :=
  congrArg TileStatic.children (staticOf_pushChildrenLoop frame fuel cr ls l i st j)

theorem children_modifyTile (ts : Tileset) (id : Nat) (g : Tile → Tile)
    (hg : ∀ t, (g t).children = t.children) (j : Nat) :
    ((modifyTile ts id g).tiles j).children = (ts.tiles j).children := by
  by_cases hj : j = id <;> simp [modifyTile, hj, hg]

theorem children_modify_priority (ts : Tileset) (c : Nat) (q : ℚ) (j : Nat) :
    ((modifyTile ts c fun t => { t with _priorityDistance := q }).tiles j).children =
      (ts.tiles j).children := by
  by_cases hj : j = c <;> simp [modifyTile, hj]

theorem children_modify_wasMin (ts : Tileset) (c : Nat) (j : Nat) :
    ((modifyTile ts c fun t => { t with _wasMinChild := true }).tiles j).children =
      (ts.tiles j).children := by
  by_cases hj : j = c <;> simp [modifyTile, hj]

theorem children_foldl_holder (l : List Nat) (h : Nat) (ts : Tileset) (j : Nat) :
    ((l.foldl
        (fun ts c => modifyTile ts c fun t => { t with _priorityDistanceHolder := h }) ts).tiles
      j).children = (ts.tiles j).children :=
  congrArg TileStatic.children (staticOf_foldl_holder l h ts j)

theorem updateAndPushChildren_children (ts : Tileset) (id : Nat) (stack : List Nat)
    (frame : Int) (fuel : Nat) :
    (((updateAndPushChildren ts id stack frame fuel).1).tiles id).children =
      sortByCmp (childSortLE ts) ((ts.tiles id).children) := by
  have hstep1 : (((updateAndPushChildren ts id stack frame fuel).1).tiles id).children =
      sortByCmp (childSortLE ((ts.tiles id).children.foldl (fun ts c => updateTile ts c) ts))
        ((((ts.tiles id).children.foldl (fun ts c => updateTile ts c) ts).tiles id).children) := by
    unfold updateAndPushChildren
    dsimp only
    generalize (ts.tiles id).children.foldl (fun ts c => updateTile ts c) ts = tsF
    generalize hS : sortByCmp (childSortLE tsF) ((tsF.tiles id).children) = sorted
    generalize hL : pushChildrenLoop frame fuel
        (!skipLevelOfDetail (modifyTile tsF id fun t => { t with children := sorted }) &&
          decide ((ts.tiles id).refine = Refine.replace) &&
          !hasEmptyContent ((modifyTile tsF id fun t => { t with children := sorted }).tiles id))
        (modifyTile tsF id fun t => { t with children := sorted }).loadSiblings sorted 0
        { ts := modifyTile tsF id fun t => { t with children := sorted }, stack := stack,
          refines := true, anyChildrenVisible := false, minIndex := none,
          minDistancePriority := numberMaxValue } = st
    have hstch : ((st.ts).tiles id).children = sorted := by
      rw [← hL, pushChildrenLoop_ts_children]
      simp [modifyTile]
    rcases hmin : st.minIndex with _ | minIndex
    · simpa [hmin] using hstch
    · simp only [hmin]
      rcases hget : sorted.get? minIndex with _ | minChild
      · simpa [hget] using hstch
      · simp only [hget]
        rw [children_foldl_holder, children_modify_priority, children_modify_wasMin]
        exact hstch
  have hF : ∀ j, staticOf ((((ts.tiles id).children.foldl (fun ts c => updateTile ts c) ts)).tiles j)
      = staticOf (ts.tiles j) := fun j => staticOf_foldl_updateTile _ ts j
  have hch : (((ts.tiles id).children.foldl (fun ts c => updateTile ts c) ts).tiles id).children
      = (ts.tiles id).children := congrArg TileStatic.children (hF id)
  rw [hstep1, hch, sortByCmp_congr _ _ (childSortLE_congr ts _ hF)]


theorem priOf_loadTile (ts : Tileset) (id : Nat) (frame : Int) (j : Nat) :
    priOf ((loadTile ts id frame).tiles j) = priOf (ts.tiles j) := by
  unfold loadTile
  split_ifs with h
  · show priOf ((updateMinMaxPriority _ id).tiles j) = _
    rw [updateMinMaxPriority_tiles]
    by_cases hj : j = id <;> simp [modifyTile, hj, priOf]
  · rfl

theorem priOf_touchTile (ts : Tileset) (id : Nat) (frame : Int) (j : Nat) :
    priOf ((touchTile ts id frame).tiles j) = priOf (ts.tiles j) := by
  unfold touchTile
  split_ifs with h
  · rfl
  · by_cases hj : j = id <;> simp [modifyTile, hj, priOf]

theorem pushChildrenRefines_false (frame : Int) (fuel : Nat) (st : PushChildrenState) (c : Nat) :
    pushChildrenRefines frame fuel false st c = st := rfl

theorem foldl_updateTile_notmem (l : List Nat) (ts : Tileset) (c : Nat) (hc : c ∉ l) :
    ((l.foldl (fun ts c => updateTile ts c) ts).tiles c) = ts.tiles c := by
  induction l generalizing ts with
  | nil => rfl
  | cons d rest ih =>
      have hcd : c ≠ d := fun h => hc (h ▸ List.mem_cons_self d rest)
      have hcr : c ∉ rest := fun h => hc (List.mem_cons_of_mem d h)
      rw [List.foldl_cons, ih _ hcr]
      simp [updateTile, tileUpdateVisibility, modifyTile, hcd]

theorem foldl_updateTile_holder_self (l : List Nat) (ts : Tileset) (c : Nat) (hc : c ∈ l) :
    ((l.foldl (fun ts c => updateTile ts c) ts).tiles c)._priorityDistanceHolder = c := by
  induction l generalizing ts with
  | nil => cases hc
  | cons d rest ih =>
      rw [List.foldl_cons]
      by_cases hcr : c ∈ rest
      · exact ih _ hcr
      · have hcd : c = d := by
          rcases List.mem_cons.mp hc with h | h
          · exact h
          · exact absurd h hcr
        subst hcd
        rw [foldl_updateTile_notmem _ _ _ hcr]
        simp [updateTile, tileUpdateVisibility, modifyTile]

theorem foldl_holderAssign_tiles (l : List Nat) (h : Nat) (ts : Tileset) (j : Nat) :
    ((l.foldl
        (fun ts c => modifyTile ts c fun t => { t with _priorityDistanceHolder := h }) ts).tiles
      j) =
      if j ∈ l then { ts.tiles j with _priorityDistanceHolder := h } else ts.tiles j := by
  induction l generalizing ts with
  | nil => simp
  | cons c rest ih =>
      rw [List.foldl_cons, ih]
      by_cases hjr : j ∈ rest <;> by_cases hjc : j = c <;>
        simp [modifyTile, hjr, hjc, List.mem_cons]

end Cesium

namespace Cesium

theorem pushLoop_min_spec (frame : Int) (fuel : Nat) (ls : Bool) (ts1 : Tileset) (L : List Nat) :
    ∀ (l : List Nat) (i : Nat) (st : PushChildrenState),
      L.drop i = l →
      (∀ j, priOf ((st.ts).tiles j) = priOf (ts1.tiles j)) →
      (∀ k m, st.minIndex = some k → L.get? k = some m →
        st.minDistancePriority = (ts1.tiles m)._priorityDistance) →
      ((∀ j, priOf (((pushChildrenLoop frame fuel false ls l i st).ts).tiles j) =
          priOf (ts1.tiles j)) ∧
       (∀ k m, (pushChildrenLoop frame fuel false ls l i st).minIndex = some k →
          L.get? k = some m →
          (pushChildrenLoop frame fuel false ls l i st).minDistancePriority =
            (ts1.tiles m)._priorityDistance) ∧
       (pushChildrenLoop frame fuel false ls l i st).minDistancePriority ≤
          st.minDistancePriority ∧
       (∀ c ∈ l, trackedB ts1 ls c = true →
          (pushChildrenLoop frame fuel false ls l i st).minDistancePriority ≤
            (ts1.tiles c)._priorityDistance)) := by
  intro l
  induction l with
  | nil =>
      intro i st _ hts hmatch
      exact ⟨hts, hmatch, le_refl _, fun c hc => absurd hc (List.not_mem_nil c)⟩
  | cons c rest ih =>
      intro i st hdrop hts hmatch
      have hgetc : L.get? i = some c := by
        have h0 : (L.drop i).get? 0 = some c := by rw [hdrop]; rfl
        rwa [List.get?_drop, Nat.add_zero] at h0
      have hdrop' : L.drop (i + 1) = rest := by
        have htl : (L.drop i).tail = rest := by rw [hdrop]; rfl
        rwa [List.tail_drop] at htl
      rw [pushChildrenLoop]
      rw [show pushChildrenStep frame fuel false ls st i c =
        pushChildrenVisit frame false ls st i c from rfl]
      have hv1 : (st.ts.tiles c)._visible = (ts1.tiles c)._visible := by
        have := congrArg PriorityView.visible (hts c)
        simpa [priOf] using this
      have hv2 : (st.ts.tiles c)._inRequestVolume = (ts1.tiles c)._inRequestVolume := by
        have := congrArg PriorityView.inRequestVolume (hts c)
        simpa [priOf] using this
      have hvisEq : isVisible st.ts c = isVisible ts1 c := by
        simp [isVisible, hv1, hv2]
      have hprEq : (st.ts.tiles c)._priorityDistance = (ts1.tiles c)._priorityDistance := by
        have := congrArg PriorityView.priorityDistance (hts c)
        simpa [priOf] using this
      by_cases hvis : isVisible ts1 c
      · unfold pushChildrenVisit
        rw [if_pos (hvisEq.trans hvis)]
        dsimp only
        by_cases hlt : (st.ts.tiles c)._priorityDistance < st.minDistancePriority
        · rw [if_pos hlt]
          obtain ⟨o1, o2, o3, o4⟩ := ih (i + 1)
            { st with stack := c :: st.stack, anyChildrenVisible := true, minIndex := some i, minDistancePriority := (st.ts.tiles c)._priorityDistance }
            hdrop' hts
            (by
              intro k m hk hm
              have hk' : (some i : Option Nat) = some k := hk
              cases hk'
              rw [hgetc] at hm
              cases hm
              exact hprEq)
          refine ⟨o1, o2, ?_, ?_⟩
          · exact o3.trans (le_of_lt hlt)
          · intro d hd htr
            rcases List.mem_cons.mp hd with hdc | hdr
            · subst hdc
              exact o3.trans (le_of_eq hprEq)
            · exact o4 d hdr htr
        · rw [if_neg hlt]
          obtain ⟨o1, o2, o3, o4⟩ := ih (i + 1)
            { st with stack := c :: st.stack, anyChildrenVisible := true }
            hdrop' hts hmatch
          refine ⟨o1, o2, o3, ?_⟩
          intro d hd htr
          rcases List.mem_cons.mp hd with hdc | hdr
          · subst hdc
            exact o3.trans (by rw [← hprEq]; exact le_of_not_lt hlt)
          · exact o4 d hdr htr
      · unfold pushChildrenVisit
        rw [if_neg (by rw [hvisEq]; exact hvis)]
        by_cases hls : ls = true
        · rw [if_pos (by simp [hls])]
          dsimp only
          have htsNew : ∀ j, priOf
              ((touchTile (loadTile st.ts c frame) c frame).tiles j) = priOf (ts1.tiles j) :=
            fun j => ((priOf_touchTile _ c frame j).trans (priOf_loadTile _ c frame j)).trans
              (hts j)
          by_cases hlt : (st.ts.tiles c)._priorityDistance < st.minDistancePriority
          · rw [if_pos hlt]
            obtain ⟨o1, o2, o3, o4⟩ := ih (i + 1)
              { st with ts := touchTile (loadTile st.ts c frame) c frame, minIndex := some i, minDistancePriority := (st.ts.tiles c)._priorityDistance }
              hdrop' htsNew
              (by
                intro k m hk hm
                have hk' : (some i : Option Nat) = some k := hk
                cases hk'
                rw [hgetc] at hm
                cases hm
                exact hprEq)
            refine ⟨o1, o2, ?_, ?_⟩
            · exact o3.trans (le_of_lt hlt)
            · intro d hd htr
              rcases List.mem_cons.mp hd with hdc | hdr
              · subst hdc
                exact o3.trans (le_of_eq hprEq)
              · exact o4 d hdr htr
          · rw [if_neg hlt]
            obtain ⟨o1, o2, o3, o4⟩ := ih (i + 1)
              { st with ts := touchTile (loadTile st.ts c frame) c frame }
              hdrop' htsNew hmatch
            refine ⟨o1, o2, o3, ?_⟩
            intro d hd htr
            rcases List.mem_cons.mp hd with hdc | hdr
            · subst hdc
              exact o3.trans (by rw [← hprEq]; exact le_of_not_lt hlt)
            · exact o4 d hdr htr
        · have hls' : ls = false := by
            cases ls
            · rfl
            · exact absurd rfl hls
          rw [if_neg (by simp [hls'])]
          obtain ⟨o1, o2, o3, o4⟩ := ih (i + 1) st hdrop' hts hmatch
          refine ⟨o1, o2, o3, ?_⟩
          intro d hd htr
          rcases List.mem_cons.mp hd with hdc | hdr
          · subst hdc
            rw [trackedB, hls'] at htr
            simp only [Bool.or_false] at htr
            exact absurd htr hvis
          · exact o4 d hdr htr

end Cesium

namespace Cesium

theorem priority_foldl_holderAssign (l : List Nat) (h : Nat) (ts : Tileset) (j : Nat) :
    ((l.foldl
        (fun ts c => modifyTile ts c fun t => { t with _priorityDistanceHolder := h }) ts).tiles
      j)._priorityDistance = (ts.tiles j)._priorityDistance := by
  rw [foldl_holderAssign_tiles]
  split <;> rfl

theorem holder_foldl_holderAssign_mem (l : List Nat) (h : Nat) (ts : Tileset) (c : Nat)
    (hc : c ∈ l) :
    ((l.foldl
        (fun ts c => modifyTile ts c fun t => { t with _priorityDistanceHolder := h }) ts).tiles
      c)._priorityDistanceHolder = h := by
  rw [foldl_holderAssign_tiles]
  rw [if_pos hc]

theorem isVisible_foldl_holderAssign (l : List Nat) (h : Nat) (ts : Tileset) (j : Nat) :
    isVisible (l.foldl
      (fun ts c => modifyTile ts c fun t => { t with _priorityDistanceHolder := h }) ts) j =
      isVisible ts j := by
  unfold isVisible
  rw [foldl_holderAssign_tiles]
  split <;> rfl

theorem holder_writes_vis (tsO : Tileset) (sorted : List Nat) (m hId : Nat) (j : Nat) :
    isVisible (sorted.foldl
        (fun ts c => modifyTile ts c fun t => { t with _priorityDistanceHolder := hId })
        (modifyTile (modifyTile tsO m fun t => { t with _wasMinChild := true }) hId fun t =>
          { t with _priorityDistance :=
              ((modifyTile tsO m fun t => { t with _wasMinChild := true }).tiles
                m)._priorityDistance })) j = isVisible tsO j := by
  rw [isVisible_foldl_holderAssign]
  unfold isVisible
  by_cases hj : j = hId
  · subst hj
    by_cases hjm : j = m
    · subst hjm
      simp [modifyTile]
    · simp [modifyTile, hjm]
  · by_cases hjm : j = m
    · subst hjm
      simp [modifyTile, hj]
    · simp [modifyTile, hj, hjm]

theorem holder_writes_children (tsO : Tileset) (sorted : List Nat) (m hId : Nat) (j : Nat) :
    (((sorted.foldl
        (fun ts c => modifyTile ts c fun t => { t with _priorityDistanceHolder := hId })
        (modifyTile (modifyTile tsO m fun t => { t with _wasMinChild := true }) hId fun t =>
          { t with _priorityDistance :=
              ((modifyTile tsO m fun t => { t with _wasMinChild := true }).tiles
                m)._priorityDistance })).tiles j).children) = (tsO.tiles j).children := by
  rw [foldl_holderAssign_tiles]
  have h3 : ∀ i, (((modifyTile (modifyTile tsO m fun t => { t with _wasMinChild := true }) hId
      fun t => { t with _priorityDistance :=
        ((modifyTile tsO m fun t => { t with _wasMinChild := true }).tiles
          m)._priorityDistance }).tiles i).children) = (tsO.tiles i).children := by
    intro i
    by_cases hi : i = hId
    · subst hi
      by_cases him : i = m
      · subst him
        simp [modifyTile]
      · simp [modifyTile, him]
    · by_cases him : i = m
      · subst him
        simp [modifyTile, hi]
      · simp [modifyTile, hi, him]
  split <;> exact h3 j

theorem holder_writes_chain (tsO : Tileset) (sorted : List Nat) (m hId : Nat) (P : Nat → Prop)
    (hbound : ∀ c ∈ sorted, P c →
      (tsO.tiles m)._priorityDistance ≤ (tsO.tiles c)._priorityDistance) :
    ∀ c ∈ sorted, P c →
      ((sorted.foldl
          (fun ts c => modifyTile ts c fun t => { t with _priorityDistanceHolder := hId })
          (modifyTile (modifyTile tsO m fun t => { t with _wasMinChild := true }) hId fun t =>
            { t with _priorityDistance :=
                ((modifyTile tsO m fun t => { t with _wasMinChild := true }).tiles
                  m)._priorityDistance })).tiles
        (((sorted.foldl
            (fun ts c => modifyTile ts c fun t => { t with _priorityDistanceHolder := hId })
            (modifyTile (modifyTile tsO m fun t => { t with _wasMinChild := true }) hId fun t =>
              { t with _priorityDistance :=
                  ((modifyTile tsO m fun t => { t with _wasMinChild := true }).tiles
                    m)._priorityDistance })).tiles c)._priorityDistanceHolder))._priorityDistance ≤
      ((sorted.foldl
          (fun ts c => modifyTile ts c fun t => { t with _priorityDistanceHolder := hId })
          (modifyTile (modifyTile tsO m fun t => { t with _wasMinChild := true }) hId fun t =>
            { t with _priorityDistance :=
                ((modifyTile tsO m fun t => { t with _wasMinChild := true }).tiles
                  m)._priorityDistance })).tiles c)._priorityDistance := by
  have hm2 : ((modifyTile tsO m fun t => { t with _wasMinChild := true }).tiles
      m)._priorityDistance = (tsO.tiles m)._priorityDistance := by
    simp [modifyTile]
  have hpr3 : ∀ j, ((modifyTile (modifyTile tsO m fun t => { t with _wasMinChild := true }) hId
      fun t => { t with _priorityDistance :=
        ((modifyTile tsO m fun t => { t with _wasMinChild := true }).tiles
          m)._priorityDistance }).tiles j)._priorityDistance =
      if j = hId then (tsO.tiles m)._priorityDistance else (tsO.tiles j)._priorityDistance := by
    intro j
    by_cases hj : j = hId
    · subst hj
      by_cases hjm : j = m
      · subst hjm
        simp [modifyTile]
      · simp [modifyTile, hjm]
    · by_cases hjm : j = m
      · subst hjm
        simp [modifyTile, hj]
      · simp [modifyTile, hj, hjm]
  intro c hc hP
  rw [holder_foldl_holderAssign_mem _ _ _ _ hc, priority_foldl_holderAssign,
    priority_foldl_holderAssign, hpr3, hpr3, if_pos rfl]
  by_cases hch : c = hId
  · rw [if_pos hch]
  · rw [if_neg hch]
    exact hbound c hc hP

theorem skipLOD_foldl_updateTile (l : List Nat) (ts : Tileset) :
    (l.foldl (fun ts c => updateTile ts c) ts)._skipLevelOfDetail = ts._skipLevelOfDetail := by
  induction l generalizing ts with
  | nil => rfl
  | cons c rest ih => exact (ih _).trans rfl

theorem loadSiblings_foldl_updateTile (l : List Nat) (ts : Tileset) :
    (l.foldl (fun ts c => updateTile ts c) ts).loadSiblings = ts.loadSiblings := by
  induction l generalizing ts with
  | nil => rfl
  | cons c rest ih => exact (ih _).trans rfl

theorem canTraverse_congr (ts ts' : Tileset)
    (hstat : ∀ j, staticOf (ts'.tiles j) = staticOf (ts.tiles j))
    (hmax : ts'.maximumScreenSpaceError = ts.maximumScreenSpaceError) (id : Nat) :
    canTraverse ts' id = canTraverse ts id := by
  have hch : (ts'.tiles id).children = (ts.tiles id).children :=
    congrArg TileStatic.children (hstat id)
  have hT : (ts'.tiles id).hasTilesetContent = (ts.tiles id).hasTilesetContent :=
    congrArg TileStatic.hasTilesetContent (hstat id)
  have hE : (ts'.tiles id).contentExpired = (ts.tiles id).contentExpired :=
    congrArg TileStatic.contentExpired (hstat id)
  have hS : (ts'.tiles id).screenSpaceError = (ts.tiles id).screenSpaceError :=
    congrArg TileStatic.screenSpaceError (hstat id)
  simp [canTraverse, hch, hT, hE, hS, hmax]

theorem emptyTraversalStops_congr (ts ts' : Tileset)
    (hstat : ∀ j, staticOf (ts'.tiles j) = staticOf (ts.tiles j))
    (hmax : ts'.maximumScreenSpaceError = ts.maximumScreenSpaceError) :
    ∀ (fuel : Nat) (stack : List Nat),
      emptyTraversalStops ts' fuel stack = emptyTraversalStops ts fuel stack := by
  intro fuel
  induction fuel with
  | zero => intro stack; rfl
  | succ n ih =>
      intro stack
      cases stack with
      | nil => rfl
      | cons id rest =>
          have hHE : (ts'.tiles id).hasEmptyContent = (ts.tiles id).hasEmptyContent :=
            congrArg TileStatic.hasEmptyContent (hstat id)
          have hHT : (ts'.tiles id).hasTilesetContent = (ts.tiles id).hasTilesetContent :=
            congrArg TileStatic.hasTilesetContent (hstat id)
          have hch : (ts'.tiles id).children = (ts.tiles id).children :=
            congrArg TileStatic.children (hstat id)
          simp only [emptyTraversalStops, hasEmptyContent, hHE, hHT,
            canTraverse_congr ts ts' hstat hmax, hch, ih]

theorem maxSSE_updateTile (ts : Tileset) (id : Nat) :
    (updateTile ts id).maximumScreenSpaceError = ts.maximumScreenSpaceError := rfl

theorem maxSSE_loadTile (ts : Tileset) (id : Nat) (frame : Int) :
    (loadTile ts id frame).maximumScreenSpaceError = ts.maximumScreenSpaceError := by
  unfold loadTile
  split_ifs with h
  · show (updateMinMaxPriority _ id).maximumScreenSpaceError = _
    unfold updateMinMaxPriority
    dsimp only
    split_ifs <;> rfl
  · rfl

theorem maxSSE_touchTile (ts : Tileset) (id : Nat) (frame : Int) :
    (touchTile ts id frame).maximumScreenSpaceError = ts.maximumScreenSpaceError := by
  unfold touchTile
  split_ifs <;> rfl

theorem executeEmptyTraversalLoop_spec (frame : Int) :
    ∀ (fuel : Nat) (ts : Tileset) (stack : List Nat) (acc : Bool),
      (executeEmptyTraversalLoop frame fuel ts stack acc).2 =
        (acc && (emptyTraversalStops ts fuel stack).all
          (fun j => (ts.tiles j).contentAvailable)) := by
  intro fuel
  induction fuel with
  | zero => intro ts stack acc; simp [executeEmptyTraversalLoop, emptyTraversalStops]
  | succ n ih =>
      intro ts stack acc
      cases stack with
      | nil => simp [executeEmptyTraversalLoop, emptyTraversalStops]
      | cons id rest =>
          rw [executeEmptyTraversalLoop]
          rw [ih]
          have hstat2 : ∀ j, staticOf (((if !isVisible (updateTile ts id) id then
              touchTile (loadTile (updateTile ts id) id frame) id frame
              else updateTile ts id)).tiles j) = staticOf (ts.tiles j) := by
            intro j
            split_ifs with h
            · exact ((staticOf_touchTile _ id frame j).trans
                (staticOf_loadTile _ id frame j)).trans (staticOf_updateTile ts id j)
            · exact staticOf_updateTile ts id j
          have hmax2 : ((if !isVisible (updateTile ts id) id then
              touchTile (loadTile (updateTile ts id) id frame) id frame
              else updateTile ts id)).maximumScreenSpaceError = ts.maximumScreenSpaceError := by
            split_ifs with h
            · exact ((maxSSE_touchTile _ id frame).trans (maxSSE_loadTile _ id frame)).trans
                (maxSSE_updateTile ts id)
            · exact maxSSE_updateTile ts id
          have havail : ∀ j, (((if !isVisible (updateTile ts id) id then
              touchTile (loadTile (updateTile ts id) id frame) id frame
              else updateTile ts id)).tiles j).contentAvailable =
              (ts.tiles j).contentAvailable :=
            fun j => congrArg TileStatic.contentAvailable (hstat2 j)
          have hchid : (((if !isVisible (updateTile ts id) id then
              touchTile (loadTile (updateTile ts id) id frame) id frame
              else updateTile ts id)).tiles id).children = (ts.tiles id).children :=
            congrArg TileStatic.children (hstat2 id)
          rw [emptyTraversalStops_congr ts _ hstat2 hmax2]
          rw [show (fun j => (((if !isVisible (updateTile ts id) id then
              touchTile (loadTile (updateTile ts id) id frame) id frame
              else updateTile ts id)).tiles j).contentAvailable) =
            (fun j => (ts.tiles j).contentAvailable) from funext havail]
          rw [hchid]
          show _ = (acc && (emptyTraversalStops ts (n + 1) (id :: rest)).all
            (fun j => (ts.tiles j).contentAvailable))
          rw [emptyTraversalStops]
          by_cases htr : (hasEmptyContent (ts.tiles id) && canTraverse ts id) = true
          · simp [htr]
          · have htr' : (hasEmptyContent (ts.tiles id) && canTraverse ts id) = false :=
              Bool.not_eq_true _ ▸ (Bool.eq_false_iff.mpr htr)
            by_cases hav : (ts.tiles id).contentAvailable = true
            · simp [htr', hav, Bool.and_comm, Bool.and_left_comm]
            · have hav' : (ts.tiles id).contentAvailable = false :=
                Bool.eq_false_iff.mpr hav
              simp [htr', hav']


/-- The engine configuration `executeTraversal` reads while it runs: the
skip flag, the root id and the error budget. -/
def cfgOf (ts : Tileset) : Bool × Nat × ℚ :=
  (ts._skipLevelOfDetail, ts.root, ts.maximumScreenSpaceError)

theorem updateMinMaxPriority_spec (ts : Tileset) (id : Nat) :
    (updateMinMaxPriority ts id)._selectedTiles = ts._selectedTiles ∧
    (updateMinMaxPriority ts id)._requestedTiles = ts._requestedTiles ∧
    cfgOf (updateMinMaxPriority ts id) = cfgOf ts := by
  unfold updateMinMaxPriority
  dsimp only
  split_ifs <;> exact ⟨rfl, rfl, rfl⟩

theorem updateTile_spec (ts : Tileset) (id : Nat) :
    (updateTile ts id)._selectedTiles = ts._selectedTiles ∧
    (updateTile ts id)._requestedTiles = ts._requestedTiles ∧
    cfgOf (updateTile ts id) = cfgOf ts ∧
    (∀ j, ((updateTile ts id).tiles j)._refines = (ts.tiles j)._refines) := by
  refine ⟨rfl, rfl, rfl, fun j => ?_⟩
  by_cases hj : j = id <;> simp [updateTile, tileUpdateVisibility, modifyTile, hj]

theorem foldl_updateTile_spec (l : List Nat) (ts : Tileset) :
    ((l.foldl (fun ts c => updateTile ts c) ts))._selectedTiles = ts._selectedTiles ∧
    ((l.foldl (fun ts c => updateTile ts c) ts))._requestedTiles = ts._requestedTiles ∧
    cfgOf (l.foldl (fun ts c => updateTile ts c) ts) = cfgOf ts ∧
    (∀ j, ((l.foldl (fun ts c => updateTile ts c) ts).tiles j)._refines =
      (ts.tiles j)._refines) := by
  induction l generalizing ts with
  | nil => exact ⟨rfl, rfl, rfl, fun j => rfl⟩
  | cons c rest ih =>
      obtain ⟨i1, i2, i3, i4⟩ := ih (updateTile ts c)
      obtain ⟨u1, u2, u3, u4⟩ := updateTile_spec ts c
      exact ⟨i1.trans u1, i2.trans u2, i3.trans u3, fun j => (i4 j).trans (u4 j)⟩

/-- The per-child visibility scratch after the child-update pass: the
oracles have been copied in. -/
theorem foldl_updateTile_vis (l : List Nat) (ts : Tileset) (c : Nat) (hc : c ∈ l) :
    ((l.foldl (fun ts c => updateTile ts c) ts).tiles c)._visible =
      (ts.tiles c).visibleOracle ∧
    ((l.foldl (fun ts c => updateTile ts c) ts).tiles c)._inRequestVolume =
      (ts.tiles c).inRequestVolumeOracle := by
  induction l generalizing ts with
  | nil => cases hc
  | cons d rest ih =>
      rw [List.foldl_cons]
      by_cases hcr : c ∈ rest
      · obtain ⟨i1, i2⟩ := ih (updateTile ts d) hcr
        have hv : ((updateTile ts d).tiles c).visibleOracle = (ts.tiles c).visibleOracle :=
          congrArg TileStatic.visibleOracle (staticOf_updateTile ts d c)
        have hr : ((updateTile ts d).tiles c).inRequestVolumeOracle =
            (ts.tiles c).inRequestVolumeOracle :=
          congrArg TileStatic.inRequestVolumeOracle (staticOf_updateTile ts d c)
        exact ⟨i1.trans hv, i2.trans hr⟩
      · have hcd : c = d := by
          rcases List.mem_cons.mp hc with h | h
          · exact h
          · exact absurd h hcr
        subst hcd
        rw [foldl_updateTile_notmem _ _ _ hcr]
        simp [updateTile, tileUpdateVisibility, modifyTile]

theorem touchTile_spec (ts : Tileset) (id : Nat) (frame : Int) :
    (touchTile ts id frame)._selectedTiles = ts._selectedTiles ∧
    (touchTile ts id frame)._requestedTiles = ts._requestedTiles ∧
    cfgOf (touchTile ts id frame) = cfgOf ts ∧
    (∀ j, ((touchTile ts id frame).tiles j)._refines = (ts.tiles j)._refines) := by
  unfold touchTile
  split_ifs with h
  · exact ⟨rfl, rfl, rfl, fun j => rfl⟩
  · refine ⟨rfl, rfl, rfl, fun j => ?_⟩
    by_cases hj : j = id <;> simp [modifyTile, hj]

theorem visitTile_spec (ts : Tileset) (id : Nat) (frame : Int) :
    (visitTile ts id frame)._selectedTiles = ts._selectedTiles ∧
    (visitTile ts id frame)._requestedTiles = ts._requestedTiles ∧
    cfgOf (visitTile ts id frame) = cfgOf ts ∧
    (∀ j, staticOf ((visitTile ts id frame).tiles j) = staticOf (ts.tiles j)) ∧
    (∀ j, ((visitTile ts id frame).tiles j)._refines = (ts.tiles j)._refines) := by
  refine ⟨rfl, rfl, rfl, fun j => ?_, fun j => ?_⟩ <;>
    by_cases hj : j = id <;> simp [visitTile, modifyTile, hj, staticOf]

theorem loadTile_spec (ts : Tileset) (id : Nat) (frame : Int) :
    (loadTile ts id frame)._selectedTiles = ts._selectedTiles ∧
    (loadTile ts id frame)._requestedTiles = ts._requestedTiles ++
      (if hasUnloadedContent (ts.tiles id) || (ts.tiles id).contentExpired then [id] else []) ∧
    cfgOf (loadTile ts id frame) = cfgOf ts ∧
    (∀ j, ((loadTile ts id frame).tiles j)._refines = (ts.tiles j)._refines) := by
  unfold loadTile
  split_ifs with h
  · obtain ⟨m1, m2, m3⟩ := updateMinMaxPriority_spec (modifyTile ts id fun t =>
      { t with _requestedFrame := frame }) id
    refine ⟨m1, ?_, m3, fun j => ?_⟩
    · show _ ++ [id] = _
      rw [m2]
      rfl
    · show ((updateMinMaxPriority _ id).tiles j)._refines = _
      rw [updateMinMaxPriority_tiles]
      by_cases hj : j = id <;> simp [modifyTile, hj]
  · simp

theorem selectTile_spec (ts : Tileset) (id : Nat) (frame : Int)
    (hcv : (ts.tiles id).contentVisibilityOutside = false) :
    (selectTile ts id frame)._selectedTiles = ts._selectedTiles ++ [id] ∧
    (selectTile ts id frame)._requestedTiles = ts._requestedTiles ∧
    cfgOf (selectTile ts id frame) = cfgOf ts ∧
    (∀ j, ((selectTile ts id frame).tiles j)._refines = (ts.tiles j)._refines) := by
  unfold selectTile
  rw [if_neg (by simp [hcv])]
  dsimp only
  split_ifs <;> refine ⟨rfl, rfl, rfl, fun j => ?_⟩ <;>
    by_cases hj : j = id <;> simp [modifyTile, hj]

theorem updateTileAncestorContentLinks_spec (ts : Tileset) (id : Nat) (frame : Int) :
    (updateTileAncestorContentLinks ts id frame)._selectedTiles = ts._selectedTiles ∧
    (updateTileAncestorContentLinks ts id frame)._requestedTiles = ts._requestedTiles ∧
    cfgOf (updateTileAncestorContentLinks ts id frame) = cfgOf ts ∧
    (∀ j, staticOf ((updateTileAncestorContentLinks ts id frame).tiles j) =
      staticOf (ts.tiles j)) ∧
    (∀ j, ((updateTileAncestorContentLinks ts id frame).tiles j)._refines =
      (ts.tiles j)._refines) := by
  unfold updateTileAncestorContentLinks
  simp only [modifyTile_tiles, if_pos]
  cases hp : (ts.tiles id).parent with
  | none =>
      refine ⟨rfl, rfl, rfl, fun j => ?_, fun j => ?_⟩ <;>
        by_cases hj : j = id <;> simp [modifyTile, hj, staticOf]
  | some p =>
      refine ⟨rfl, rfl, rfl, fun j => ?_, fun j => ?_⟩ <;>
        by_cases hj : j = id <;> simp [modifyTile, hj, staticOf]

theorem foldl_holderAssign_spec (l : List Nat) (h : Nat) (ts : Tileset) :
    ((l.foldl
        (fun ts c => modifyTile ts c fun t => { t with _priorityDistanceHolder := h })
        ts))._selectedTiles = ts._selectedTiles ∧
    ((l.foldl
        (fun ts c => modifyTile ts c fun t => { t with _priorityDistanceHolder := h })
        ts))._requestedTiles = ts._requestedTiles ∧
    cfgOf (l.foldl
        (fun ts c => modifyTile ts c fun t => { t with _priorityDistanceHolder := h }) ts) =
      cfgOf ts ∧
    (∀ j, ((l.foldl
        (fun ts c => modifyTile ts c fun t => { t with _priorityDistanceHolder := h })
        ts).tiles j)._refines = (ts.tiles j)._refines) := by
  induction l generalizing ts with
  | nil => exact ⟨rfl, rfl, rfl, fun j => rfl⟩
  | cons c rest ih =>
      obtain ⟨i1, i2, i3, i4⟩ := ih (modifyTile ts c fun t =>
        { t with _priorityDistanceHolder := h })
      refine ⟨i1.trans rfl, i2.trans rfl, i3.trans rfl, fun j => (i4 j).trans ?_⟩
      by_cases hj : j = c <;> simp [modifyTile, hj]

theorem all_congr_mem (l : List Nat) (f g : Nat → Bool) (h : ∀ x ∈ l, f x = g x) :
    l.all f = l.all g := by
  induction l with
  | nil => rfl
  | cons x xs ih =>
      simp only [List.all_cons]
      rw [h x (List.mem_cons_self x xs), ih fun y hy => h y (List.mem_cons_of_mem x hy)]

theorem perm_all (f : Nat → Bool) {l l' : List Nat} (h : l.Perm l') : l.all f = l'.all f := by
  induction h with
  | nil => rfl
  | cons x _ ih => simp only [List.all_cons, ih]
  | swap x y l => simp only [List.all_cons, Bool.and_left_comm]
  | trans _ _ ih1 ih2 => exact ih1.trans ih2


/-- The child loop of `updateAndPushChildren` with the refinement check on,
over a block of children that are all visible and all have real content: it
leaves the tileset untouched, pushes the block in reverse, accumulates the
content-availability conjunction into `refines`, raises the any-visible
flag, and keeps the minimum index inside the children array. -/
theorem pushLoop_allVisible_spec (frame : Int) (fuel : Nat) (ls : Bool) (L : List Nat) :
    ∀ (l : List Nat) (i : Nat) (st : PushChildrenState),
      L.drop i = l →
      (∀ c ∈ l, isVisible st.ts c = true) →
      (∀ c ∈ l, hasEmptyContent ((st.ts).tiles c) = false) →
      (∀ k, st.minIndex = some k → ∃ m, L.get? k = some m) →
      (pushChildrenLoop frame fuel true ls l i st).ts = st.ts ∧
      (pushChildrenLoop frame fuel true ls l i st).stack = l.reverse ++ st.stack ∧
      (pushChildrenLoop frame fuel true ls l i st).refines =
        (st.refines && l.all fun c => ((st.ts).tiles c).contentAvailable) ∧
      (pushChildrenLoop frame fuel true ls l i st).anyChildrenVisible =
        (st.anyChildrenVisible || !l.isEmpty) ∧
      (∀ k, (pushChildrenLoop frame fuel true ls l i st).minIndex = some k →
        ∃ m, L.get? k = some m) := by
  intro l
  induction l with
  | nil =>
      intro i st _ _ _ hmin
      exact ⟨rfl, by simp [pushChildrenLoop], by simp [pushChildrenLoop],
        by simp [pushChildrenLoop], hmin⟩
  | cons c rest ih =>
      intro i st hdrop hvis hemp hmin
      have hgetc : L.get? i = some c := by
        have h0 : (L.drop i).get? 0 = some c := by rw [hdrop]; rfl
        rwa [List.get?_drop, Nat.add_zero] at h0
      have hdrop' : L.drop (i + 1) = rest := by
        have htl : (L.drop i).tail = rest := by rw [hdrop]; rfl
        rwa [List.tail_drop] at htl
      have hvc : isVisible st.ts c = true := hvis c (List.mem_cons_self c rest)
      have hreqc : ((st.ts).tiles c)._inRequestVolume = true :=
        (Bool.and_eq_true _ _ |>.mp hvc).2
      have hempc : hasEmptyContent ((st.ts).tiles c) = false :=
        hemp c (List.mem_cons_self c rest)
      rw [pushChildrenLoop]
      rw [show pushChildrenStep frame fuel true ls st i c =
        pushChildrenRefines frame fuel true (pushChildrenVisit frame true ls st i c) c
        from rfl]
      unfold pushChildrenVisit
      rw [if_pos hvc]
      dsimp only
      by_cases hlt : ((st.ts).tiles c)._priorityDistance < st.minDistancePriority
      · rw [if_pos hlt]
        rw [show pushChildrenRefines frame fuel true
            { st with stack := c :: st.stack, anyChildrenVisible := true, minIndex := some i, minDistancePriority := (st.ts.tiles c)._priorityDistance } c =
          { st with stack := c :: st.stack, anyChildrenVisible := true, minIndex := some i, minDistancePriority := (st.ts.tiles c)._priorityDistance, ts := st.ts, refines := st.refines && ((st.ts).tiles c).contentAvailable }
          from by
            unfold pushChildrenRefines
            rw [if_pos rfl]
            dsimp only
            rw [if_neg (by rw [hreqc]; simp), if_neg (by rw [hempc]; simp)]]
        obtain ⟨o1, o2, o3, o4, o5⟩ := ih (i + 1)
          { st with stack := c :: st.stack, anyChildrenVisible := true, minIndex := some i, minDistancePriority := (st.ts.tiles c)._priorityDistance, ts := st.ts, refines := st.refines && ((st.ts).tiles c).contentAvailable }
          hdrop' (fun d hd => hvis d (List.mem_cons_of_mem c hd))
          (fun d hd => hemp d (List.mem_cons_of_mem c hd))
          (by
            intro k hk
            have hk' : (some i : Option Nat) = some k := hk
            cases hk'
            exact ⟨c, hgetc⟩)
        refine ⟨o1, ?_, ?_, ?_, o5⟩
        · rw [o2]
          simp
        · rw [o3]
          simp [Bool.and_assoc]
        · rw [o4]
          simp
      · rw [if_neg hlt]
        rw [show pushChildrenRefines frame fuel true
            { st with stack := c :: st.stack, anyChildrenVisible := true } c =
          { st with stack := c :: st.stack, anyChildrenVisible := true, ts := st.ts, refines := st.refines && ((st.ts).tiles c).contentAvailable }
          from by
            unfold pushChildrenRefines
            rw [if_pos rfl]
            dsimp only
            rw [if_neg (by rw [hreqc]; simp), if_neg (by rw [hempc]; simp)]]
        obtain ⟨o1, o2, o3, o4, o5⟩ := ih (i + 1)
          { st with stack := c :: st.stack, anyChildrenVisible := true, ts := st.ts, refines := st.refines && ((st.ts).tiles c).contentAvailable }
          hdrop' (fun d hd => hvis d (List.mem_cons_of_mem c hd))
          (fun d hd => hemp d (List.mem_cons_of_mem c hd))
          (fun k hk => hmin k hk)
        refine ⟨o1, ?_, ?_, ?_, o5⟩
        · rw [o2]
          simp
        · rw [o3]
          simp [Bool.and_assoc]
        · rw [o4]
          simp


theorem cfgOf_modifyTile (ts : Tileset) (id : Nat) (g : Tile → Tile) :
    cfgOf (modifyTile ts id g) = cfgOf ts := rfl

theorem selected_modifyTile (ts : Tileset) (id : Nat) (g : Tile → Tile) :
    (modifyTile ts id g)._selectedTiles = ts._selectedTiles := rfl

theorem requested_modifyTile (ts : Tileset) (id : Nat) (g : Tile → Tile) :
    (modifyTile ts id g)._requestedTiles = ts._requestedTiles := rfl

theorem staticOf_modifyTile_wasMin (ts : Tileset) (id j : Nat) :
    staticOf ((modifyTile ts id fun t => { t with _wasMinChild := true }).tiles j) =
      staticOf (ts.tiles j) :=
  staticOf_modifyTile ts id (fun t => { t with _wasMinChild := true }) (fun t => rfl) j

theorem staticOf_modifyTile_prio (ts : Tileset) (id : Nat) (v : ℚ) (j : Nat) :
    staticOf ((modifyTile ts id fun t => { t with _priorityDistance := v }).tiles j) =
      staticOf (ts.tiles j) :=
  staticOf_modifyTile ts id (fun t => { t with _priorityDistance := v }) (fun t => rfl) j

theorem refines_modifyTile_wasMin (ts : Tileset) (id j : Nat) :
    ((modifyTile ts id fun t => { t with _wasMinChild := true }).tiles j)._refines =
      (ts.tiles j)._refines := by
  by_cases hj : j = id <;> simp [modifyTile, hj]

theorem refines_modifyTile_prio (ts : Tileset) (id : Nat) (v : ℚ) (j : Nat) :
    ((modifyTile ts id fun t => { t with _priorityDistance := v }).tiles j)._refines =
      (ts.tiles j)._refines := by
  by_cases hj : j = id <;> simp [modifyTile, hj]

/-- `updateAndPushChildren` on a REPLACE parent with real content in base
mode, all children visible with real content: the children are sorted and
pushed in reverse, the returned refinement flag is the conjunction of the
children's `contentAvailable`, and the only writes besides the per-frame
scratch are the parent's sorted `children` array. -/
theorem updateAndPushChildren_allVisible (ts : Tileset) (stack : List Nat) (frame : Int)
    (fuel : Nat)
    (hrt : (ts.tiles ts.root).refine = Refine.replace)
    (hskip : ts._skipLevelOfDetail = false)
    (hrE : (ts.tiles ts.root).hasEmptyContent = false)
    (hrT : (ts.tiles ts.root).hasTilesetContent = false)
    (hroot : ts.root ∉ (ts.tiles ts.root).children)
    (hne : (ts.tiles ts.root).children ≠ [])
    (hch : ∀ c ∈ (ts.tiles ts.root).children,
      (ts.tiles c).visibleOracle = true ∧ (ts.tiles c).inRequestVolumeOracle = true ∧
      (ts.tiles c).hasEmptyContent = false ∧ (ts.tiles c).hasTilesetContent = false) :
    ∃ (sorted : List Nat) (tsB : Tileset),
      updateAndPushChildren ts ts.root stack frame fuel =
        (tsB, sorted.reverse ++ stack,
          (ts.tiles ts.root).children.all fun c => (ts.tiles c).contentAvailable) ∧
      sorted.Perm ((ts.tiles ts.root).children) ∧
      (∀ j, j ≠ ts.root → staticOf (tsB.tiles j) = staticOf (ts.tiles j)) ∧
      staticOf (tsB.tiles ts.root) = { staticOf (ts.tiles ts.root) with children := sorted } ∧
      (∀ j, (tsB.tiles j)._refines = (ts.tiles j)._refines) ∧
      cfgOf tsB = cfgOf ts ∧
      tsB._selectedTiles = ts._selectedTiles ∧
      tsB._requestedTiles = ts._requestedTiles := by
  unfold updateAndPushChildren
  dsimp only
  generalize hF : (ts.tiles ts.root).children.foldl (fun ts c => updateTile ts c) ts = tsF
  have hstaticF : ∀ j, staticOf (tsF.tiles j) = staticOf (ts.tiles j) := by
    intro j
    rw [← hF]
    exact staticOf_foldl_updateTile _ ts j
  have hskipF : tsF._skipLevelOfDetail = ts._skipLevelOfDetail := by
    rw [← hF]
    exact skipLOD_foldl_updateTile _ ts
  have hlsF : tsF.loadSiblings = ts.loadSiblings := by
    rw [← hF]
    exact loadSiblings_foldl_updateTile _ ts
  have hselF : tsF._selectedTiles = ts._selectedTiles := by
    rw [← hF]
    exact (foldl_updateTile_spec _ ts).1
  have hreqF : tsF._requestedTiles = ts._requestedTiles := by
    rw [← hF]
    exact (foldl_updateTile_spec _ ts).2.1
  have hcfgF : cfgOf tsF = cfgOf ts := by
    rw [← hF]
    exact (foldl_updateTile_spec _ ts).2.2.1
  have hrefF : ∀ j, (tsF.tiles j)._refines = (ts.tiles j)._refines := by
    intro j
    rw [← hF]
    exact (foldl_updateTile_spec _ ts).2.2.2 j
  have hvisF : ∀ c ∈ (ts.tiles ts.root).children,
      (tsF.tiles c)._visible = true ∧ (tsF.tiles c)._inRequestVolume = true := by
    intro c hc
    obtain ⟨h1, h2, _, _⟩ := hch c hc
    rw [← hF]
    obtain ⟨v1, v2⟩ := foldl_updateTile_vis _ ts c hc
    exact ⟨v1.trans h1, v2.trans h2⟩
  generalize hS : sortByCmp (childSortLE tsF) ((tsF.tiles ts.root).children) = sorted
  have hchF : (tsF.tiles ts.root).children = (ts.tiles ts.root).children :=
    congrArg TileStatic.children (hstaticF ts.root)
  have hperm : sorted.Perm ((ts.tiles ts.root).children) := by
    rw [← hS, hchF]
    exact sortByCmp_perm _ _
  have hmemS : ∀ c ∈ sorted, c ∈ (ts.tiles ts.root).children :=
    fun c hc => hperm.mem_iff.mp hc
  generalize h1 : modifyTile tsF ts.root (fun t => { t with children := sorted }) = ts1
  have hts1tiles : ∀ j, ts1.tiles j =
      if j = ts.root then { tsF.tiles j with children := sorted } else tsF.tiles j := by
    intro j
    rw [← h1]
    rfl
  have hskip1 : skipLevelOfDetail ts1 = false := by
    rw [← h1]
    show tsF._skipLevelOfDetail = false
    rw [hskipF]
    exact hskip
  have hls1 : ts1.loadSiblings = ts.loadSiblings := by
    rw [← h1]
    exact hlsF
  have hsel1 : ts1._selectedTiles = ts._selectedTiles := by
    rw [← h1]
    exact hselF
  have hreq1 : ts1._requestedTiles = ts._requestedTiles := by
    rw [← h1]
    exact hreqF
  have hcfg1 : cfgOf ts1 = cfgOf ts := by
    rw [← h1]
    exact hcfgF
  have href1 : ∀ j, (ts1.tiles j)._refines = (ts.tiles j)._refines := by
    intro j
    rw [hts1tiles j]
    split_ifs with hj
    · show (tsF.tiles j)._refines = _
      exact hrefF j
    · exact hrefF j
  have hstat1 : ∀ j, j ≠ ts.root → staticOf (ts1.tiles j) = staticOf (ts.tiles j) := by
    intro j hj
    rw [hts1tiles j, if_neg hj]
    exact hstaticF j
  have hstat1R : staticOf (ts1.tiles ts.root) =
      { staticOf (ts.tiles ts.root) with children := sorted } := by
    rw [hts1tiles ts.root, if_pos rfl]
    rw [show staticOf { tsF.tiles ts.root with children := sorted } =
      { staticOf (tsF.tiles ts.root) with children := sorted } from rfl]
    rw [hstaticF ts.root]
  have havail1 : ∀ c ∈ sorted, (ts1.tiles c).contentAvailable =
      (ts.tiles c).contentAvailable := by
    intro c hc
    have hcr : c ≠ ts.root := fun h => hroot (h ▸ hmemS c hc)
    exact congrArg TileStatic.contentAvailable (hstat1 c hcr)
  have hCR : (!skipLevelOfDetail ts1 && decide ((ts.tiles ts.root).refine = Refine.replace) &&
      !hasEmptyContent (ts1.tiles ts.root)) = true := by
    rw [hskip1, hrt]
    have hEF : (tsF.tiles ts.root).hasEmptyContent = (ts.tiles ts.root).hasEmptyContent :=
      congrArg TileStatic.hasEmptyContent (hstaticF ts.root)
    have hTF : (tsF.tiles ts.root).hasTilesetContent = (ts.tiles ts.root).hasTilesetContent :=
      congrArg TileStatic.hasTilesetContent (hstaticF ts.root)
    have hE : (ts1.tiles ts.root).hasEmptyContent = false := by
      rw [hts1tiles ts.root, if_pos rfl]
      show (tsF.tiles ts.root).hasEmptyContent = false
      rw [hEF]
      exact hrE
    have hT : (ts1.tiles ts.root).hasTilesetContent = false := by
      rw [hts1tiles ts.root, if_pos rfl]
      show (tsF.tiles ts.root).hasTilesetContent = false
      rw [hTF]
      exact hrT
    simp [hasEmptyContent, hE, hT]
  rw [hCR, hls1]
  obtain ⟨o1, o2, o3, o4, o5⟩ := pushLoop_allVisible_spec frame fuel ts.loadSiblings sorted
    sorted 0
    { ts := ts1, stack := stack, refines := true, anyChildrenVisible := false,
      minIndex := none, minDistancePriority := numberMaxValue }
    rfl
    (by
      intro c hc
      have hcm := hmemS c hc
      have hcr : c ≠ ts.root := fun h => hroot (h ▸ hcm)
      show isVisible ts1 c = true
      obtain ⟨v1, v2⟩ := hvisF c hcm
      unfold isVisible
      rw [hts1tiles c, if_neg hcr, v1, v2]
      rfl)
    (by
      intro c hc
      have hcm := hmemS c hc
      have hcr : c ≠ ts.root := fun h => hroot (h ▸ hcm)
      show hasEmptyContent (ts1.tiles c) = false
      obtain ⟨_, _, h3, h4⟩ := hch c hcm
      have hE : (ts1.tiles c).hasEmptyContent = false := by
        have hx : (ts1.tiles c).hasEmptyContent = (ts.tiles c).hasEmptyContent :=
          congrArg TileStatic.hasEmptyContent (hstat1 c hcr)
        rw [hx]
        exact h3
      have hT : (ts1.tiles c).hasTilesetContent = false := by
        have hx : (ts1.tiles c).hasTilesetContent = (ts.tiles c).hasTilesetContent :=
          congrArg TileStatic.hasTilesetContent (hstat1 c hcr)
        rw [hx]
        exact h4
      simp [hasEmptyContent, hE, hT])
    (fun k hk => Option.noConfusion hk)
  generalize hO : pushChildrenLoop frame fuel true ts.loadSiblings sorted 0
    { ts := ts1, stack := stack, refines := true, anyChildrenVisible := false,
      minIndex := none, minDistancePriority := numberMaxValue } = out at o1 o2 o3 o4 o5 ⊢
  have ho1 : out.ts = ts1 := o1
  have hsne : sorted ≠ [] := by
    intro h
    apply hne
    have hlen := hperm.length_eq
    rw [h] at hlen
    exact List.length_eq_zero.mp hlen.symm
  have hany : out.anyChildrenVisible = true := by
    rw [o4]
    cases sorted with
    | nil => exact absurd rfl hsne
    | cons a l => rfl
  have hrefval : (if !out.anyChildrenVisible then false else out.refines) =
      ((ts.tiles ts.root).children.all fun c => (ts.tiles c).contentAvailable) := by
    rw [hany, o3]
    show (true && sorted.all fun c => (ts1.tiles c).contentAvailable) = _
    rw [Bool.true_and]
    rw [all_congr_mem sorted _ _ havail1]
    exact perm_all _ hperm
  rcases hmi : out.minIndex with _ | k
  · simp only [hmi]
    refine ⟨sorted, out.ts, ?_, hperm, ?_, ?_, ?_, ?_, ?_, ?_⟩
    · rw [o2, hrefval]
    · intro j hj
      rw [ho1]
      exact hstat1 j hj
    · rw [ho1]
      exact hstat1R
    · intro j
      rw [ho1]
      exact href1 j
    · rw [ho1]
      exact hcfg1
    · rw [ho1]
      exact hsel1
    · rw [ho1]
      exact hreq1
  · obtain ⟨m, hget⟩ := o5 k hmi
    simp only [hmi, hget]
    rw [o2, hrefval]
    refine ⟨sorted, _, rfl, hperm, ?_, ?_, ?_, ?_, ?_, ?_⟩
    · intro j hj
      refine ((staticOf_foldl_holder sorted _ _ j).trans ?_).trans (hstat1 j hj)
      rw [ho1]
      exact (staticOf_modifyTile_prio _ _ _ j).trans (staticOf_modifyTile_wasMin _ _ j)
    · refine ((staticOf_foldl_holder sorted _ _ ts.root).trans ?_).trans hstat1R
      rw [ho1]
      exact (staticOf_modifyTile_prio _ _ _ ts.root).trans
        (staticOf_modifyTile_wasMin _ _ ts.root)
    · intro j
      refine ((foldl_holderAssign_spec sorted _ _).2.2.2 j).trans ?_
      rw [ho1]
      exact ((refines_modifyTile_prio _ _ _ j).trans
        (refines_modifyTile_wasMin _ _ j)).trans (href1 j)
    · refine ((foldl_holderAssign_spec sorted _ _).2.2.1).trans ?_
      rw [ho1]
      exact ((cfgOf_modifyTile _ _ _).trans (cfgOf_modifyTile _ _ _)).trans hcfg1
    · refine ((foldl_holderAssign_spec sorted _ _).1).trans ?_
      rw [ho1]
      exact ((selected_modifyTile _ _ _).trans (selected_modifyTile _ _ _)).trans hsel1
    · refine ((foldl_holderAssign_spec sorted _ _).2.1).trans ?_
      rw [ho1]
      exact ((requested_modifyTile _ _ _).trans (requested_modifyTile _ _ _)).trans hreq1


theorem staticOf_modifyTile_refines (ts : Tileset) (id : Nat) (v : Bool) (j : Nat) :
    staticOf ((modifyTile ts id fun t => { t with _refines := v }).tiles j) =
      staticOf (ts.tiles j) :=
  staticOf_modifyTile ts id (fun t => { t with _refines := v }) (fun t => rfl) j

/-- One `executeTraversal` iteration popping a REPLACE root over budget in
base mode, all children visible with real content and at least one child
unavailable: the root is loaded (a no-op for loaded content), selected, and
stamped `_refines := false`; the sorted children are pushed. -/
theorem rootStep_spec (ts : Tileset) (bsse : ℚ) (frame : Int) (fuel : Nat)
    (hrt : (ts.tiles ts.root).refine = Refine.replace)
    (hskip : ts._skipLevelOfDetail = false)
    (hparent : (ts.tiles ts.root).parent = none)
    (hrE : (ts.tiles ts.root).hasEmptyContent = false)
    (hrT : (ts.tiles ts.root).hasTilesetContent = false)
    (hsse : ts.maximumScreenSpaceError < (ts.tiles ts.root).screenSpaceError)
    (hrA : (ts.tiles ts.root).contentAvailable = true)
    (hrU : (ts.tiles ts.root).contentUnloaded = false)
    (hrX : (ts.tiles ts.root).contentExpired = false)
    (hrCV : (ts.tiles ts.root).contentVisibilityOutside = false)
    (hroot : ts.root ∉ (ts.tiles ts.root).children)
    (hne : (ts.tiles ts.root).children ≠ [])
    (hch : ∀ c ∈ (ts.tiles ts.root).children,
      (ts.tiles c).visibleOracle = true ∧ (ts.tiles c).inRequestVolumeOracle = true ∧
      (ts.tiles c).hasEmptyContent = false ∧ (ts.tiles c).hasTilesetContent = false)
    (hallf : ((ts.tiles ts.root).children.all fun c => (ts.tiles c).contentAvailable) =
      false) :
    ∃ (sorted : List Nat) (tsB : Tileset),
      executeTraversalStep ts ts.root [] bsse frame fuel = (tsB, sorted.reverse) ∧
      sorted.Perm ((ts.tiles ts.root).children) ∧
      tsB._selectedTiles = ts._selectedTiles ++ [ts.root] ∧
      tsB._requestedTiles = ts._requestedTiles ∧
      (tsB.tiles ts.root)._refines = false ∧
      cfgOf tsB = cfgOf ts ∧
      (∀ j, j ≠ ts.root → staticOf (tsB.tiles j) = staticOf (ts.tiles j)) := by
  obtain ⟨a1, a2, a3, a4, a5⟩ := updateTileAncestorContentLinks_spec ts ts.root frame
  unfold executeTraversalStep
  generalize hA : updateTileAncestorContentLinks ts ts.root frame = tsA at a1 a2 a3 a4 a5 ⊢
  dsimp only
  have hskipA : tsA._skipLevelOfDetail = false := (congrArg Prod.fst a3).trans hskip
  have hrootA : tsA.root = ts.root := congrArg (fun p => p.2.1) a3
  have hmaxA : tsA.maximumScreenSpaceError = ts.maximumScreenSpaceError :=
    congrArg (fun p => p.2.2) a3
  have hrefA : (tsA.tiles ts.root).refine = Refine.replace :=
    (show (tsA.tiles ts.root).refine = (ts.tiles ts.root).refine from
      congrArg TileStatic.refine (a4 ts.root)).trans hrt
  have hparA : (tsA.tiles ts.root).parent = none :=
    (show (tsA.tiles ts.root).parent = (ts.tiles ts.root).parent from
      congrArg TileStatic.parent (a4 ts.root)).trans hparent
  have hchA : (tsA.tiles ts.root).children = (ts.tiles ts.root).children :=
    congrArg TileStatic.children (a4 ts.root)
  have hEA : (tsA.tiles ts.root).hasEmptyContent = false :=
    (show (tsA.tiles ts.root).hasEmptyContent = (ts.tiles ts.root).hasEmptyContent from
      congrArg TileStatic.hasEmptyContent (a4 ts.root)).trans hrE
  have hTA : (tsA.tiles ts.root).hasTilesetContent = false :=
    (show (tsA.tiles ts.root).hasTilesetContent = (ts.tiles ts.root).hasTilesetContent from
      congrArg TileStatic.hasTilesetContent (a4 ts.root)).trans hrT
  have hsseA : (tsA.tiles ts.root).screenSpaceError = (ts.tiles ts.root).screenSpaceError :=
    congrArg TileStatic.screenSpaceError (a4 ts.root)
  have hbase : inBaseTraversal tsA ts.root bsse = true := by
    unfold inBaseTraversal
    rw [show skipLevelOfDetail tsA = false from hskipA]
    rfl
  have hcan : canTraverse tsA ts.root = true := by
    unfold canTraverse
    rw [if_neg (by
      rw [hchA]
      exact fun h => hne (List.length_eq_zero.mp h))]
    rw [hTA]
    rw [if_neg (by exact Bool.false_ne_true)]
    rw [hsseA, hmaxA]
    exact decide_eq_true hsse
  have hupd := updateAndPushChildren_allVisible tsA [] frame fuel
    (by rw [hrootA]; exact hrefA)
    hskipA
    (by rw [hrootA]; exact hEA)
    (by rw [hrootA]; exact hTA)
    (by rw [hrootA, hchA]; exact hroot)
    (by rw [hrootA, hchA]; exact hne)
    (by
      rw [hrootA, hchA]
      intro c hc
      obtain ⟨h1, h2, h3, h4⟩ := hch c hc
      exact ⟨(show (tsA.tiles c).visibleOracle = (ts.tiles c).visibleOracle from
          congrArg TileStatic.visibleOracle (a4 c)).trans h1,
        (show (tsA.tiles c).inRequestVolumeOracle = (ts.tiles c).inRequestVolumeOracle from
          congrArg TileStatic.inRequestVolumeOracle (a4 c)).trans h2,
        (show (tsA.tiles c).hasEmptyContent = (ts.tiles c).hasEmptyContent from
          congrArg TileStatic.hasEmptyContent (a4 c)).trans h3,
        (show (tsA.tiles c).hasTilesetContent = (ts.tiles c).hasTilesetContent from
          congrArg TileStatic.hasTilesetContent (a4 c)).trans h4⟩)
  obtain ⟨sorted, tsB0, hupdEq, hperm0, hstatB, hstatBR, hrefB, hcfgB, hselB, hreqB⟩ := hupd
  rw [hrootA] at hupdEq hperm0 hstatB hstatBR
  rw [hchA] at hperm0
  have hperm : sorted.Perm ((ts.tiles ts.root).children) := hperm0
  have hallA : ((tsA.tiles ts.root).children.all fun c => (tsA.tiles c).contentAvailable) =
      false := by
    rw [hchA]
    have hav : ∀ c ∈ (ts.tiles ts.root).children,
        (tsA.tiles c).contentAvailable = (ts.tiles c).contentAvailable :=
      fun c hc => congrArg TileStatic.contentAvailable (a4 c)
    rw [all_congr_mem _ (fun c => (tsA.tiles c).contentAvailable)
      (fun c => (ts.tiles c).contentAvailable) hav]
    exact hallf
  rw [hallA] at hupdEq
  rw [if_pos hcan, hupdEq]
  dsimp only
  rw [hparA]
  dsimp only
  have hEB : (tsB0.tiles ts.root).hasEmptyContent = false :=
    (congrArg TileStatic.hasEmptyContent hstatBR).trans hEA
  have hTB : (tsB0.tiles ts.root).hasTilesetContent = false :=
    (congrArg TileStatic.hasTilesetContent hstatBR).trans hTA
  have hemptyB : hasEmptyContent (tsB0.tiles ts.root) = false := by
    simp [hasEmptyContent, hEB, hTB]
  rw [if_neg (by rw [hemptyB]; exact Bool.false_ne_true)]
  rw [if_neg (show ¬(tsA.tiles ts.root).refine = Refine.add from by
    rw [hrefA]
    exact fun h => Refine.noConfusion h)]
  rw [if_pos hrefA]
  rw [if_pos hbase]
  have hUB : (tsB0.tiles ts.root).contentUnloaded = false :=
    (congrArg TileStatic.contentUnloaded hstatBR).trans
      ((show (tsA.tiles ts.root).contentUnloaded = (ts.tiles ts.root).contentUnloaded from
        congrArg TileStatic.contentUnloaded (a4 ts.root)).trans hrU)
  have hXB : (tsB0.tiles ts.root).contentExpired = false :=
    (congrArg TileStatic.contentExpired hstatBR).trans
      ((show (tsA.tiles ts.root).contentExpired = (ts.tiles ts.root).contentExpired from
        congrArg TileStatic.contentExpired (a4 ts.root)).trans hrX)
  have hAB : (tsB0.tiles ts.root).contentAvailable = true :=
    (congrArg TileStatic.contentAvailable hstatBR).trans
      ((show (tsA.tiles ts.root).contentAvailable = (ts.tiles ts.root).contentAvailable from
        congrArg TileStatic.contentAvailable (a4 ts.root)).trans hrA)
  have hCVB : (tsB0.tiles ts.root).contentVisibilityOutside = false :=
    (congrArg TileStatic.contentVisibilityOutside hstatBR).trans
      ((show (tsA.tiles ts.root).contentVisibilityOutside =
          (ts.tiles ts.root).contentVisibilityOutside from
        congrArg TileStatic.contentVisibilityOutside (a4 ts.root)).trans hrCV)
  have hloadB : loadTile tsB0 ts.root frame = tsB0 := by
    unfold loadTile
    rw [if_neg (by
      simp [hasUnloadedContent, hemptyB, hUB, hXB])]
  rw [hloadB]
  rw [if_pos (by rfl)]
  have hskipB : tsB0._skipLevelOfDetail = false := (congrArg Prod.fst hcfgB).trans hskipA
  have hsdt : selectDesiredTile tsB0 ts.root frame fuel = selectTile tsB0 ts.root frame := by
    unfold selectDesiredTile
    rw [if_pos (by rw [show skipLevelOfDetail tsB0 = false from hskipB]; rfl)]
    rw [if_pos hAB]
  rw [hsdt]
  obtain ⟨s1, s2, s3, s4⟩ := selectTile_spec tsB0 ts.root frame hCVB
  generalize hSel : selectTile tsB0 ts.root frame = tsS at s1 s2 s3 s4 ⊢
  obtain ⟨v1, v2, v3, v4, v5⟩ := visitTile_spec tsS ts.root frame
  generalize hV : visitTile tsS ts.root frame = tsV at v1 v2 v3 v4 v5 ⊢
  obtain ⟨t1, t2, t3, t4⟩ := touchTile_spec tsV ts.root frame
  generalize hT2 : touchTile tsV ts.root frame = tsT at t1 t2 t3 t4 ⊢
  rw [show (sorted.reverse ++ ([] : List Nat)) = sorted.reverse from List.append_nil _]
  refine ⟨sorted, _, rfl, hperm, ?_, ?_, ?_, ?_, ?_⟩
  · rw [selected_modifyTile, t1, v1, s1, hselB, a1]
  · rw [requested_modifyTile, t2, v2, s2, hreqB, a2]
  · simp [modifyTile]
  · rw [cfgOf_modifyTile, t3, v3, s3, hcfgB, a3]
  · intro j hj
    refine (staticOf_modifyTile_refines _ _ _ j).trans ?_
    have hsS : staticOf (tsS.tiles j) = staticOf (tsB0.tiles j) := by
      rw [← hSel]
      exact staticOf_selectTile tsB0 ts.root frame j
    have hsV : staticOf (tsV.tiles j) = staticOf (tsS.tiles j) := v4 j
    have hsT : staticOf (tsT.tiles j) = staticOf (tsV.tiles j) := by
      rw [← hT2]
      exact staticOf_touchTile tsV ts.root frame j
    rw [hsT, hsV, hsS]
    exact (hstatB j hj).trans (a4 j)


/-- One `executeTraversal` iteration popping a REPLACE leaf in base mode
whose parent has already stopped refining: nothing is selected, the leaf is
loaded — appending it to `_requestedTiles` exactly when its content is
unloaded — and only per-frame scratch fields change. -/
theorem leafStep_spec (ts : Tileset) (bsse : ℚ) (frame : Int) (fuel : Nat) (c r : Nat)
    (stack : List Nat)
    (hskip : ts._skipLevelOfDetail = false)
    (hrc : c ≠ r)
    (hparc : (ts.tiles c).parent = some r)
    (hrefc : (ts.tiles c).refine = Refine.replace)
    (hchc : (ts.tiles c).children = [])
    (hEc : (ts.tiles c).hasEmptyContent = false)
    (hTc : (ts.tiles c).hasTilesetContent = false)
    (hXc : (ts.tiles c).contentExpired = false)
    (hrefr : (ts.tiles r)._refines = false) :
    ∃ tsB : Tileset,
      executeTraversalStep ts c stack bsse frame fuel = (tsB, stack) ∧
      tsB._selectedTiles = ts._selectedTiles ∧
      tsB._requestedTiles = ts._requestedTiles ++
        (if (ts.tiles c).contentUnloaded then [c] else []) ∧
      cfgOf tsB = cfgOf ts ∧
      (∀ j, staticOf (tsB.tiles j) = staticOf (ts.tiles j)) ∧
      (tsB.tiles r)._refines = false := by
  obtain ⟨a1, a2, a3, a4, a5⟩ := updateTileAncestorContentLinks_spec ts c frame
  unfold executeTraversalStep
  generalize hA : updateTileAncestorContentLinks ts c frame = tsA at a1 a2 a3 a4 a5 ⊢
  dsimp only
  have hskipA : tsA._skipLevelOfDetail = false := (congrArg Prod.fst a3).trans hskip
  have hrefcA : (tsA.tiles c).refine = Refine.replace :=
    (show (tsA.tiles c).refine = (ts.tiles c).refine from
      congrArg TileStatic.refine (a4 c)).trans hrefc
  have hparcA : (tsA.tiles c).parent = some r :=
    (show (tsA.tiles c).parent = (ts.tiles c).parent from
      congrArg TileStatic.parent (a4 c)).trans hparc
  have hchcA : (tsA.tiles c).children = [] :=
    (congrArg TileStatic.children (a4 c)).trans hchc
  have hEcA : (tsA.tiles c).hasEmptyContent = false :=
    (show (tsA.tiles c).hasEmptyContent = (ts.tiles c).hasEmptyContent from
      congrArg TileStatic.hasEmptyContent (a4 c)).trans hEc
  have hTcA : (tsA.tiles c).hasTilesetContent = false :=
    (show (tsA.tiles c).hasTilesetContent = (ts.tiles c).hasTilesetContent from
      congrArg TileStatic.hasTilesetContent (a4 c)).trans hTc
  have hXcA : (tsA.tiles c).contentExpired = false :=
    (show (tsA.tiles c).contentExpired = (ts.tiles c).contentExpired from
      congrArg TileStatic.contentExpired (a4 c)).trans hXc
  have hUcA : (tsA.tiles c).contentUnloaded = (ts.tiles c).contentUnloaded :=
    congrArg TileStatic.contentUnloaded (a4 c)
  have hrefrA : (tsA.tiles r)._refines = false := (a5 r).trans hrefr
  have hcan : canTraverse tsA c = false := by
    unfold canTraverse
    rw [if_pos (by rw [hchcA]; rfl)]
  rw [if_neg (show ¬(canTraverse tsA c = true) from by
    rw [hcan]
    exact Bool.false_ne_true)]
  dsimp only
  rw [hparcA]
  dsimp only
  rw [hrefrA]
  have hemptyA : hasEmptyContent (tsA.tiles c) = false := by
    simp [hasEmptyContent, hEcA, hTcA]
  rw [if_neg (show ¬(hasEmptyContent (tsA.tiles c) = true) from by
    rw [hemptyA]
    exact Bool.false_ne_true)]
  rw [if_neg (show ¬(tsA.tiles c).refine = Refine.add from by
    rw [hrefcA]
    exact fun h => Refine.noConfusion h)]
  rw [if_pos hrefcA]
  have hbase : inBaseTraversal tsA c bsse = true := by
    unfold inBaseTraversal
    rw [show skipLevelOfDetail tsA = false from hskipA]
    rfl
  rw [if_pos hbase]
  rw [if_neg (show ¬((!false && false) = true) from by decide)]
  obtain ⟨l1, l2, l3, l4⟩ := loadTile_spec tsA c frame
  generalize hL : loadTile tsA c frame = tsL at l1 l2 l3 l4 ⊢
  obtain ⟨v1, v2, v3, v4, v5⟩ := visitTile_spec tsL c frame
  generalize hV : visitTile tsL c frame = tsV at v1 v2 v3 v4 v5 ⊢
  obtain ⟨t1, t2, t3, t4⟩ := touchTile_spec tsV c frame
  generalize hT2 : touchTile tsV c frame = tsT at t1 t2 t3 t4 ⊢
  refine ⟨_, rfl, ?_, ?_, ?_, ?_, ?_⟩
  · rw [selected_modifyTile, t1, v1, l1, a1]
  · rw [requested_modifyTile, t2, v2, l2, a2]
    have hcond : (hasUnloadedContent (tsA.tiles c) || (tsA.tiles c).contentExpired) =
        (ts.tiles c).contentUnloaded := by
      simp [hasUnloadedContent, hemptyA, hXcA, hUcA]
    rw [hcond]
  · rw [cfgOf_modifyTile, t3, v3, l3, a3]
  · intro j
    refine (staticOf_modifyTile_refines _ _ _ j).trans ?_
    have hsT : staticOf (tsT.tiles j) = staticOf (tsV.tiles j) := by
      rw [← hT2]
      exact staticOf_touchTile tsV c frame j
    have hsL : staticOf (tsL.tiles j) = staticOf (tsA.tiles j) := by
      rw [← hL]
      exact staticOf_loadTile tsA c frame j
    rw [hsT, v4 j, hsL]
    exact a4 j
  · have hmr : ((modifyTile tsT c fun t => { t with _refines := false }).tiles r)._refines =
        (tsT.tiles r)._refines := by
      simp [modifyTile, Ne.symm hrc]
    rw [hmr, t4 r, v5 r, l4 r]
    exact hrefrA

/-- The tail phase of the base traversal over a stack of REPLACE leaves of
a parent that stopped refining: it never selects, requests exactly the
unloaded leaves in stack order, and leaves the parent's `_refines` false. -/
theorem basePhase2 (bsse : ℚ) (frame : Int) (fuel : Nat) (r : Nat) (cs : List Nat)
    (P : Nat → Bool) :
    ∀ (l : List Nat) (n : Nat) (ts : Tileset),
      l.length ≤ n →
      (∀ c ∈ l, c ∈ cs) →
      ts._skipLevelOfDetail = false →
      r ∉ cs →
      (ts.tiles r)._refines = false →
      (∀ c ∈ cs, (ts.tiles c).parent = some r ∧ (ts.tiles c).refine = Refine.replace ∧
        (ts.tiles c).children = [] ∧ (ts.tiles c).hasEmptyContent = false ∧
        (ts.tiles c).hasTilesetContent = false ∧ (ts.tiles c).contentExpired = false ∧
        (ts.tiles c).contentUnloaded = P c) →
      (executeTraversalLoop bsse frame fuel n ts l)._selectedTiles = ts._selectedTiles ∧
      (executeTraversalLoop bsse frame fuel n ts l)._requestedTiles =
        ts._requestedTiles ++ l.filter (fun c => P c) ∧
      ((executeTraversalLoop bsse frame fuel n ts l).tiles r)._refines = false := by
  intro l
  induction l with
  | nil =>
      intro n ts _ _ _ _ hrefr _
      cases n with
      | zero => exact ⟨rfl, by simp [executeTraversalLoop], hrefr⟩
      | succ m => exact ⟨rfl, by simp [executeTraversalLoop], hrefr⟩
  | cons c rest ih =>
      intro n ts hlen hmem hskip hrcs hrefr hcs
      cases n with
      | zero => simp at hlen
      | succ m =>
          have hcc : c ∈ cs := hmem c (List.mem_cons_self c rest)
          obtain ⟨hparc, hrefc, hchc, hEc, hTc, hXc, hUc⟩ := hcs c hcc
          have hrc : c ≠ r := fun h => hrcs (h ▸ hcc)
          obtain ⟨tsB, hstep, b1, b2, b3, b4, b5⟩ :=
            leafStep_spec ts bsse frame fuel c r rest hskip hrc hparc hrefc hchc hEc hTc
              hXc hrefr
          rw [executeTraversalLoop]
          rw [hstep]
          dsimp only
          have hskipB : tsB._skipLevelOfDetail = false := (congrArg Prod.fst b3).trans hskip
          obtain ⟨i1, i2, i3⟩ := ih m tsB (Nat.le_of_succ_le_succ hlen)
            (fun d hd => hmem d (List.mem_cons_of_mem c hd)) hskipB hrcs b5
            (by
              intro d hd
              obtain ⟨p1, p2, p3, p4, p5, p6, p7⟩ := hcs d hd
              exact ⟨(show (tsB.tiles d).parent = (ts.tiles d).parent from
                  congrArg TileStatic.parent (b4 d)).trans p1,
                (show (tsB.tiles d).refine = (ts.tiles d).refine from
                  congrArg TileStatic.refine (b4 d)).trans p2,
                (congrArg TileStatic.children (b4 d)).trans p3,
                (show (tsB.tiles d).hasEmptyContent = (ts.tiles d).hasEmptyContent from
                  congrArg TileStatic.hasEmptyContent (b4 d)).trans p4,
                (show (tsB.tiles d).hasTilesetContent = (ts.tiles d).hasTilesetContent from
                  congrArg TileStatic.hasTilesetContent (b4 d)).trans p5,
                (show (tsB.tiles d).contentExpired = (ts.tiles d).contentExpired from
                  congrArg TileStatic.contentExpired (b4 d)).trans p6,
                (show (tsB.tiles d).contentUnloaded = (ts.tiles d).contentUnloaded from
                  congrArg TileStatic.contentUnloaded (b4 d)).trans p7⟩)
          refine ⟨i1.trans b1, ?_, i3⟩
          rw [i2, b2]
          cases hPc : (ts.tiles c).contentUnloaded with
          | false =>
              rw [List.filter_cons]
              rw [hUc] at hPc
              simp [hPc]
          | true =>
              rw [List.filter_cons]
              rw [hUc] at hPc
              simp [hPc]


/-- The prologue of `selectTiles` up to the traversal dispatch: with a
visible over-budget root in base mode it resets the output lists, refreshes
the root's visibility scratch and hands over to `executeBaseTraversal`,
returning `some true`. -/
theorem selectTiles_entry (ts : Tileset) (frame : Int) (fuel : Nat)
    (hfreeze : ts.debugFreezeFrame = false)
    (hrV : (ts.tiles ts.root).visibleOracle = true)
    (hrR : (ts.tiles ts.root).inRequestVolumeOracle = true)
    (hsseP : ts.maximumScreenSpaceError < (ts.tiles ts.root).screenSpaceErrorParentGE)
    (hskip : ts._skipLevelOfDetail = false) :
    ∃ tsE : Tileset,
      selectTiles ts frame fuel = (executeBaseTraversal tsE frame fuel, some true) ∧
      (∀ j, staticOf (tsE.tiles j) = staticOf (ts.tiles j)) ∧
      cfgOf tsE = cfgOf ts ∧
      tsE._selectedTiles = [] ∧
      tsE._requestedTiles = [] := by
  unfold selectTiles
  dsimp only
  split_ifs with h1 h2 h3 h4 h5
  · exact absurd h1 (by simp [hfreeze])
  · exact absurd h2 (by
      simp [isVisible, updateTile, tileUpdateVisibility, modifyTile, hrV, hrR])
  · exact absurd h3 (by
      simp [updateTile, tileUpdateVisibility, modifyTile, not_le]
      exact hsseP)
  · refine ⟨_, rfl, ?_, rfl, rfl, rfl⟩
    intro j
    exact staticOf_updateTile _ _ j
  · exact absurd h4 (by
      simp [skipLevelOfDetail, updateTile, tileUpdateVisibility, modifyTile, hskip])
  · exact absurd h4 (by
      simp [skipLevelOfDetail, updateTile, tileUpdateVisibility, modifyTile, hskip])


/-- Transport of the selection invariant along equal tiles and selection
list. -/
theorem Inv_ext {ts ts' : Tileset} (h : Inv ts) (hts : ts'.tiles = ts.tiles)
    (hsel : ts'._selectedTiles = ts._selectedTiles) : Inv ts' := by
  obtain ⟨h1, h2, h3⟩ := h
  refine ⟨fun id => ?_, fun id a => ?_, fun id hid => ?_⟩
  · rw [hts]
    exact h1 id
  · rw [hts]
    exact h2 id a
  · rw [hts]
    rw [hsel] at hid
    exact h3 id hid

/-- A per-tile rewrite that does not raise `_shouldSelect`, does not touch
availability, refinement or the available-ancestor link, and leaves the
selection list alone preserves the invariant. -/
theorem Inv_modifyTile (ts : Tileset) (id : Nat) (g : Tile → Tile)
    (hgs : ∀ t, (g t)._shouldSelect = true → t._shouldSelect = true)
    (hga : ∀ t, (g t).contentAvailable = t.contentAvailable)
    (hgr : ∀ t, (g t).refine = t.refine)
    (hgl : ∀ t, (g t)._ancestorWithContentAvailable = t._ancestorWithContentAvailable)
    (h : Inv ts) : Inv (modifyTile ts id g) := by
  obtain ⟨h1, h2, h3⟩ := h
  have htile : ∀ i, (modifyTile ts id g).tiles i =
      if i = id then g (ts.tiles id) else ts.tiles i := by
    intro i
    by_cases hi : i = id <;> simp [modifyTile, hi]
  refine ⟨fun i => ?_, fun i a => ?_, fun i hid => ?_⟩
  · rw [htile i]
    by_cases hi : i = id
    · subst hi
      rw [if_pos rfl]
      intro hs
      rw [hga]
      exact h1 i (hgs _ hs)
    · rw [if_neg hi]
      exact h1 i
  · rw [htile i]
    intro hl
    have hl' : (ts.tiles i)._ancestorWithContentAvailable = some a := by
      by_cases hi : i = id
      · subst hi
        rw [if_pos rfl, hgl] at hl
        exact hl
      · rw [if_neg hi] at hl
        exact hl
    have hava := h2 i a hl'
    rw [htile a]
    by_cases ha : a = id
    · subst ha
      rw [if_pos rfl, hga]
      exact hava
    · rw [if_neg ha]
      exact hava
  · have hid' : i ∈ ts._selectedTiles := hid
    rw [htile i]
    by_cases hi : i = id
    · subst hi
      rw [if_pos rfl, hgr, hga]
      exact h3 i hid'
    · rw [if_neg hi]
      exact h3 i hid'

theorem Inv_tileUpdateVisibility (ts : Tileset) (id : Nat) (h : Inv ts) :
    Inv (tileUpdateVisibility ts id) := by
  unfold tileUpdateVisibility
  exact Inv_ext (Inv_modifyTile ts id
    (fun t => { t with _visible := t.visibleOracle, _inRequestVolume := t.inRequestVolumeOracle })
    (fun t hs => hs) (fun t => rfl) (fun t => rfl) (fun t => rfl) h) rfl rfl

theorem Inv_updateTile (ts : Tileset) (id : Nat) (h : Inv ts) : Inv (updateTile ts id) := by
  unfold updateTile
  exact Inv_modifyTile (tileUpdateVisibility ts id) id
    (fun t =>
      { t with
        _priorityDistance := getPriority (tileUpdateVisibility ts id) id
        _priorityDistanceHolder := id
        _decendantsThatHaveFadedIn := 0
        _decendantsThatHaveFadedInLastFrame := 0
        _decendantsCount := 0
        _wasMinChild := false
        _shouldSelect := false
        _finalResolution := true })
    (fun t hs => absurd hs (by simp)) (fun t => rfl) (fun t => rfl) (fun t => rfl)
    (Inv_tileUpdateVisibility ts id h)

theorem Inv_foldl_updateTile (l : List Nat) (ts : Tileset) (h : Inv ts) :
    Inv (l.foldl (fun ts c => updateTile ts c) ts) := by
  induction l generalizing ts with
  | nil => exact h
  | cons c rest ih => exact ih _ (Inv_updateTile ts c h)

theorem Inv_touchTile (ts : Tileset) (id : Nat) (frame : Int) (h : Inv ts) :
    Inv (touchTile ts id frame) := by
  unfold touchTile
  split_ifs
  · exact h
  · exact Inv_ext (Inv_modifyTile ts id (fun t => { t with _touchedFrame := frame })
      (fun t hs => hs) (fun t => rfl) (fun t => rfl) (fun t => rfl) h) rfl rfl

theorem Inv_visitTile (ts : Tileset) (id : Nat) (frame : Int) (h : Inv ts) :
    Inv (visitTile ts id frame) := by
  unfold visitTile
  exact Inv_modifyTile { ts with statisticsVisited := ts.statisticsVisited + 1 } id
    (fun t => { t with _visitedFrame := frame })
    (fun t hs => hs) (fun t => rfl) (fun t => rfl) (fun t => rfl) (Inv_ext h rfl rfl)

theorem Inv_updateMinMaxPriority (ts : Tileset) (id : Nat) (h : Inv ts) :
    Inv (updateMinMaxPriority ts id) :=
  Inv_ext h (updateMinMaxPriority_tiles ts id) (updateMinMaxPriority_spec ts id).1

theorem Inv_loadTile (ts : Tileset) (id : Nat) (frame : Int) (h : Inv ts) :
    Inv (loadTile ts id frame) := by
  unfold loadTile
  split_ifs
  · exact Inv_ext (Inv_updateMinMaxPriority _ id
      (Inv_modifyTile ts id (fun t => { t with _requestedFrame := frame })
        (fun t hs => hs) (fun t => rfl) (fun t => rfl) (fun t => rfl) h)) rfl rfl
  · exact h

theorem Inv_addEmptyTile (ts : Tileset) (id : Nat) (h : Inv ts) : Inv (addEmptyTile ts id) :=
  Inv_ext h rfl rfl


/-- Appending a tile that satisfies the REPLACE-availability guard to the
selection list preserves the invariant. -/
theorem Inv_selected_append (ts : Tileset) (id : Nat)
    (hguard : (ts.tiles id).refine = Refine.replace → (ts.tiles id).contentAvailable = true)
    (h : Inv ts) : Inv { ts with _selectedTiles := ts._selectedTiles ++ [id] } := by
  obtain ⟨h1, h2, h3⟩ := h
  refine ⟨h1, h2, fun i hid => ?_⟩
  have hid' : i ∈ ts._selectedTiles ++ [id] := hid
  rcases List.mem_append.mp hid' with hmem | hmem
  · exact h3 i hmem
  · have hi : i = id := by simpa using hmem
    subst hi
    exact hguard

theorem guard_transfer (ts ts' : Tileset) (id : Nat)
    (hr : (ts'.tiles id).refine = (ts.tiles id).refine)
    (ha : (ts'.tiles id).contentAvailable = (ts.tiles id).contentAvailable)
    (hguard : (ts.tiles id).refine = Refine.replace → (ts.tiles id).contentAvailable = true) :
    (ts'.tiles id).refine = Refine.replace → (ts'.tiles id).contentAvailable = true := by
  intro hrep
  rw [ha]
  rw [hr] at hrep
  exact hguard hrep

theorem Inv_selectTile (ts : Tileset) (id : Nat) (frame : Int)
    (hguard : (ts.tiles id).refine = Refine.replace → (ts.tiles id).contentAvailable = true)
    (h : Inv ts) : Inv (selectTile ts id frame) := by
  unfold selectTile
  split_ifs with hcv h1 h2
  · exact h
  · refine Inv_selected_append _ id ?_ ?_
    · exact guard_transfer ts _ id (by simp [modifyTile]) (by simp [modifyTile]) hguard
    · exact Inv_modifyTile _ id (fun t => { t with _selectedFrame := frame })
        (fun t hs => hs) (fun t => rfl) (fun t => rfl) (fun t => rfl)
        (Inv_ext (Inv_modifyTile ts id
          (fun t => { t with featurePropertiesDirty := false, lastStyleTime := 0 })
          (fun t hs => hs) (fun t => rfl) (fun t => rfl) (fun t => rfl) h) rfl rfl)
  · refine Inv_selected_append _ id ?_ ?_
    · exact guard_transfer ts _ id (by simp [modifyTile]) (by simp [modifyTile]) hguard
    · exact Inv_modifyTile _ id (fun t => { t with _selectedFrame := frame })
        (fun t hs => hs) (fun t => rfl) (fun t => rfl) (fun t => rfl)
        (Inv_ext h rfl rfl)
  · refine Inv_selected_append _ id ?_ ?_
    · exact guard_transfer ts _ id (by simp [modifyTile]) (by simp [modifyTile]) hguard
    · exact Inv_modifyTile _ id (fun t => { t with _selectedFrame := frame })
        (fun t hs => hs) (fun t => rfl) (fun t => rfl) (fun t => rfl) h

theorem Inv_modifyTile_link (ts : Tileset) (id : Nat) (g : Tile → Tile)
    (hgs : ∀ t, (g t)._shouldSelect = t._shouldSelect)
    (hga : ∀ t, (g t).contentAvailable = t.contentAvailable)
    (hgr : ∀ t, (g t).refine = t.refine)
    (hsound : ∀ a, (g (ts.tiles id))._ancestorWithContentAvailable = some a →
      (ts.tiles a).contentAvailable = true)
    (h : Inv ts) : Inv (modifyTile ts id g) := by
  obtain ⟨h1, h2, h3⟩ := h
  have htile : ∀ i, (modifyTile ts id g).tiles i =
      if i = id then g (ts.tiles id) else ts.tiles i := by
    intro i
    by_cases hi : i = id <;> simp [modifyTile, hi]
  refine ⟨fun i => ?_, fun i a => ?_, fun i hid => ?_⟩
  · rw [htile i]
    by_cases hi : i = id
    · subst hi
      rw [if_pos rfl]
      intro hs
      rw [hga]
      rw [hgs] at hs
      exact h1 i hs
    · rw [if_neg hi]
      exact h1 i
  · rw [htile i]
    intro hl
    have hava : (ts.tiles a).contentAvailable = true := by
      by_cases hi : i = id
      · subst hi
        rw [if_pos rfl] at hl
        exact hsound a hl
      · rw [if_neg hi] at hl
        exact h2 i a hl
    rw [htile a]
    by_cases ha : a = id
    · subst ha
      rw [if_pos rfl, hga]
      exact hava
    · rw [if_neg ha]
      exact hava
  · have hid' : i ∈ ts._selectedTiles := hid
    rw [htile i]
    by_cases hi : i = id
    · subst hi
      rw [if_pos rfl, hgr, hga]
      exact h3 i hid'
    · rw [if_neg hi]
      exact h3 i hid'

theorem Inv_updateTileAncestorContentLinks (ts : Tileset) (id : Nat) (frame : Int)
    (h : Inv ts) : Inv (updateTileAncestorContentLinks ts id frame) := by
  have hInv1 : Inv (modifyTile ts id fun t => { t with _ancestorWithContent := none, _ancestorWithContentAvailable := none }) :=
    Inv_modifyTile_link ts id _ (fun t => rfl) (fun t => rfl) (fun t => rfl)
      (fun a ha => absurd ha (by simp)) h
  unfold updateTileAncestorContentLinks
  simp only [modifyTile_tiles, if_pos]
  cases hp : (ts.tiles id).parent with
  | none => exact hInv1
  | some p =>
      apply Inv_modifyTile_link
      · intro t
        rfl
      · intro t
        rfl
      · intro t
        rfl
      · intro a ha
        have ha2 : (if ((modifyTile ts id fun t => { t with _ancestorWithContent := none, _ancestorWithContentAvailable := none }).tiles p).contentAvailable = true
            then some p
            else ((modifyTile ts id fun t => { t with _ancestorWithContent := none, _ancestorWithContentAvailable := none }).tiles p)._ancestorWithContentAvailable) =
            some a := ha
        split_ifs at ha2 with hav
        · have hpa : p = a := by simpa using ha2
          subst hpa
          exact hav
        · exact hInv1.2.1 p a ha2
      · exact hInv1


/-- Raising `_shouldSelect` on a tile with loaded content preserves the
invariant. -/
theorem Inv_modifyTile_should (ts : Tileset) (id : Nat)
    (hav : (ts.tiles id).contentAvailable = true) (h : Inv ts) :
    Inv (modifyTile ts id fun t => { t with _shouldSelect := true }) := by
  obtain ⟨h1, h2, h3⟩ := h
  have htile : ∀ i, (modifyTile ts id fun t => { t with _shouldSelect := true }).tiles i =
      if i = id then { ts.tiles id with _shouldSelect := true } else ts.tiles i := by
    intro i
    by_cases hi : i = id <;> simp [modifyTile, hi]
  refine ⟨fun i => ?_, fun i a => ?_, fun i hid => ?_⟩
  · rw [htile i]
    by_cases hi : i = id
    · subst hi
      rw [if_pos rfl]
      intro _
      exact hav
    · rw [if_neg hi]
      exact h1 i
  · rw [htile i]
    intro hl
    have hl' : (ts.tiles i)._ancestorWithContentAvailable = some a := by
      by_cases hi : i = id
      · subst hi
        rw [if_pos rfl] at hl
        exact hl
      · rw [if_neg hi] at hl
        exact hl
    have hava := h2 i a hl'
    rw [htile a]
    by_cases ha : a = id
    · subst ha
      rw [if_pos rfl]
      exact hava
    · rw [if_neg ha]
      exact hava
  · have hid' : i ∈ ts._selectedTiles := hid
    rw [htile i]
    by_cases hi : i = id
    · subst hi
      rw [if_pos rfl]
      intro _
      exact hav
    · rw [if_neg hi]
      exact h3 i hid'

theorem Inv_selDescFold (frame : Int) (rootDepth : Nat) :
    ∀ (l : List Nat) (p : Tileset × List Nat), Inv p.1 →
      Inv ((l.foldl
        (fun (p : Tileset × List Nat) c =>
          let (ts, stack) := p
          if isVisible ts c then
            if (ts.tiles c).contentAvailable then
              let ts := updateTile ts c
              let ts := touchTile ts c frame
              (selectTile ts c frame, stack)
            else if ((ts.tiles c).depth : Int) - (rootDepth : Int) < descendantSelectionDepth then
              (ts, c :: stack)
            else (ts, stack)
          else (ts, stack))
        p).1) := by
  intro l
  induction l with
  | nil =>
      intro p hp
      exact hp
  | cons c rest ih =>
      intro p hp
      rw [List.foldl_cons]
      apply ih
      obtain ⟨ts, stack⟩ := p
      dsimp only at hp ⊢
      split_ifs with hv ha hd
      · have hava : ((touchTile (updateTile ts c) c frame).tiles c).contentAvailable = true := by
          have h1 : ((touchTile (updateTile ts c) c frame).tiles c).contentAvailable =
              ((updateTile ts c).tiles c).contentAvailable :=
            congrArg TileStatic.contentAvailable (staticOf_touchTile (updateTile ts c) c frame c)
          have h2 : ((updateTile ts c).tiles c).contentAvailable =
              (ts.tiles c).contentAvailable :=
            congrArg TileStatic.contentAvailable (staticOf_updateTile ts c c)
          rw [h1, h2]
          exact ha
        exact Inv_selectTile _ c frame (fun _ => hava)
          (Inv_touchTile _ c frame (Inv_updateTile ts c hp))
      · exact hp
      · exact hp
      · exact hp

theorem Inv_selectDescendantsLoop (frame : Int) (rootDepth : Nat) :
    ∀ (fuel : Nat) (ts : Tileset) (stack : List Nat), Inv ts →
      Inv (selectDescendantsLoop frame rootDepth fuel ts stack) := by
  intro fuel
  induction fuel with
  | zero =>
      intro ts stack h
      exact h
  | succ n ih =>
      intro ts stack h
      cases stack with
      | nil => exact h
      | cons id rest =>
          rw [selectDescendantsLoop]
          apply ih
          exact Inv_selDescFold frame rootDepth ((ts.tiles id).children) (ts, rest) h

theorem Inv_selectDescendants (ts : Tileset) (rootId : Nat) (frame : Int) (fuel : Nat)
    (h : Inv ts) : Inv (selectDescendants ts rootId frame fuel) :=
  Inv_selectDescendantsLoop frame _ fuel ts [rootId] h

theorem Inv_selectDesiredTile (ts : Tileset) (id : Nat) (frame : Int) (fuel : Nat)
    (h : Inv ts) : Inv (selectDesiredTile ts id frame fuel) := by
  unfold selectDesiredTile
  by_cases hsk : (!skipLevelOfDetail ts) = true
  · rw [if_pos hsk]
    by_cases hav : (ts.tiles id).contentAvailable = true
    · rw [if_pos hav]
      exact Inv_selectTile ts id frame (fun _ => hav) h
    · rw [if_neg hav]
      exact h
  · rw [if_neg hsk]
    by_cases hav : (ts.tiles id).contentAvailable = true
    · rw [if_pos hav]
      exact Inv_modifyTile_should ts id hav h
    · rw [if_neg hav]
      cases hl : (ts.tiles id)._ancestorWithContentAvailable with
      | none => exact Inv_selectDescendants ts id frame fuel h
      | some lt => exact Inv_modifyTile_should ts lt (h.2.1 id lt hl) h

theorem Inv_executeEmptyTraversalLoop (frame : Int) :
    ∀ (fuel : Nat) (ts : Tileset) (stack : List Nat) (acc : Bool), Inv ts →
      Inv (executeEmptyTraversalLoop frame fuel ts stack acc).1 := by
  intro fuel
  induction fuel with
  | zero =>
      intro ts stack acc h
      exact h
  | succ n ih =>
      intro ts stack acc h
      cases stack with
      | nil => exact h
      | cons id rest =>
          rw [executeEmptyTraversalLoop]
          apply ih
          split_ifs
          · exact Inv_touchTile _ id frame (Inv_loadTile _ id frame (Inv_updateTile ts id h))
          · exact Inv_updateTile ts id h

theorem Inv_pushChildrenVisit (frame : Int) (checkRefines loadSibs : Bool)
    (st : PushChildrenState) (i c : Nat) (h : Inv st.ts) :
    Inv (pushChildrenVisit frame checkRefines loadSibs st i c).ts := by
  unfold pushChildrenVisit
  dsimp only
  split_ifs <;>
    first
      | exact h
      | exact Inv_touchTile _ c frame (Inv_loadTile _ c frame h)

theorem Inv_pushChildrenRefines (frame : Int) (fuel : Nat) (checkRefines : Bool)
    (st : PushChildrenState) (c : Nat) (h : Inv st.ts) :
    Inv (pushChildrenRefines frame fuel checkRefines st c).ts := by
  unfold pushChildrenRefines executeEmptyTraversal
  split_ifs <;>
    first
      | exact h
      | exact Inv_executeEmptyTraversalLoop frame fuel _ _ _ h

theorem Inv_pushChildrenLoop (frame : Int) (fuel : Nat) (checkRefines loadSibs : Bool) :
    ∀ (l : List Nat) (i : Nat) (st : PushChildrenState), Inv st.ts →
      Inv (pushChildrenLoop frame fuel checkRefines loadSibs l i st).ts := by
  intro l
  induction l with
  | nil =>
      intro i st h
      exact h
  | cons c rest ih =>
      intro i st h
      exact ih (i + 1) _ (Inv_pushChildrenRefines frame fuel checkRefines _ c
        (Inv_pushChildrenVisit frame checkRefines loadSibs st i c h))

theorem Inv_foldl_holderAssign (l : List Nat) (hId : Nat) (ts : Tileset) (h : Inv ts) :
    Inv (l.foldl
      (fun ts c => modifyTile ts c fun t => { t with _priorityDistanceHolder := hId }) ts) := by
  induction l generalizing ts with
  | nil => exact h
  | cons c rest ih =>
      exact ih _ (Inv_modifyTile ts c (fun t => { t with _priorityDistanceHolder := hId })
        (fun t hs => hs) (fun t => rfl) (fun t => rfl) (fun t => rfl) h)

theorem Inv_updateAndPushChildren (ts : Tileset) (id : Nat) (stack : List Nat) (frame : Int)
    (fuel : Nat) (h : Inv ts) : Inv (updateAndPushChildren ts id stack frame fuel).1 := by
  unfold updateAndPushChildren
  dsimp only
  generalize hF : (ts.tiles id).children.foldl (fun ts c => updateTile ts c) ts = tsF
  have hInvF : Inv tsF := by
    rw [← hF]
    exact Inv_foldl_updateTile _ ts h
  generalize hS : sortByCmp (childSortLE tsF) ((tsF.tiles id).children) = sorted
  generalize h1 : modifyTile tsF id (fun t => { t with children := sorted }) = ts1
  have hInv1 : Inv ts1 := by
    rw [← h1]
    exact Inv_modifyTile tsF id _ (fun t hs => hs) (fun t => rfl) (fun t => rfl)
      (fun t => rfl) hInvF
  have h2 := Inv_pushChildrenLoop frame fuel
    (!skipLevelOfDetail ts1 && decide ((ts.tiles id).refine = Refine.replace) &&
      !hasEmptyContent (ts1.tiles id)) ts1.loadSiblings sorted 0
    { ts := ts1, stack := stack, refines := true, anyChildrenVisible := false,
      minIndex := none, minDistancePriority := numberMaxValue } hInv1
  generalize hO : pushChildrenLoop frame fuel
    (!skipLevelOfDetail ts1 && decide ((ts.tiles id).refine = Refine.replace) &&
      !hasEmptyContent (ts1.tiles id)) ts1.loadSiblings sorted 0
    { ts := ts1, stack := stack, refines := true, anyChildrenVisible := false,
      minIndex := none, minDistancePriority := numberMaxValue } = out at h2 ⊢
  rcases hmi : out.minIndex with _ | k
  · simp only [hmi]
    exact h2
  · simp only [hmi]
    rcases hget : sorted.get? k with _ | m
    · simp only [hget]
      exact h2
    · simp only [hget]
      refine Inv_foldl_holderAssign _ _ _ ?_
      refine Inv_modifyTile _ _ _ ?_ ?_ ?_ ?_ ?_
      · intro t hs
        exact hs
      · intro t
        rfl
      · intro t
        rfl
      · intro t
        rfl
      refine Inv_modifyTile _ m _ ?_ ?_ ?_ ?_ h2
      · intro t hs
        exact hs
      · intro t
        rfl
      · intro t
        rfl
      · intro t
        rfl


theorem Inv_executeTraversalStep (ts : Tileset) (id : Nat) (stack : List Nat) (bsse : ℚ)
    (frame : Int) (fuel : Nat) (h : Inv ts) :
    Inv (executeTraversalStep ts id stack bsse frame fuel).1 := by
  unfold executeTraversalStep
  dsimp only
  have hA := Inv_updateTileAncestorContentLinks ts id frame h
  generalize hAe : updateTileAncestorContentLinks ts id frame = tsA at hA ⊢
  have hwrap : ∀ (ts' : Tileset) (b : Bool), Inv ts' →
      Inv (modifyTile (touchTile (visitTile ts' id frame) id frame) id
        fun t => { t with _refines := b }) := by
    intro ts' b h'
    refine Inv_modifyTile _ id _ ?_ ?_ ?_ ?_
      (Inv_touchTile _ id frame (Inv_visitTile _ id frame h'))
    · intro t hs
      exact hs
    · intro t
      rfl
    · intro t
      rfl
    · intro t
      rfl
  by_cases hcan : canTraverse tsA id = true
  · rw [if_pos hcan]
    have hU := Inv_updateAndPushChildren tsA id stack frame fuel hA
    rcases hUe : updateAndPushChildren tsA id stack frame fuel with ⟨tsU, stackU, refU⟩
    rw [hUe] at hU
    have hU' : Inv tsU := hU
    dsimp only
    split_ifs <;>
      first
        | exact hwrap _ _ hU'
        | exact hwrap _ _ (Inv_loadTile _ id frame hU')
        | exact hwrap _ _ (Inv_selectDesiredTile _ id frame fuel
            (Inv_loadTile _ id frame (Inv_addEmptyTile _ id hU')))
        | exact hwrap _ _ (Inv_loadTile _ id frame (Inv_addEmptyTile _ id hU'))
        | exact hwrap _ _ (Inv_loadTile _ id frame
            (Inv_selectDesiredTile _ id frame fuel hU'))
        | exact hwrap _ _ (Inv_selectDesiredTile _ id frame fuel
            (Inv_loadTile _ id frame hU'))
  · rw [if_neg hcan]
    dsimp only
    split_ifs <;>
      first
        | exact hwrap _ _ hA
        | exact hwrap _ _ (Inv_loadTile _ id frame hA)
        | exact hwrap _ _ (Inv_selectDesiredTile _ id frame fuel
            (Inv_loadTile _ id frame (Inv_addEmptyTile _ id hA)))
        | exact hwrap _ _ (Inv_loadTile _ id frame (Inv_addEmptyTile _ id hA))
        | exact hwrap _ _ (Inv_loadTile _ id frame
            (Inv_selectDesiredTile _ id frame fuel hA))
        | exact hwrap _ _ (Inv_selectDesiredTile _ id frame fuel
            (Inv_loadTile _ id frame hA))

theorem Inv_executeTraversalLoop (bsse : ℚ) (frame : Int) (fuel : Nat) :
    ∀ (n : Nat) (ts : Tileset) (l : List Nat), Inv ts →
      Inv (executeTraversalLoop bsse frame fuel n ts l) := by
  intro n
  induction n with
  | zero =>
      intro ts l h
      exact h
  | succ m ih =>
      intro ts l h
      cases l with
      | nil => exact h
      | cons id rest =>
          rw [executeTraversalLoop]
          apply ih
          exact Inv_executeTraversalStep ts id rest bsse frame fuel h

theorem Inv_executeTraversal (ts : Tileset) (bsse : ℚ) (frame : Int) (fuel : Nat)
    (h : Inv ts) : Inv (executeTraversal ts bsse frame fuel) :=
  Inv_executeTraversalLoop bsse frame fuel fuel ts [ts.root] h

theorem shouldSelect_selectTile (ts : Tileset) (id : Nat) (frame : Int) (j : Nat) :
    ((selectTile ts id frame).tiles j)._shouldSelect = (ts.tiles j)._shouldSelect := by
  unfold selectTile
  split_ifs <;> by_cases hj : j = id <;> simp [modifyTile, hj]

theorem AncestorStackOK_transfer (ts ts' : Tileset) (anc : List Nat)
    (hsEq : ∀ j, (ts'.tiles j)._shouldSelect = (ts.tiles j)._shouldSelect)
    (h : AncestorStackOK ts anc) : AncestorStackOK ts' anc :=
  fun w hw => (hsEq w).trans (h w hw)


theorem shouldSelect_modifyTile (ts : Tileset) (i : Nat) (g : Tile → Tile)
    (hg : ∀ t, (g t)._shouldSelect = t._shouldSelect) (j : Nat) :
    ((modifyTile ts i g).tiles j)._shouldSelect = (ts.tiles j)._shouldSelect := by
  by_cases hj : j = i <;> simp [modifyTile, hj, hg]

theorem avail_modifyTile (ts : Tileset) (i : Nat) (g : Tile → Tile)
    (hg : ∀ t, (g t).contentAvailable = t.contentAvailable) (j : Nat) :
    ((modifyTile ts i g).tiles j).contentAvailable = (ts.tiles j).contentAvailable := by
  by_cases hj : j = i <;> simp [modifyTile, hj, hg]

theorem shouldSelect_modify_stackLen (ts : Tileset) (i : Nat) (v : Nat) (j : Nat) :
    ((modifyTile ts i fun t => { t with _stackLength := v }).tiles j)._shouldSelect =
      (ts.tiles j)._shouldSelect := by
  by_cases hj : j = i <;> simp [modifyTile, hj]

theorem Inv_traverseAndSelectStepPop (ts : Tileset) (stack anc : List Nat)
    (last : Option Nat) (frame : Int) (h : Inv ts) (hanc : AncestorStackOK ts anc) :
    Inv (traverseAndSelectStep.traverseAndSelectStepPop ts stack anc last frame).1 ∧
    AncestorStackOK (traverseAndSelectStep.traverseAndSelectStepPop ts stack anc last frame).1
      (traverseAndSelectStep.traverseAndSelectStepPop ts stack anc last frame).2.2.1 := by
  unfold traverseAndSelectStep.traverseAndSelectStepPop
  cases stack with
  | nil => exact ⟨h, hanc⟩
  | cons id rest =>
      dsimp only
      by_cases hsel : (ts.tiles id)._shouldSelect = true
      · rw [if_pos hsel]
        by_cases hadd : (ts.tiles id).refine = Refine.add
        · rw [if_pos hadd]
          dsimp only
          refine ⟨Inv_selectTile ts id frame (fun _ => h.1 id hsel) h, ?_⟩
          exact AncestorStackOK_transfer ts _ anc (shouldSelect_selectTile ts id frame) hanc
        · rw [if_neg hadd]
          have hs1 : ∀ j, ((modifyTile ts id fun t =>
              { t with _selectionDepth := anc.length }).tiles j)._shouldSelect =
              (ts.tiles j)._shouldSelect :=
            shouldSelect_modifyTile ts id _ (fun t => rfl)
          have ha1 : ∀ j, ((modifyTile ts id fun t =>
              { t with _selectionDepth := anc.length }).tiles j).contentAvailable =
              (ts.tiles j).contentAvailable :=
            avail_modifyTile ts id _ (fun t => rfl)
          have hInv1 : Inv (modifyTile ts id fun t =>
              { t with _selectionDepth := anc.length }) :=
            Inv_modifyTile ts id _ (fun t hs => hs) (fun t => rfl) (fun t => rfl)
              (fun t => rfl) h
          by_cases hlen : anc.length > 0
          · rw [if_pos hlen]
            by_cases htr : (!canTraverse ts id) = true
            · rw [if_pos htr]
              dsimp only
              constructor
              · refine Inv_selectTile _ id frame (fun _ => ?_) (Inv_ext hInv1 rfl rfl)
                show ((modifyTile ts id fun t =>
                  { t with _selectionDepth := anc.length }).tiles id).contentAvailable = true
                rw [ha1 id]
                exact h.1 id hsel
              · refine AncestorStackOK_transfer ts _ anc (fun j => ?_) hanc
                rw [shouldSelect_selectTile]
                exact hs1 j
            · rw [if_neg htr]
              dsimp only
              constructor
              · refine Inv_modifyTile _ id _ (fun t hs => hs) (fun t => rfl) (fun t => rfl)
                  (fun t => rfl) (Inv_ext hInv1 rfl rfl)
              · intro w hw
                rw [shouldSelect_modify_stackLen]
                show ((modifyTile ts id fun t =>
                  { t with _selectionDepth := anc.length }).tiles w)._shouldSelect = true
                rw [hs1 w]
                rcases List.mem_cons.mp hw with hw | hw
                · subst hw
                  exact hsel
                · exact hanc w hw
          · rw [if_neg hlen]
            by_cases htr : (!canTraverse ts id) = true
            · rw [if_pos htr]
              dsimp only
              constructor
              · refine Inv_selectTile _ id frame (fun _ => ?_) hInv1
                rw [ha1 id]
                exact h.1 id hsel
              · refine AncestorStackOK_transfer ts _ anc (fun j => ?_) hanc
                rw [shouldSelect_selectTile]
                exact hs1 j
            · rw [if_neg htr]
              dsimp only
              constructor
              · exact Inv_modifyTile _ id _ (fun t hs => hs) (fun t => rfl) (fun t => rfl)
                  (fun t => rfl) hInv1
              · intro w hw
                rw [shouldSelect_modify_stackLen, hs1 w]
                rcases List.mem_cons.mp hw with hw | hw
                · subst hw
                  exact hsel
                · exact hanc w hw
      · rw [if_neg hsel]
        dsimp only
        exact ⟨h, hanc⟩


theorem Inv_traverseAndSelectStep (ts : Tileset) (stack anc : List Nat) (last : Option Nat)
    (frame : Int) (h : Inv ts) (hanc : AncestorStackOK ts anc) :
    Inv (traverseAndSelectStep ts stack anc last frame).1 ∧
    AncestorStackOK (traverseAndSelectStep ts stack anc last frame).1
      (traverseAndSelectStep ts stack anc last frame).2.2.1 := by
  unfold traverseAndSelectStep
  cases anc with
  | nil => exact Inv_traverseAndSelectStepPop ts stack [] last frame h hanc
  | cons w restAnc =>
      dsimp only
      have hsw : (ts.tiles w)._shouldSelect = true := hanc w (List.mem_cons_self w restAnc)
      have hancR : AncestorStackOK ts restAnc :=
        fun x hx => hanc x (List.mem_cons_of_mem w hx)
      by_cases hlen : (ts.tiles w)._stackLength = stack.length
      · rw [if_pos hlen]
        by_cases hne : some w ≠ last
        · rw [if_pos hne]
          dsimp only
          have hs1 : ∀ j, ((modifyTile ts w fun t =>
              { t with _finalResolution := false }).tiles j)._shouldSelect =
              (ts.tiles j)._shouldSelect :=
            shouldSelect_modifyTile ts w _ (fun t => rfl)
          have ha1 : ∀ j, ((modifyTile ts w fun t =>
              { t with _finalResolution := false }).tiles j).contentAvailable =
              (ts.tiles j).contentAvailable :=
            avail_modifyTile ts w _ (fun t => rfl)
          constructor
          · refine Inv_selectTile _ w frame (fun _ => ?_)
              (Inv_modifyTile ts w _ (fun t hs => hs) (fun t => rfl) (fun t => rfl)
                (fun t => rfl) h)
            rw [ha1 w]
            exact h.1 w hsw
          · exact AncestorStackOK_transfer ts _ restAnc
              (fun j => (shouldSelect_selectTile _ w frame j).trans (hs1 j)) hancR
        · rw [if_neg hne]
          dsimp only
          constructor
          · exact Inv_selectTile ts w frame (fun _ => h.1 w hsw) h
          · exact AncestorStackOK_transfer ts _ restAnc
              (shouldSelect_selectTile ts w frame) hancR
      · rw [if_neg hlen]
        exact Inv_traverseAndSelectStepPop ts stack (w :: restAnc) last frame h hanc

theorem Inv_traverseAndSelectLoop (frame : Int) :
    ∀ (fuel : Nat) (ts : Tileset) (stack anc : List Nat) (last : Option Nat),
      Inv ts → AncestorStackOK ts anc →
      Inv (traverseAndSelectLoop frame fuel ts stack anc last) := by
  intro fuel
  induction fuel with
  | zero =>
      intro ts stack anc last h _
      exact h
  | succ n ih =>
      intro ts stack anc last h hanc
      rw [traverseAndSelectLoop]
      split_ifs with hstop
      · exact h
      · apply ih
        · exact (Inv_traverseAndSelectStep ts stack anc last frame h hanc).1
        · exact (Inv_traverseAndSelectStep ts stack anc last frame h hanc).2

theorem Inv_traverseAndSelect (ts : Tileset) (frame : Int) (fuel : Nat) (h : Inv ts) :
    Inv (traverseAndSelect ts frame fuel) :=
  Inv_traverseAndSelectLoop frame fuel ts [ts.root] [] none h
    (fun w hw => absurd hw (List.not_mem_nil w))

theorem Inv_executeBaseTraversal (ts : Tileset) (frame : Int) (fuel : Nat) (h : Inv ts) :
    Inv (executeBaseTraversal ts frame fuel) :=
  Inv_executeTraversal ts _ frame fuel h

theorem Inv_executeSkipTraversal (ts : Tileset) (frame : Int) (fuel : Nat) (h : Inv ts) :
    Inv (executeSkipTraversal ts frame fuel) := by
  unfold executeSkipTraversal
  exact Inv_traverseAndSelect _ frame fuel
    (Inv_executeTraversal ts numberMaxValue frame fuel h)

theorem Inv_executeBaseAndSkipTraversal (ts : Tileset) (frame : Int) (fuel : Nat)
    (h : Inv ts) : Inv (executeBaseAndSkipTraversal ts frame fuel) := by
  unfold executeBaseAndSkipTraversal
  exact Inv_traverseAndSelect _ frame fuel
    (Inv_executeTraversal ts (max ts.baseScreenSpaceError ts.maximumScreenSpaceError)
      frame fuel h)

theorem Inv_heatmapReset (ts : Tileset) (h : Inv ts) : Inv { ts with heatmapWasReset := true } :=
  Inv_ext h rfl rfl

theorem Inv_selectTiles (ts : Tileset) (frame : Int) (fuel : Nat)
    (hfreeze : ts.debugFreezeFrame = false)
    (hS : ShouldSelectSound ts) (hA : AncestorLinkSound ts) :
    Inv (selectTiles ts frame fuel).1 := by
  unfold selectTiles
  dsimp only
  split_ifs with h1 h2 h3 h4 h5
  · exact absurd h1 (by rw [hfreeze]; exact Bool.false_ne_true)
  · apply Inv_updateTile
    exact ⟨hS, hA, fun i hid => absurd hid (List.not_mem_nil i)⟩
  · apply Inv_updateTile
    exact ⟨hS, hA, fun i hid => absurd hid (List.not_mem_nil i)⟩
  · apply Inv_executeBaseTraversal
    apply Inv_heatmapReset
    apply Inv_updateTile
    exact ⟨hS, hA, fun i hid => absurd hid (List.not_mem_nil i)⟩
  · apply Inv_executeSkipTraversal
    apply Inv_heatmapReset
    apply Inv_updateTile
    exact ⟨hS, hA, fun i hid => absurd hid (List.not_mem_nil i)⟩
  · apply Inv_executeBaseAndSkipTraversal
    apply Inv_heatmapReset
    apply Inv_updateTile
    exact ⟨hS, hA, fun i hid => absurd hid (List.not_mem_nil i)⟩

/-! ## Claim theorems -/

unseal Rat.add Rat.sub Rat.mul Rat.inv in
/-- C3 counterexample: in scenario S3, tile 1 is reached once by
`updateAndPushChildren` and once by `executeEmptyTraversal` within a single
`selectTiles` call, so the tile-level visibility recomputation runs twice
for it: the claim that each tile's visibility is recomputed at most once
per frame fails. -/
theorem c3_visibility_recomputed_twice :
    (selectTiles s3 1 20).1.visibilityComputations.count 1 = 2 ∧
    ¬((selectTiles s3 1 20).1.visibilityComputations.count 1 ≤ 1) := by
  decide

/-- C3 (corrected): only the module-level wrapper `updateVisibility`
memoizes through the `_updatedVisibilityFrame` epoch: when the epoch
already matches it performs no recomputation at all.  `updateTile` invokes
the tile-level recomputation directly, without consulting or stamping the
epoch, so the same tile may be recomputed several times per frame. -/
theorem updateVisibility_memoized (ts : Tileset) (id : Nat)
    (h : (ts.tiles id)._updatedVisibilityFrame = ts._updatedVisibilityFrame) :
    updateVisibility ts id = ts := by
  unfold updateVisibility
  rw [if_pos h]

/-- Witness for `updateVisibility_memoized` at the concrete tileset
`sMemo`. -/
theorem updateVisibility_memoized_witness :
    (sMemo.tiles 0)._updatedVisibilityFrame = sMemo._updatedVisibilityFrame ∧
    updateVisibility sMemo 0 = sMemo :=
  ⟨by decide, updateVisibility_memoized sMemo 0 (by decide)⟩

unseal Rat.add Rat.sub Rat.mul Rat.inv in
/-- C4 counterexample: in scenario S4 the root is visible and already meets
the screen-space-error budget; `selectTiles` leaves both output lists empty
but returns the JS value `undefined` (modelled `none`), not `true`. -/
theorem c4_early_return_not_true :
    (s4.tiles 0).visibleOracle = true ∧
    (s4.tiles 0).screenSpaceErrorParentGE ≤ s4.maximumScreenSpaceError ∧
    (selectTiles s4 1 20).1._selectedTiles = [] ∧
    (selectTiles s4 1 20).1._requestedTiles = [] ∧
    (selectTiles s4 1 20).2 ≠ some true := by
  decide

/-- C4 (corrected): when the root tile is visible but its screen-space
error with parent-geometric-error semantics is within the budget,
`selectTiles` returns with `_selectedTiles` and `_requestedTiles` both
empty and with the JS return value `undefined` (modelled `none`), not
`true`. -/
theorem selectTiles_rootMeetsSSE (ts : Tileset) (frame : Int) (fuel : Nat)
    (hfreeze : ts.debugFreezeFrame = false)
    (hvis : (ts.tiles ts.root).visibleOracle = true)
    (hreq : (ts.tiles ts.root).inRequestVolumeOracle = true)
    (hsse : (ts.tiles ts.root).screenSpaceErrorParentGE ≤ ts.maximumScreenSpaceError) :
    (selectTiles ts frame fuel).1._selectedTiles = [] ∧
    (selectTiles ts frame fuel).1._requestedTiles = [] ∧
    (selectTiles ts frame fuel).2 = none := by
  unfold selectTiles
  simp [hfreeze, isVisible, updateTile, tileUpdateVisibility, modifyTile, hvis, hreq, hsse]

/-- Witness for `selectTiles_rootMeetsSSE` at the concrete tileset `s4`. -/
theorem selectTiles_rootMeetsSSE_witness :
    s4.debugFreezeFrame = false ∧
    ((selectTiles s4 1 20).1._selectedTiles = [] ∧
     (selectTiles s4 1 20).1._requestedTiles = [] ∧
     (selectTiles s4 1 20).2 = none) :=
  ⟨by decide, selectTiles_rootMeetsSSE s4 1 20 (by decide) (by decide) (by decide) (by decide)⟩

/-- C5 (confirmed): for every tile with a nonnegative bounding-sphere
radius, the computed priority equals
`clamp(centerZDepth - boundingSphereRadius, 0, centerZDepth)`, is always
nonnegative, and is exactly zero whenever the bounding sphere straddles or
lies behind the camera (`centerZDepth - radius <= 0`, including negative
center depth). -/
theorem getPriority_clamp (ts : Tileset) (id : Nat)
    (h : 0 ≤ (ts.tiles id).boundingSphereRadius) :
    getPriority ts id =
      clamp ((ts.tiles id).centerZDepth - (ts.tiles id).boundingSphereRadius) 0
        (ts.tiles id).centerZDepth ∧
    0 ≤ getPriority ts id ∧
    ((ts.tiles id).centerZDepth - (ts.tiles id).boundingSphereRadius ≤ 0 →
      getPriority ts id = 0) := by
  refine ⟨rfl, ?_, ?_⟩
  · simp only [getPriority, clamp]
    split_ifs <;> linarith
  · intro hle
    simp only [getPriority, clamp]
    split_ifs <;> linarith

unseal Rat.sub in
/-- Witness for `getPriority_clamp` at tile 0 of scenario S1. -/
theorem getPriority_clamp_witness :
    (0 : ℚ) ≤ (s1.tiles 0).boundingSphereRadius ∧
    (getPriority s1 0 =
      clamp ((s1.tiles 0).centerZDepth - (s1.tiles 0).boundingSphereRadius) 0
        (s1.tiles 0).centerZDepth ∧
     0 ≤ getPriority s1 0 ∧
     ((s1.tiles 0).centerZDepth - (s1.tiles 0).boundingSphereRadius ≤ 0 →
       getPriority s1 0 = 0)) :=
  ⟨by decide, getPriority_clamp s1 0 (by decide)⟩

unseal Rat.add Rat.sub Rat.mul Rat.inv in
/-- C6 counterexample: in skip-only scenario S6 a selected ADD root sits
above a selected REPLACE leaf; the leaf's `_selectionDepth` is 0 although
it has one proper ancestor in `_selectedTiles`, so selection depth does not
equal the number of selected proper ancestors. -/
theorem c6_selectionDepth_misses_add_ancestor :
    skipLevelOfDetail s6 = true ∧
    (selectTiles s6 1 20).1._selectedTiles = [0, 1] ∧
    ((selectTiles s6 1 20).1.tiles 1)._selectionDepth = 0 ∧
    ((ancestorChain (selectTiles s6 1 20).1 10 1).filter
        (fun a => (selectTiles s6 1 20).1._selectedTiles.contains a)).length = 1 ∧
    ((selectTiles s6 1 20).1.tiles 1)._selectionDepth ≠
      ((ancestorChain (selectTiles s6 1 20).1 10 1).filter
        (fun a => (selectTiles s6 1 20).1._selectedTiles.contains a)).length := by
  decide

/-- C6 (corrected): when `traverseAndSelect` processes a popped REPLACE
tile with `_shouldSelect` raised (and no waiting ancestor is emitted
first), it sets the tile's `_selectionDepth` to the current length of the
ancestor stack, the number of pending selected REPLACE ancestors; selected
ADD ancestors and ancestors later dropped by the content-visibility check
are not counted, so this can differ from the number of proper ancestors in
`_selectedTiles`. -/
theorem traverseAndSelectStep_selectionDepth
    (ts : Tileset) (id : Nat) (stack ancestorStack : List Nat) (lastAncestor : Option Nat)
    (frame : Int)
    (hanc : ∀ w rest, ancestorStack = w :: rest →
      (ts.tiles w)._stackLength ≠ (id :: stack).length)
    (hsel : (ts.tiles id)._shouldSelect = true)
    (hrep : (ts.tiles id).refine = Refine.replace) :
    (((traverseAndSelectStep ts (id :: stack) ancestorStack lastAncestor frame).1).tiles
      id)._selectionDepth = ancestorStack.length := by
  have hadd : ¬((ts.tiles id).refine = Refine.add) := by
    rw [hrep]
    intro hcontra
    cases hcontra
  have key : ∀ anc : List Nat,
      (((traverseAndSelectStep.traverseAndSelectStepPop ts (id :: stack) anc lastAncestor
        frame).1).tiles id)._selectionDepth = anc.length := by
    intro anc
    unfold traverseAndSelectStep.traverseAndSelectStepPop
    simp only [hsel, if_true, if_neg hadd]
    by_cases hct : canTraverse ts id
    · simp only [hct, Bool.not_true, if_false, if_neg]
      simp [selectTile_tiles_selectionDepth, modifyTile]
      split <;> simp
    · simp only [hct, Bool.not_false, if_true, if_neg]
      simp only [Bool.false_eq_true, if_false, selectTile_tiles_selectionDepth]
      simp [modifyTile]
      split <;> simp
  cases ancestorStack with
  | nil => exact key []
  | cons w rest =>
      have hne := hanc w rest rfl
      unfold traverseAndSelectStep
      simp only [if_neg hne]
      exact key (w :: rest)

/-- Witness for `traverseAndSelectStep_selectionDepth` at the concrete
tileset `sStep`. -/
theorem traverseAndSelectStep_selectionDepth_witness :
    (((traverseAndSelectStep sStep [0] [] none 1).1).tiles 0)._selectionDepth = 0 :=
  traverseAndSelectStep_selectionDepth sStep 0 [] [] none 1
    (fun _ _ h => List.noConfusion h) (by decide) (by decide)

unseal Rat.add Rat.sub Rat.mul Rat.inv in
/-- C8 counterexample: in scenario S8, after `selectTiles` the shared
priority holder of tile 2 carries priority 9, raised by the deeper family
of tile 1, while tile 2's own priority is 5: the claimed inequality
`holder.priorityDistance <= priorityDistance` fails. -/
theorem c8_priority_holder_not_monotone :
    ((selectTiles s8 1 20).1.tiles
      (((selectTiles s8 1 20).1.tiles 2)._priorityDistanceHolder))._priorityDistance = 9 ∧
    ((selectTiles s8 1 20).1.tiles 2)._priorityDistance = 5 ∧
    ¬(((selectTiles s8 1 20).1.tiles
        (((selectTiles s8 1 20).1.tiles 2)._priorityDistanceHolder))._priorityDistance ≤
      ((selectTiles s8 1 20).1.tiles 2)._priorityDistance) := by
  decide

unseal Rat.add Rat.sub Rat.mul Rat.inv in
/-- C9 (confirmed): `updateAndPushChildren` rewrites the tile's persistent
`children` field with the stable sort under the comparator
`sortChildrenByDistanceToCamera` (descending distance to camera; when both
distances are exactly zero, descending center depth), and the reordering is
observable after `selectTiles` returns: in scenario S9 the root's children
`[1, 2, 3]` have become `[3, 2, 1]`. -/
theorem updateAndPushChildren_sorts_in_place :
    (∀ (ts : Tileset) (id : Nat) (stack : List Nat) (frame : Int) (fuel : Nat),
      (((updateAndPushChildren ts id stack frame fuel).1).tiles id).children =
        sortByCmp (childSortLE ts) ((ts.tiles id).children)) ∧
    (s9.tiles 0).children = [1, 2, 3] ∧
    ((selectTiles s9 1 20).1.tiles 0).children = [3, 2, 1] :=
  ⟨updateAndPushChildren_children, by decide, by decide⟩

unseal Rat.add Rat.sub Rat.mul Rat.inv in
/-- C10 (confirmed): `loadTile` has no per-frame idempotence guard: in
scenario S10 the invisible unloaded leaf 2 is requested once by
`executeEmptyTraversal` during the grandparent's refine check and once more
by `updateAndPushChildren` with `loadSiblings`, so `_requestedTiles` holds
duplicate entries after a single `selectTiles` call. -/
theorem loadTile_duplicate_requests :
    (selectTiles s10 1 20).1._requestedTiles = [2, 2] ∧
    ¬(selectTiles s10 1 20).1._requestedTiles.Nodup := by
  decide

/-- C8 (corrected): immediately after `updateAndPushChildren` on a family
whose refinement check is off (skip mode, ADD parent, or empty parent),
every tracked child (visible, or any child when `loadSiblings` is set)
points at a shared priority holder whose `_priorityDistance` equals the
tracked minimum, hence is at most the child's own `_priorityDistance`.
Untracked siblings, and later families rewriting a shared holder upward,
break the claimed global inequality. -/
theorem updateAndPushChildren_priority_chain (ts : Tileset) (id : Nat) (stack : List Nat)
    (frame : Int) (fuel : Nat)
    (hcr : (!skipLevelOfDetail ts && decide ((ts.tiles id).refine = Refine.replace) &&
      !hasEmptyContent (ts.tiles id)) = false) :
    ∀ c ∈ (((updateAndPushChildren ts id stack frame fuel).1).tiles id).children,
      trackedB (updateAndPushChildren ts id stack frame fuel).1 ts.loadSiblings c = true →
      (((updateAndPushChildren ts id stack frame fuel).1).tiles
          ((((updateAndPushChildren ts id stack frame fuel).1).tiles
            c)._priorityDistanceHolder))._priorityDistance ≤
        (((updateAndPushChildren ts id stack frame fuel).1).tiles c)._priorityDistance := by
  unfold updateAndPushChildren
  dsimp only
  generalize hF : (ts.tiles id).children.foldl (fun ts c => updateTile ts c) ts = tsF
  have hstaticF : ∀ j, staticOf (tsF.tiles j) = staticOf (ts.tiles j) := by
    intro j
    rw [← hF]
    exact staticOf_foldl_updateTile _ ts j
  have hskipF : tsF._skipLevelOfDetail = ts._skipLevelOfDetail := by
    rw [← hF]
    exact skipLOD_foldl_updateTile _ ts
  have hlsF : tsF.loadSiblings = ts.loadSiblings := by
    rw [← hF]
    exact loadSiblings_foldl_updateTile _ ts
  have hholdF : ∀ c ∈ (ts.tiles id).children, (tsF.tiles c)._priorityDistanceHolder = c := by
    intro c hc
    rw [← hF]
    exact foldl_updateTile_holder_self _ ts c hc
  generalize hS : sortByCmp (childSortLE tsF) ((tsF.tiles id).children) = sorted
  have hmemS : ∀ c ∈ sorted, c ∈ (ts.tiles id).children := by
    intro c hc
    rw [← hS] at hc
    have hperm := sortByCmp_perm (childSortLE tsF) ((tsF.tiles id).children)
    have hmem : c ∈ (tsF.tiles id).children := hperm.mem_iff.mp hc
    have hch : (tsF.tiles id).children = (ts.tiles id).children :=
      congrArg TileStatic.children (hstaticF id)
    rwa [hch] at hmem
  generalize h1 : modifyTile tsF id (fun t => { t with children := sorted }) = ts1
  have hts1tiles : ∀ j, ts1.tiles j =
      if j = id then { tsF.tiles j with children := sorted } else tsF.tiles j := by
    intro j
    rw [← h1]
    rfl
  have hskip1 : skipLevelOfDetail ts1 = skipLevelOfDetail ts := by
    rw [← h1]
    show tsF._skipLevelOfDetail = ts._skipLevelOfDetail
    exact hskipF
  have hls1 : ts1.loadSiblings = ts.loadSiblings := by
    rw [← h1]
    show tsF.loadSiblings = ts.loadSiblings
    exact hlsF
  have hempty1 : hasEmptyContent (ts1.tiles id) = hasEmptyContent (ts.tiles id) := by
    have hE : (tsF.tiles id).hasEmptyContent = (ts.tiles id).hasEmptyContent :=
      congrArg TileStatic.hasEmptyContent (hstaticF id)
    have hT : (tsF.tiles id).hasTilesetContent = (ts.tiles id).hasTilesetContent :=
      congrArg TileStatic.hasTilesetContent (hstaticF id)
    rw [hts1tiles id, if_pos rfl]
    simp [hasEmptyContent, hE, hT]
  have hCR : (!skipLevelOfDetail ts1 && decide ((ts.tiles id).refine = Refine.replace) &&
      !hasEmptyContent (ts1.tiles id)) = false := by
    rw [hskip1, hempty1]
    exact hcr
  rw [hCR, hls1]
  have hholb1 : ∀ c ∈ sorted, (ts1.tiles c)._priorityDistanceHolder = c := by
    intro c hc
    rw [hts1tiles c]
    split_ifs with hcid
    · show (tsF.tiles c)._priorityDistanceHolder = c
      exact hholdF c (hcid ▸ hmemS c hc)
    · exact hholdF c (hmemS c hc)
  obtain ⟨o1, o2, o3, o4⟩ := pushLoop_min_spec frame fuel ts.loadSiblings ts1 sorted sorted 0
    { ts := ts1, stack := stack, refines := true, anyChildrenVisible := false,
      minIndex := none, minDistancePriority := numberMaxValue }
    rfl (fun j => rfl) (fun k m hk _ => Option.noConfusion hk)
  generalize hO : pushChildrenLoop frame fuel false ts.loadSiblings sorted 0
    { ts := ts1, stack := stack, refines := true, anyChildrenVisible := false,
      minIndex := none, minDistancePriority := numberMaxValue } = out at o1 o2 o3 o4 ⊢
  have hchO : ∀ j, ((out.ts).tiles j).children = (ts1.tiles j).children := by
    intro j
    rw [← hO]
    exact pushChildrenLoop_ts_children _ _ _ _ _ _ _ j
  have hch1 : (ts1.tiles id).children = sorted := by
    rw [hts1tiles id, if_pos rfl]
  have hprO : ∀ j, ((out.ts).tiles j)._priorityDistance = (ts1.tiles j)._priorityDistance := by
    intro j
    have := congrArg PriorityView.priorityDistance (o1 j)
    simpa [priOf] using this
  have hhoO : ∀ j, ((out.ts).tiles j)._priorityDistanceHolder =
      (ts1.tiles j)._priorityDistanceHolder := by
    intro j
    have := congrArg PriorityView.priorityDistanceHolder (o1 j)
    simpa [priOf] using this
  have hvisO : ∀ j, isVisible out.ts j = isVisible ts1 j := by
    intro j
    have hv1 := congrArg PriorityView.visible (o1 j)
    have hv2 := congrArg PriorityView.inRequestVolume (o1 j)
    simp only [priOf] at hv1 hv2
    simp [isVisible, hv1, hv2]
  rcases hmin : out.minIndex with _ | k
  · simp only [hmin]
    intro c hc htr
    rw [hchO id, hch1] at hc
    rw [hhoO c, hholb1 c hc]
  · simp only [hmin]
    rcases hget : sorted.get? k with _ | m
    · simp only [hget]
      intro c hc htr
      rw [hchO id, hch1] at hc
      rw [hhoO c, hholb1 c hc]
    · simp only [hget]
      have hminDist : out.minDistancePriority = (ts1.tiles m)._priorityDistance :=
        o2 k m hmin hget
      have hbound : ∀ c ∈ sorted, (trackedB ts1 ts.loadSiblings c = true) →
          ((out.ts).tiles m)._priorityDistance ≤ ((out.ts).tiles c)._priorityDistance := by
        intro c hc htr
        rw [hprO m, hprO c, ← hminDist]
        exact o4 c hc htr
      intro c hc htr
      have hc' : c ∈ sorted := by
        rw [holder_writes_children, hchO id, hch1] at hc
        exact hc
      have htr' : trackedB ts1 ts.loadSiblings c = true := by
        rw [trackedB] at htr
        rw [holder_writes_vis, hvisO c] at htr
        rw [trackedB]
        exact htr
      exact holder_writes_chain out.ts sorted m _
        (fun c => trackedB ts1 ts.loadSiblings c = true) hbound c hc' htr'


/-- Witness for `updateAndPushChildren_priority_chain` at scenario S8 in
skip mode. -/
theorem updateAndPushChildren_priority_chain_witness :
    (!skipLevelOfDetail s8skip && decide ((s8skip.tiles 0).refine = Refine.replace) &&
      !hasEmptyContent (s8skip.tiles 0)) = false ∧
    (∀ c ∈ (((updateAndPushChildren s8skip 0 [] 1 5).1).tiles 0).children,
      trackedB (updateAndPushChildren s8skip 0 [] 1 5).1 s8skip.loadSiblings c = true →
      (((updateAndPushChildren s8skip 0 [] 1 5).1).tiles
          ((((updateAndPushChildren s8skip 0 [] 1 5).1).tiles
            c)._priorityDistanceHolder))._priorityDistance ≤
        (((updateAndPushChildren s8skip 0 [] 1 5).1).tiles c)._priorityDistance) :=
  ⟨by decide, updateAndPushChildren_priority_chain s8skip 0 [] 1 5 (by decide)⟩

/-- **C7.** `executeEmptyTraversal(root)` returns `true` if and only if every
descendant at which its visibility-ignoring descent stops — every visited tile
for which `hasEmptyContent && canTraverse` does not hold, collected by
`emptyTraversalStops` — has `contentAvailable`; if some stop tile lacks
content the traversal returns `false`. -/
theorem executeEmptyTraversal_allLoaded (ts : Tileset) (rootId : Nat) (frame : Int)
    (fuel : Nat) :
    (executeEmptyTraversal ts rootId frame fuel).2 = true ↔
      ∀ j ∈ emptyTraversalStops ts fuel [rootId], (ts.tiles j).contentAvailable = true := by
  unfold executeEmptyTraversal
  rw [executeEmptyTraversalLoop_spec]
  simp [List.all_eq_true]


/-- **C1.** Base mode, visible REPLACE root over the error budget with real
loaded content, every child a visible non-empty REPLACE leaf, and some
child `b` unavailable and unloaded: after `selectTiles` the root is the
only selected tile, `b` has been appended to `_requestedTiles`, and the
root's `_refines` flag is false. -/
theorem selectTiles_baseUnloadedChild (ts : Tileset) (frame : Int) (n : Nat) (b : Nat)
    (hfuel : (ts.tiles ts.root).children.length + 1 ≤ n)
    (hfreeze : ts.debugFreezeFrame = false)
    (hskip : ts._skipLevelOfDetail = false)
    (hparent : (ts.tiles ts.root).parent = none)
    (hrt : (ts.tiles ts.root).refine = Refine.replace)
    (hrE : (ts.tiles ts.root).hasEmptyContent = false)
    (hrT : (ts.tiles ts.root).hasTilesetContent = false)
    (hrV : (ts.tiles ts.root).visibleOracle = true)
    (hrR : (ts.tiles ts.root).inRequestVolumeOracle = true)
    (hsse : ts.maximumScreenSpaceError < (ts.tiles ts.root).screenSpaceError)
    (hsseP : ts.maximumScreenSpaceError < (ts.tiles ts.root).screenSpaceErrorParentGE)
    (hrA : (ts.tiles ts.root).contentAvailable = true)
    (hrU : (ts.tiles ts.root).contentUnloaded = false)
    (hrX : (ts.tiles ts.root).contentExpired = false)
    (hrCV : (ts.tiles ts.root).contentVisibilityOutside = false)
    (hroot : ts.root ∉ (ts.tiles ts.root).children)
    (hch : ∀ c ∈ (ts.tiles ts.root).children,
      (ts.tiles c).parent = some ts.root ∧ (ts.tiles c).refine = Refine.replace ∧
      (ts.tiles c).children = [] ∧ (ts.tiles c).hasEmptyContent = false ∧
      (ts.tiles c).hasTilesetContent = false ∧ (ts.tiles c).visibleOracle = true ∧
      (ts.tiles c).inRequestVolumeOracle = true ∧ (ts.tiles c).contentExpired = false)
    (hb : b ∈ (ts.tiles ts.root).children)
    (hbU : (ts.tiles b).contentUnloaded = true)
    (hbA : (ts.tiles b).contentAvailable = false) :
    (selectTiles ts frame n).1._selectedTiles = [ts.root] ∧
    b ∈ (selectTiles ts frame n).1._requestedTiles ∧
    ((selectTiles ts frame n).1.tiles ts.root)._refines = false := by
  have hne : (ts.tiles ts.root).children ≠ [] := by
    intro h
    rw [h] at hb
    exact List.not_mem_nil b hb
  obtain ⟨tsE, hEq, hstatE, hcfgE, hselE, hreqE⟩ :=
    selectTiles_entry ts frame n hfreeze hrV hrR hsseP hskip
  rw [hEq]
  dsimp only
  unfold executeBaseTraversal executeTraversal
  obtain ⟨m, rfl⟩ : ∃ m, n = m + 1 := ⟨n - 1, by omega⟩
  rw [executeTraversalLoop]
  have hrootE : tsE.root = ts.root := congrArg (fun p => p.2.1) hcfgE
  have hmaxE : tsE.maximumScreenSpaceError = ts.maximumScreenSpaceError :=
    congrArg (fun p => p.2.2) hcfgE
  have hskipE : tsE._skipLevelOfDetail = false := (congrArg Prod.fst hcfgE).trans hskip
  have hchE : (tsE.tiles ts.root).children = (ts.tiles ts.root).children :=
    congrArg TileStatic.children (hstatE ts.root)
  have hallf : ((ts.tiles ts.root).children.all fun c => (ts.tiles c).contentAvailable) =
      false := by
    refine Bool.eq_false_iff.mpr fun hall => ?_
    have := List.all_eq_true.mp hall b hb
    rw [hbA] at this
    exact Bool.false_ne_true this
  obtain ⟨sorted, tsB, hstepEq, hperm, hselB, hreqB, hrefB, hcfgB, hstatB⟩ :=
    rootStep_spec tsE tsE.maximumScreenSpaceError frame (m + 1)
      (by
        rw [hrootE]
        exact (show (tsE.tiles ts.root).refine = (ts.tiles ts.root).refine from
          congrArg TileStatic.refine (hstatE ts.root)).trans hrt)
      hskipE
      (by
        rw [hrootE]
        exact (show (tsE.tiles ts.root).parent = (ts.tiles ts.root).parent from
          congrArg TileStatic.parent (hstatE ts.root)).trans hparent)
      (by
        rw [hrootE]
        exact (show (tsE.tiles ts.root).hasEmptyContent =
            (ts.tiles ts.root).hasEmptyContent from
          congrArg TileStatic.hasEmptyContent (hstatE ts.root)).trans hrE)
      (by
        rw [hrootE]
        exact (show (tsE.tiles ts.root).hasTilesetContent =
            (ts.tiles ts.root).hasTilesetContent from
          congrArg TileStatic.hasTilesetContent (hstatE ts.root)).trans hrT)
      (by
        rw [hrootE, hmaxE]
        rw [show (tsE.tiles ts.root).screenSpaceError = (ts.tiles ts.root).screenSpaceError
          from congrArg TileStatic.screenSpaceError (hstatE ts.root)]
        exact hsse)
      (by
        rw [hrootE]
        exact (show (tsE.tiles ts.root).contentAvailable =
            (ts.tiles ts.root).contentAvailable from
          congrArg TileStatic.contentAvailable (hstatE ts.root)).trans hrA)
      (by
        rw [hrootE]
        exact (show (tsE.tiles ts.root).contentUnloaded =
            (ts.tiles ts.root).contentUnloaded from
          congrArg TileStatic.contentUnloaded (hstatE ts.root)).trans hrU)
      (by
        rw [hrootE]
        exact (show (tsE.tiles ts.root).contentExpired =
            (ts.tiles ts.root).contentExpired from
          congrArg TileStatic.contentExpired (hstatE ts.root)).trans hrX)
      (by
        rw [hrootE]
        exact (show (tsE.tiles ts.root).contentVisibilityOutside =
            (ts.tiles ts.root).contentVisibilityOutside from
          congrArg TileStatic.contentVisibilityOutside (hstatE ts.root)).trans hrCV)
      (by
        rw [hrootE, hchE]
        exact hroot)
      (by
        rw [hrootE, hchE]
        exact hne)
      (by
        rw [hrootE, hchE]
        intro c hc
        obtain ⟨_, _, _, h4, h5, h6, h7, _⟩ := hch c hc
        exact ⟨(show (tsE.tiles c).visibleOracle = (ts.tiles c).visibleOracle from
            congrArg TileStatic.visibleOracle (hstatE c)).trans h6,
          (show (tsE.tiles c).inRequestVolumeOracle =
              (ts.tiles c).inRequestVolumeOracle from
            congrArg TileStatic.inRequestVolumeOracle (hstatE c)).trans h7,
          (show (tsE.tiles c).hasEmptyContent = (ts.tiles c).hasEmptyContent from
            congrArg TileStatic.hasEmptyContent (hstatE c)).trans h4,
          (show (tsE.tiles c).hasTilesetContent = (ts.tiles c).hasTilesetContent from
            congrArg TileStatic.hasTilesetContent (hstatE c)).trans h5⟩)
      (by
        rw [hrootE, hchE]
        have hav : ∀ c ∈ (ts.tiles ts.root).children,
            (tsE.tiles c).contentAvailable = (ts.tiles c).contentAvailable :=
          fun c hc => congrArg TileStatic.contentAvailable (hstatE c)
        rw [all_congr_mem _ (fun c => (tsE.tiles c).contentAvailable)
          (fun c => (ts.tiles c).contentAvailable) hav]
        exact hallf)
  rw [hrootE] at hperm hstatB hrefB
  rw [hchE] at hperm
  rw [hstepEq]
  dsimp only
  have hmem : ∀ c ∈ sorted.reverse, c ∈ (ts.tiles ts.root).children := by
    intro c hc
    exact hperm.mem_iff.mp (List.mem_reverse.mp hc)
  have hskipB : tsB._skipLevelOfDetail = false :=
    (congrArg Prod.fst hcfgB).trans hskipE
  have hlen : sorted.reverse.length ≤ m := by
    rw [List.length_reverse, hperm.length_eq]
    omega
  obtain ⟨f1, f2, f3⟩ := basePhase2 tsE.maximumScreenSpaceError frame (m + 1) ts.root
    ((ts.tiles ts.root).children) (fun c => (ts.tiles c).contentUnloaded)
    sorted.reverse m tsB hlen hmem hskipB hroot hrefB
    (by
      intro c hc
      obtain ⟨p1, p2, p3, p4, p5, _, _, p8⟩ := hch c hc
      have hcr : c ≠ ts.root := fun h => hroot (h ▸ hc)
      have hstc : staticOf (tsB.tiles c) = staticOf (ts.tiles c) :=
        (hstatB c hcr).trans (hstatE c)
      exact ⟨(show (tsB.tiles c).parent = (ts.tiles c).parent from
          congrArg TileStatic.parent hstc).trans p1,
        (show (tsB.tiles c).refine = (ts.tiles c).refine from
          congrArg TileStatic.refine hstc).trans p2,
        (congrArg TileStatic.children hstc).trans p3,
        (show (tsB.tiles c).hasEmptyContent = (ts.tiles c).hasEmptyContent from
          congrArg TileStatic.hasEmptyContent hstc).trans p4,
        (show (tsB.tiles c).hasTilesetContent = (ts.tiles c).hasTilesetContent from
          congrArg TileStatic.hasTilesetContent hstc).trans p5,
        (show (tsB.tiles c).contentExpired = (ts.tiles c).contentExpired from
          congrArg TileStatic.contentExpired hstc).trans p8,
        (show (tsB.tiles c).contentUnloaded = (ts.tiles c).contentUnloaded from
          congrArg TileStatic.contentUnloaded hstc)⟩)
  refine ⟨?_, ?_, f3⟩
  · rw [f1, hselB, hselE, hrootE]
    rfl
  · rw [f2, hreqB, hreqE]
    rw [List.nil_append]
    refine List.mem_filter.mpr ⟨?_, ?_⟩
    · exact List.mem_reverse.mpr (hperm.mem_iff.mpr hb)
    · rw [hbU]


unseal Rat.add Rat.sub Rat.mul Rat.inv in
/-- Witness for `selectTiles_baseUnloadedChild` at scenario S1: root 0 over
budget with leaf children `[1, 2, 3]`, child 2 unloaded. -/
theorem selectTiles_baseUnloadedChild_witness :
    ((s1.tiles s1.root).children.length + 1 ≤ 20 ∧ 2 ∈ (s1.tiles s1.root).children ∧
      (s1.tiles 2).contentUnloaded = true ∧ (s1.tiles 2).contentAvailable = false) ∧
    ((selectTiles s1 1 20).1._selectedTiles = [s1.root] ∧
      2 ∈ (selectTiles s1 1 20).1._requestedTiles ∧
      ((selectTiles s1 1 20).1.tiles s1.root)._refines = false) :=
  ⟨by decide,
    selectTiles_baseUnloadedChild s1 1 20 2 (by decide) (by decide) (by decide) (by decide)
      (by decide) (by decide) (by decide) (by decide) (by decide) (by decide) (by decide)
      (by decide) (by decide) (by decide) (by decide) (by decide) (by decide) (by decide)
      (by decide) (by decide)⟩


/-- **C2.** In every mode, provided the frame is not frozen and the frame
starts with sound selection scratch (`_shouldSelect` and the
available-ancestor links only point at loaded content — both hold after the
per-frame `updateTile` reset), after `selectTiles` every tile in
`_selectedTiles` with REPLACE refinement has `contentAvailable`, and
`_shouldSelect` is only raised on tiles with loaded content.  Content
availability is per-frame constant here, so soundness of the final state is
soundness at the moment each tile was pushed. -/
theorem selectTiles_selection_invariant (ts : Tileset) (frame : Int) (fuel : Nat)
    (hfreeze : ts.debugFreezeFrame = false)
    (hS : ShouldSelectSound ts) (hA : AncestorLinkSound ts) :
    SelectedSound (selectTiles ts frame fuel).1 ∧
    ShouldSelectSound (selectTiles ts frame fuel).1 :=
  ⟨(Inv_selectTiles ts frame fuel hfreeze hS hA).2.2,
   (Inv_selectTiles ts frame fuel hfreeze hS hA).1⟩

/-- Witness for `selectTiles_selection_invariant` at scenario S1. -/
theorem selectTiles_selection_invariant_witness :
    s1.debugFreezeFrame = false ∧
    (SelectedSound (selectTiles s1 1 20).1 ∧ ShouldSelectSound (selectTiles s1 1 20).1) :=
  ⟨rfl,
   selectTiles_selection_invariant s1 1 20 rfl
     (by
       intro id
       unfold s1 tileset0
       dsimp only
       split_ifs <;> decide)
     (by
       intro id a
       unfold s1 tileset0
       dsimp only
       split_ifs <;> exact fun h => Option.noConfusion h)⟩

end Cesium
